import Mathlib

/-!
# RenderLab: the closest-hit ray intersector

A shallow embedding of `src/CppUtil/Engine/Intersector/RayIntersector.cpp`.

The C++ code computes in `float`.  The embedding is polymorphic in the scalar
type `α`: every definition uses only the operations the source uses
(`+ - * /`, unary minus, `<`, `<=`, `==`, numerals, `sqrt`), in the order and
with the guards of the source.  Two instantiations are used below:

* a linear ordered field `K` (exact arithmetic); the statements proved there
  never rely on the value of a division by zero;
* `Flt K`, exact numbers extended with the IEEE-754 special values
  `+inf`, `-inf` and `NaN`, where a division by zero behaves as in the
  compiled program.
-/

namespace RenderLab

/-! ## Vectors -/

/-- Three scalars: stands for `Point3`, `Vec3f`, `Normalf` and `Val3f`. -/
structure Vec3 (α : Type) where
  x : α
  y : α
  z : α
  deriving DecidableEq, Repr

/-- Two scalars: stands for `Point2`. -/
structure Point2 (α : Type) where
  x : α
  y : α
  deriving DecidableEq, Repr

section Scalars

variable {α : Type} [OfNat α 0] [OfNat α 1] [OfNat α 2] [OfScientific α]
  [Add α] [Sub α] [Mul α] [Div α] [Neg α] [LT α] [LE α] [BEq α]
  [DecidableRel (fun a b : α => a < b)] [DecidableRel (fun a b : α => a ≤ b)]

namespace Vec3

/-- Component `v[i]` for `i = 0, 1, 2`. -/
def get (v : Vec3 α) (i : Fin 3) : α :=
  match i with
  | 0 => v.x
  | 1 => v.y
  | 2 => v.z

/-- Componentwise `a + b`. -/
def add (a b : Vec3 α) : Vec3 α := ⟨a.x + b.x, a.y + b.y, a.z + b.z⟩

/-- Componentwise `a - b`. -/
def sub (a b : Vec3 α) : Vec3 α := ⟨a.x - b.x, a.y - b.y, a.z - b.z⟩

/-- Scaling `k * v`. -/
def smul (k : α) (v : Vec3 α) : Vec3 α := ⟨k * v.x, k * v.y, k * v.z⟩

/-- Dot product `a.Dot(b)`. -/
def Dot (a b : Vec3 α) : α := a.x * b.x + a.y * b.y + a.z * b.z

/-- Cross product `a.Cross(b)`. -/
def Cross (a b : Vec3 α) : Vec3 α :=
  ⟨a.y * b.z - a.z * b.y, a.z * b.x - a.x * b.z, a.x * b.y - a.y * b.x⟩

/-- Squared length `v.Norm2()`. -/
def Norm2 (v : Vec3 α) : α := v.x * v.x + v.y * v.y + v.z * v.z

end Vec3

/-! ## Functions of the host libraries that are not part of the sources -/

/-- Modelled from the spec: the numeric helpers the intersector calls but whose
code is not under `src/`: `sqrt` of `<cmath>`, and `Sphere::TexcoordOf`,
`Sphere::TangentOf` ("texcoord/tangent from spherical parametrization").  They
are parameters of the embedding. -/
structure MathEnv (α : Type) where
  sqrt : α → α
  TexcoordOf : Vec3 α → Point2 α
  TangentOf : Vec3 α → Vec3 α

/-- Modelled from the spec: `Normalize` ("re-normalized"), the vector divided
by its length `sqrt(Norm2)`. -/
def Vec3.Normalize (M : MathEnv α) (v : Vec3 α) : Vec3 α :=
  let n := M.sqrt v.Norm2
  ⟨v.x / n, v.y / n, v.z / n⟩

/-! ## Ray and result -/

/-- The query ray `ERay`: origin, direction and the bounds `tMin`, `tMax`. -/
structure ERay (α : Type) where
  o : Vec3 α
  d : Vec3 α
  tMin : α
  tMax : α
  deriving DecidableEq, Repr

/-- Modelled from the spec: `Ray::At`, "point-at-parameter
(origin + t·direction)". -/
def ERay.At (r : ERay α) (t : α) : Vec3 α :=
  ⟨r.o.x + t * r.d.x, r.o.y + t * r.d.y, r.o.z + t * r.d.z⟩

/-- Modelled from the spec: `Ray::InvDir`, the "reciprocal-direction vector
used by the slab test". -/
def ERay.InvDir (r : ERay α) : Vec3 α := ⟨1 / r.d.x, 1 / r.d.y, 1 / r.d.z⟩

/-- The record `RayIntersector::Rst`; scene nodes are named by numbers and
`none` is the null pointer. -/
structure Rst (α : Type) where
  closestSObj : Option Nat
  isIntersect : Bool
  n : Vec3 α
  texcoord : Point2 α
  tangent : Vec3 α
  deriving DecidableEq, Repr

/-- The mutable state of a `RayIntersector`: the ray it points to and `rst`. -/
structure St (α : Type) where
  ray : ERay α
  rst : Rst α
  deriving DecidableEq, Repr

namespace RayIntersector

/-- The exit `rst.isIntersect = false; return;`. -/
def miss (s : St α) : St α := { s with rst := { s.rst with isIntersect := false } }

/-- The exit of a successful primitive test: `rst.isIntersect = true`,
`ray->tMax = t` and the three surface attributes. -/
def hit (s : St α) (t : α) (n : Vec3 α) (tc : Point2 α) (tg : Vec3 α) : St α :=
  { ray := { s.ray with tMax := t },
    rst := { s.rst with isIntersect := true, n := n, texcoord := tc, tangent := tg } }

/-- `RayIntersector::Init`, applied to the ray the intersector is given. -/
def Init (ray : ERay α) (old : Rst α) : St α :=
  { ray := ray, rst := { old with closestSObj := none, isIntersect := false } }

/-- `RayIntersector::Visit(Ptr<Sphere>)`. -/
def Visit_Sphere (M : MathEnv α) (s : St α) : St α :=
  let dir := s.ray.d
  let origin := s.ray.o
  let oc := origin
  let a := dir.Dot dir
  let b := oc.Dot dir
  let c := oc.Dot oc - 1
  let discriminant := b * b - a * c
  if discriminant < 0 then miss s
  else
    let tMin := s.ray.tMin
    let tMax := s.ray.tMax
    let sqrt_discriminant := M.sqrt discriminant
    let inv_a := 1 / a
    let t := -(b + sqrt_discriminant) * inv_a
    if tMax < t ∨ t < tMin then
      let t := (-b + sqrt_discriminant) * inv_a
      if tMax < t ∨ t < tMin then miss s
      else
        let n := s.ray.At t
        hit s t n (M.TexcoordOf n) (M.TangentOf n)
    else
      let n := s.ray.At t
      hit s t n (M.TexcoordOf n) (M.TangentOf n)

/-- `RayIntersector::Visit(Ptr<Plane>)`. -/
def Visit_Plane (s : St α) : St α :=
  let t := -s.ray.o.y / s.ray.d.y
  if t < s.ray.tMin ∨ s.ray.tMax < t then miss s
  else
    let pos := s.ray.At t
    if pos.x < -0.5 ∨ 0.5 < pos.x ∨ pos.z < -0.5 ∨ 0.5 < pos.z then miss s
    else hit s t ⟨0, 1, 0⟩ ⟨pos.x + 0.5, pos.z + 0.5⟩ ⟨1, 0, 0⟩

/-- `RayIntersector::Visit(Ptr<Disk>)`. -/
def Visit_Disk (s : St α) : St α :=
  let t := -s.ray.o.y / s.ray.d.y
  if t < s.ray.tMin ∨ s.ray.tMax < t then miss s
  else
    let pos := s.ray.At t
    if 1 ≤ pos.Norm2 then miss s
    else hit s t ⟨0, 1, 0⟩ ⟨(1 + pos.x) / 2, (1 + pos.z) / 2⟩ ⟨1, 0, 0⟩

/-! ### Triangles and meshes -/

end RayIntersector

/-- The vertex arrays of a `TriMesh` (`GetPositions`, `GetNormals`,
`GetTexcoords`, `GetTangents`). -/
structure MeshData (α : Type) where
  positions : List (Vec3 α)
  normals : List (Vec3 α)
  texcoords : List (Point2 α)
  tangents : List (Vec3 α)

/-- A `Triangle`: the mesh it belongs to (`GetMesh`) and its three vertex
indices `idx[0..2]`. -/
structure Triangle (α : Type) where
  mesh : MeshData α
  idx0 : Nat
  idx1 : Nat
  idx2 : Nat

/-- A `TriMesh` as the intersector sees it: `GetTriangles()`, in storage order. -/
structure TriMesh (α : Type) where
  triangles : List (Triangle α)

/-- `positions[i]` and its like on a vertex array.  An index outside the array
is a precondition violation of the mesh (undefined in the source); here it
reads the zero vector. -/
def vertexAt (l : List (Vec3 α)) (i : Nat) : Vec3 α := l.getD i ⟨0, 0, 0⟩

/-- `texcoords[i]`; the zero pair outside the array. -/
def texcoordAt (l : List (Point2 α)) (i : Nat) : Point2 α := l.getD i ⟨0, 0⟩

namespace RayIntersector

/-- `RayIntersector::Visit(Ptr<Triangle>)`. -/
def Visit_Triangle (M : MathEnv α) (triangle : Triangle α) (s : St α) : St α :=
  let mesh := triangle.mesh
  let idx1 := triangle.idx0
  let idx2 := triangle.idx1
  let idx3 := triangle.idx2
  let p1 := vertexAt mesh.positions idx1
  let p2 := vertexAt mesh.positions idx2
  let p3 := vertexAt mesh.positions idx3
  let dir := s.ray.d
  let e1 := p2.sub p1
  let e2 := p3.sub p1
  let e1_x_d := e1.Cross dir
  let denominator := e1_x_d.Dot e2
  if denominator == 0 then miss s
  else
    let inv_denominator := 1 / denominator
    let s0 := s.ray.o.sub p1
    let e2_x_s := e2.Cross s0
    let r1 := e2_x_s.Dot dir
    let u := r1 * inv_denominator
    if u < 0 ∨ 1 < u then miss s
    else
      let r2 := e1_x_d.Dot s0
      let v := r2 * inv_denominator
      if v < 0 ∨ 1 < v then miss s
      else
        let u_plus_v := u + v
        if 1 < u_plus_v then miss s
        else
          let r3 := e2_x_s.Dot e1
          let t := r3 * inv_denominator
          if t < s.ray.tMin ∨ s.ray.tMax < t then miss s
          else
            let w := 1 - u_plus_v
            let n1 := vertexAt mesh.normals idx1
            let n2 := vertexAt mesh.normals idx2
            let n3 := vertexAt mesh.normals idx3
            let tc1 := texcoordAt mesh.texcoords idx1
            let tc2 := texcoordAt mesh.texcoords idx2
            let tc3 := texcoordAt mesh.texcoords idx3
            let tg1 := vertexAt mesh.tangents idx1
            let tg2 := vertexAt mesh.tangents idx2
            let tg3 := vertexAt mesh.tangents idx3
            hit s t
              (Vec3.Normalize M (((Vec3.smul w n1).add (Vec3.smul u n2)).add (Vec3.smul v n3)))
              ⟨w * tc1.x + u * tc2.x + v * tc3.x, w * tc1.y + u * tc2.y + v * tc3.y⟩
              (Vec3.Normalize M (((Vec3.smul w tg1).add (Vec3.smul u tg2)).add (Vec3.smul v tg3)))

/-- The loop of `RayIntersector::Visit(Ptr<TriMesh>)` over the triangles that
are still to be tested. -/
def Visit_TriMesh.loop (M : MathEnv α) : List (Triangle α) → St α → St α
  | [], s => s
  | triangle :: rest, s =>
    let s1 := Visit_Triangle M triangle s
    if s1.rst.isIntersect then s1 else Visit_TriMesh.loop M rest s1

/-- `RayIntersector::Visit(Ptr<TriMesh>)`. -/
def Visit_TriMesh (M : MathEnv α) (mesh : TriMesh α) (s : St α) : St α :=
  Visit_TriMesh.loop M mesh.triangles s

/-! ### Capsule

Each `do { ... } while (false)` block is a function to `Option`: `none` is the
`break` that leaves the block, `some` a `return` from `Visit`. -/

/-- First block of `Visit(Ptr<Capsule>)`: the cylindrical side. -/
def Visit_Capsule.side (M : MathEnv α) (halfH : α) (s : St α) : Option (St α) :=
  let o := s.ray.o
  let d := s.ray.d
  let a := d.x * d.x + d.z * d.z
  let b := d.x * o.x + d.z * o.z
  let c := o.x * o.x + o.z * o.z - 1
  let discriminant := b * b - a * c
  if discriminant ≤ 0 then some (miss s)
  else
    let sqrtDiscriminant := M.sqrt discriminant
    let t := -(b + sqrtDiscriminant) / a
    let finish (t : α) : Option (St α) :=
      let pos := s.ray.At t
      if pos.y ≤ -halfH ∨ halfH ≤ pos.y then none
      else some (hit s t ⟨pos.x, 0, pos.z⟩ (M.TexcoordOf pos) (M.TangentOf pos))
    if t < s.ray.tMin ∨ s.ray.tMax < t then
      let t := (sqrtDiscriminant - b) / a
      if t < s.ray.tMin ∨ s.ray.tMax < t then none else finish t
    else finish t

/-- Second block of `Visit(Ptr<Capsule>)`: the upper hemisphere; `a` is
`d.Dot(d)`, computed between the first two blocks. -/
def Visit_Capsule.top (M : MathEnv α) (halfH a : α) (s : St α) : Option (St α) :=
  let o := s.ray.o
  let d := s.ray.d
  let center : Vec3 α := ⟨0, halfH, 0⟩
  let oc := o.sub center
  let b := d.Dot oc
  let c := oc.Norm2 - 1
  let discriminant := b * b - a * c
  if discriminant ≤ 0 then none
  else
    let sqrtDiscriminant := M.sqrt discriminant
    let t := -(b + sqrtDiscriminant) / a
    let pos := s.ray.At t
    if t < s.ray.tMin ∨ s.ray.tMax < t ∨ pos.y ≤ halfH then
      let t := (sqrtDiscriminant - b) / a
      let pos := s.ray.At t
      if t < s.ray.tMin ∨ s.ray.tMax < t ∨ pos.y ≤ halfH then none
      else some (hit s t (pos.sub center) (M.TexcoordOf pos) (M.TangentOf pos))
    else some (hit s t (pos.sub center) (M.TexcoordOf pos) (M.TangentOf pos))

/-- Third block of `Visit(Ptr<Capsule>)`: the lower hemisphere. -/
def Visit_Capsule.bottom (M : MathEnv α) (halfH a : α) (s : St α) : Option (St α) :=
  let o := s.ray.o
  let d := s.ray.d
  let center : Vec3 α := ⟨0, -halfH, 0⟩
  let oc := o.sub center
  let b := d.Dot oc
  let c := oc.Norm2 - 1
  let discriminant := b * b - a * c
  if discriminant ≤ 0 then none
  else
    let sqrtDiscriminant := M.sqrt discriminant
    let t := -(b + sqrtDiscriminant) / a
    let pos := s.ray.At t
    if t < s.ray.tMin ∨ s.ray.tMax < t ∨ -halfH ≤ pos.y then
      let t := (sqrtDiscriminant - b) / a
      let pos := s.ray.At t
      if t < s.ray.tMin ∨ s.ray.tMax < t ∨ -halfH ≤ pos.y then none
      else some (hit s t (pos.sub center) (M.TexcoordOf pos) (M.TangentOf pos))
    else some (hit s t (pos.sub center) (M.TexcoordOf pos) (M.TangentOf pos))

/-- `RayIntersector::Visit(Ptr<Capsule>)` for a capsule of the given height. -/
def Visit_Capsule (M : MathEnv α) (height : α) (s : St α) : St α :=
  let halfH := height / 2
  match Visit_Capsule.side M halfH s with
  | some r => r
  | none =>
    let a := s.ray.d.Dot s.ray.d
    match Visit_Capsule.top M halfH a s with
    | some r => r
    | none =>
      match Visit_Capsule.bottom M halfH a s with
      | some r => r
      | none => miss s

/-! ### Bounding boxes and the slab test -/

end RayIntersector

/-- An axis-aligned box `BBoxf` with its corners `minP` and `maxP`. -/
structure BBox (α : Type) where
  minP : Vec3 α
  maxP : Vec3 α

/-- `std::max(a, b)`: `(a < b) ? b : a`. -/
def stdMax (a b : α) : α := if a < b then b else a

/-- `std::min(a, b)`: `(b < a) ? b : a`. -/
def stdMin (a b : α) : α := if b < a then b else a

namespace RayIntersector

/-- The `for` loop of `RayIntersector::Intersect` over the axes still to be
visited, with the running interval `tMin`, `tMax`. -/
def Intersect.loop (bbox : BBox α) (origin invDir : Vec3 α) : List (Fin 3) → α → α → Bool
  | [], _, _ => true
  | i :: rest, tMin, tMax =>
    let invD := invDir.get i
    let t0 := (bbox.minP.get i - origin.get i) * invD
    let t1 := (bbox.maxP.get i - origin.get i) * invD
    let t0s := if invD < 0 then t1 else t0
    let t1s := if invD < 0 then t0 else t1
    let tMin := stdMax t0s tMin
    let tMax := stdMin t1s tMax
    if tMax < tMin then false else Intersect.loop bbox origin invDir rest tMin tMax

/-- `RayIntersector::Intersect(bbox, invDir)` on the current ray. -/
def Intersect (ray : ERay α) (bbox : BBox α) (invDir : Vec3 α) : Bool :=
  Intersect.loop bbox ray.o invDir [0, 1, 2] ray.tMin ray.tMax

end RayIntersector

/-! ### Shapes, transforms and the flattened BVH -/

/-- Modelled from the spec: `Transform` (not under `src/`), by what it does to a
point, a direction and a normal, and the same for its inverse. -/
structure Transform (α : Type) where
  point : Vec3 α → Vec3 α
  vector : Vec3 α → Vec3 α
  normal : Vec3 α → Vec3 α
  invPoint : Vec3 α → Vec3 α
  invVector : Vec3 α → Vec3 α
  invNormal : Vec3 α → Vec3 α

/-- Modelled from the spec: `Transform::Inverse`. -/
def Transform.Inverse (T : Transform α) : Transform α :=
  { point := T.invPoint, vector := T.invVector, normal := T.invNormal,
    invPoint := T.point, invVector := T.vector, invNormal := T.normal }

/-- Modelled from the spec: `Transform::ApplyTo(ERay &)`, which maps the origin
as a point and the direction as a vector and keeps the bounds. -/
def Transform.ApplyTo (T : Transform α) (r : ERay α) : ERay α :=
  { r with o := T.point r.o, d := T.vector r.d }

/-- The primitives an intersector can be made to visit. -/
inductive Shape (α : Type) where
  | sphere : Shape α
  | plane : Shape α
  | disk : Shape α
  | capsule (height : α) : Shape α
  | triangle (t : Triangle α) : Shape α
  | triMesh (m : TriMesh α) : Shape α

/-- `shape->Accept(visitor)`: the dispatch to the `Visit` registered for the
dynamic type of the shape. -/
def Shape.Accept (M : MathEnv α) : Shape α → St α → St α
  | .sphere, s => RayIntersector.Visit_Sphere M s
  | .plane, s => RayIntersector.Visit_Plane s
  | .disk, s => RayIntersector.Visit_Disk s
  | .capsule h, s => RayIntersector.Visit_Capsule M h s
  | .triangle t, s => RayIntersector.Visit_Triangle M t s
  | .triMesh m, s => RayIntersector.Visit_TriMesh M m s

/-- A node of the flattened hierarchy, by its accessors `GetBox`, `IsLeaf`,
`ShapesIdx`, `GetAxis` and `GetSecondChildIdx`. -/
structure LinearBVHNode (α : Type) where
  box : BBox α
  isLeaf : Bool
  shapesIdx : List Nat
  axis : Fin 3
  secondChildIdx : Nat

/-- Modelled from the spec: `LinearBVHNode::FirstChildIdx`, "first child is
implicitly the next array slot". -/
def LinearBVHNode.FirstChildIdx (nodeIdx : Nat) : Nat := nodeIdx + 1

/-- The accelerator as the intersector reads it: `GetBVHNode`, `GetShape`,
`GetShapeW2LMat` and `GetSObj` of the shape with a given index, and
`GetShapeW2LMat` of the primitive attached to a given scene node. -/
structure BVHAccel (α : Type) where
  nodes : List (LinearBVHNode α)
  shapes : List (Shape α)
  shapeW2L : Nat → Transform α
  shapeSObj : Nat → Option Nat
  sobjW2L : Nat → Transform α

namespace RayIntersector

/-- The record of one traversal, kept beside the state for the statements
below and never read by the code: the index and the reported distance of every
leaf shape whose test ended with the hit flag set, latest last. -/
abbrev HitLog (α : Type) := List (Nat × α)

/-- The inner loop of `Visit(Ptr<BVHAccel>)` over the shapes of a leaf.
`none`: a shape index outside the shape list. -/
def Visit_BVHAccel.leaf (M : MathEnv α) (bvh : BVHAccel α) (origin dir : Vec3 α) :
    List Nat → St α × HitLog α → Option (St α × HitLog α)
  | [], x => some x
  | shapeIdx :: rest, (s, log) =>
    match bvh.shapes.get? shapeIdx with
    | none => none
    | some shape =>
      let s1 : St α := { s with ray := (bvh.shapeW2L shapeIdx).ApplyTo s.ray }
      let s2 := shape.Accept M s1
      let s3 : St α := { s2 with ray := { s2.ray with o := origin, d := dir } }
      if s3.rst.isIntersect then
        Visit_BVHAccel.leaf M bvh origin dir rest
          ({ s3 with rst := { s3.rst with closestSObj := bvh.shapeSObj shapeIdx,
                                          isIntersect := false } },
           log ++ [(shapeIdx, s3.ray.tMax)])
      else Visit_BVHAccel.leaf M bvh origin dir rest (s3, log)

/-- The `while (!nodeIdxStack.empty())` loop of `Visit(Ptr<BVHAccel>)`; the
stack is a list with its top first.  The first argument bounds the number of
iterations.  `none`: the bound was reached, or a node or shape index lies
outside its array. -/
def Visit_BVHAccel.loop (M : MathEnv α) (bvh : BVHAccel α) (origin dir invDir : Vec3 α)
    (dirIsNeg : Fin 3 → Bool) : Nat → List Nat → St α × HitLog α → Option (St α × HitLog α)
  | _, [], x => some x
  | 0, _ :: _, _ => none
  | fuel + 1, nodeIdx :: stack, x =>
    match bvh.nodes.get? nodeIdx with
    | none => none
    | some node =>
      if !Intersect x.1.ray node.box invDir then
        Visit_BVHAccel.loop M bvh origin dir invDir dirIsNeg fuel stack x
      else if node.isLeaf then
        match Visit_BVHAccel.leaf M bvh origin dir node.shapesIdx x with
        | none => none
        | some x1 => Visit_BVHAccel.loop M bvh origin dir invDir dirIsNeg fuel stack x1
      else
        let firstChildIdx := LinearBVHNode.FirstChildIdx nodeIdx
        let secondChildIdx := node.secondChildIdx
        if dirIsNeg node.axis then
          Visit_BVHAccel.loop M bvh origin dir invDir dirIsNeg fuel
            (secondChildIdx :: firstChildIdx :: stack) x
        else
          Visit_BVHAccel.loop M bvh origin dir invDir dirIsNeg fuel
            (firstChildIdx :: secondChildIdx :: stack) x

/-- The code of `Visit(Ptr<BVHAccel>)` after the loop: the normal and the
tangent of a recorded hit go back through the inverse of the world-to-local
transform of the recorded node's primitive. -/
def Visit_BVHAccel.finish (M : MathEnv α) (bvh : BVHAccel α) (s : St α) : St α :=
  match s.rst.closestSObj with
  | none => s
  | some sobj =>
    let l2w := (bvh.sobjW2L sobj).Inverse
    { s with rst := { s.rst with n := Vec3.Normalize M (l2w.normal s.rst.n),
                                 tangent := Vec3.Normalize M (l2w.normal s.rst.tangent) } }

/-- `RayIntersector::Visit(Ptr<BVHAccel>)` with at most `fuel` iterations of
its loop, together with the record of the leaf tests that reported a hit. -/
def Visit_BVHAccel (M : MathEnv α) (bvh : BVHAccel α) (fuel : Nat) (s : St α) :
    Option (St α × HitLog α) :=
  let origin := s.ray.o
  let dir := s.ray.d
  let invDir := s.ray.InvDir
  let dirIsNeg : Fin 3 → Bool := fun i => decide (invDir.get i < 0)
  match Visit_BVHAccel.loop M bvh origin dir invDir dirIsNeg fuel [0] (s, []) with
  | none => none
  | some (s1, log) => some (Visit_BVHAccel.finish M bvh s1, log)

end RayIntersector

/-! ### The scene graph -/

/-- A scene node as `Visit(Ptr<SObj>)` reads it: its identity (the pointer), the
primitive of its `CmptGeometry` (`none`: no geometry component or a null
primitive), the transform of its `CmptTransform` (`none`: no such component)
and its children in order. -/
inductive SObj (α : Type) where
  | node (id : Nat) (primitive : Option (Shape α)) (transform : Option (Transform α))
      (children : List (SObj α)) : SObj α

namespace RayIntersector

/-- The record of one scene traversal, kept beside the state and never read by
the code: for every execution of `rst.closestSObj = sobj`, the node and the
normal and tangent in `rst` at that moment, latest last. -/
abbrev OwnerLog (α : Type) := List (Nat × Vec3 α × Vec3 α)

/-- `Visit(Ptr<SObj>)`, entering a node: the ray goes through the inverse of the
node's transform, when it has one. -/
def Visit_SObj.enter (transform : Option (Transform α)) (s : St α) : St α :=
  match transform with
  | some T => { s with ray := T.Inverse.ApplyTo s.ray }
  | none => s

/-- `Visit(Ptr<SObj>)`, the node's own primitive: the primitive is tested, and
the node is recorded as the closest owner if `rst.isIntersect` is then set. -/
def Visit_SObj.own (M : MathEnv α) (id : Nat) (primitive : Option (Shape α))
    (x : St α × OwnerLog α) : St α × OwnerLog α :=
  match primitive with
  | some p =>
    let sp := p.Accept M x.1
    if sp.rst.isIntersect then
      ({ sp with rst := { sp.rst with closestSObj := some id } },
        x.2 ++ [(id, sp.rst.n, sp.rst.tangent)])
    else (sp, x.2)
  | none => x

/-- `Visit(Ptr<SObj>)`, leaving a node with a transform: the ray goes through
the transform, and so do the recorded normal and tangent, followed by
`NormalizeSelf`, if the closest owner is not the one saved at entry. -/
def Visit_SObj.leave (M : MathEnv α) (transform : Option (Transform α))
    (origSObj : Option Nat) (x : St α × OwnerLog α) : St α × OwnerLog α :=
  match transform with
  | some T =>
    let s4 : St α := { x.1 with ray := T.ApplyTo x.1.ray }
    if s4.rst.closestSObj ≠ origSObj then
      ({ s4 with rst := { s4.rst with n := Vec3.Normalize M (T.normal s4.rst.n),
                                      tangent := Vec3.Normalize M (T.normal s4.rst.tangent) } },
        x.2)
    else (s4, x.2)
  | none => x

mutual
/-- `RayIntersector::Visit(Ptr<SObj>)`. -/
def Visit_SObj (M : MathEnv α) : SObj α → St α × OwnerLog α → St α × OwnerLog α
  | .node id primitive transform children, x =>
    match primitive, children with
    | none, [] => x
    | _, _ =>
      let origSObj := x.1.rst.closestSObj
      let s1 := Visit_SObj.enter transform x.1
      let x2 := Visit_SObj.own M id primitive (s1, x.2)
      let x3 := Visit_SObj.children M children x2
      Visit_SObj.leave M transform origSObj x3
/-- The loop `for (auto child : children) child->Accept(This())`. -/
def Visit_SObj.children (M : MathEnv α) : List (SObj α) → St α × OwnerLog α → St α × OwnerLog α
  | [], x => x
  | child :: rest, x => Visit_SObj.children M rest (Visit_SObj M child x)
end

end RayIntersector

end Scalars


/-- A square root on the rationals, exact on squares of rationals. -/
def ratSqrt (q : ℚ) : ℚ := (Nat.sqrt q.num.toNat : ℚ) / (Nat.sqrt q.den : ℚ)

/-- A host environment over the rationals. -/
def ratEnv : MathEnv ℚ :=
  { sqrt := ratSqrt, TexcoordOf := fun n => ⟨n.x, n.z⟩, TangentOf := fun n => ⟨n.z, 0, -n.x⟩ }

/-! ## Scene nodes and their components (`SObj.cpp`) -/

/-- The objects `SObj::AttachComponent` and `SObj::DetachComponent` work on.
Nodes, components and component types (`typeid(*component)`) are named by
numbers.  `components n t` is the entry of the map `components` of node `n`
under the type `t` (`none`: no entry), `wSObj c` the back-reference of the
component `c` (`none`: reset), `typeOf c` the dynamic type of `c`. -/
structure SceneHeap where
  components : Nat → Nat → Option Nat
  wSObj : Nat → Option Nat
  typeOf : Nat → Nat

/-- `SObj::AttachComponent(component)` called on the node `this`. -/
def SObj.AttachComponent (h : SceneHeap) (this component : Nat) : SceneHeap :=
  let target := h.components this (h.typeOf component)
  let wSObj1 : Nat → Option Nat :=
    match target with
    | some old => Function.update h.wSObj old none
    | none => h.wSObj
  { h with
    wSObj := Function.update wSObj1 component (some this),
    components := Function.update h.components this
      (Function.update (h.components this) (h.typeOf component) (some component)) }

/-- `SObj::DetachComponent(component)` called on the node `this`: the returned
flag and the objects afterwards. -/
def SObj.DetachComponent (h : SceneHeap) (this component : Nat) : Bool × SceneHeap :=
  match h.components this (h.typeOf component) with
  | none => (false, h)
  | some stored =>
    if stored ≠ component then (false, h)
    else
      (true,
        { h with
          wSObj := Function.update h.wSObj stored none,
          components := Function.update h.components this
            (Function.update (h.components this) (h.typeOf component) none) })

/-- The ownership invariant of C18: a component stored in the map of a node has
its back-reference on that node (and is stored under its own type). -/
def SceneHeap.Owned (h : SceneHeap) : Prop :=
  ∀ n t c, h.components n t = some c → h.wSObj c = some n ∧ h.typeOf c = t

/-- One call of `AttachComponent` or `DetachComponent`. -/
inductive ComponentCall where
  | attach (this component : Nat) : ComponentCall
  | detach (this component : Nat) : ComponentCall

/-- The objects after one call. -/
def ComponentCall.run (h : SceneHeap) : ComponentCall → SceneHeap
  | .attach this component => SObj.AttachComponent h this component
  | .detach this component => (SObj.DetachComponent h this component).2

/-- Nodes with empty component maps: no entries, no back-references; every
component has the type 0. -/
def emptyHeap : SceneHeap :=
  { components := fun _ _ => none, wSObj := fun _ => none, typeOf := fun _ => 0 }

/-! ## Numbers with the IEEE-754 special values

`float` arithmetic of the compiled program never traps: a division by zero
gives an infinity or NaN, and every ordered comparison with NaN is false.
`Flt K` keeps that part of the semantics over exact numbers `K`: the finite
values are the elements of `K`, computed without rounding, and there is one
zero, which divides like `+0`. -/

/-- A number of `K`, `+inf`, `-inf` or NaN. -/
inductive Flt (K : Type) where
  | fin (x : K) : Flt K
  | pinf : Flt K
  | ninf : Flt K
  | nan : Flt K
  deriving DecidableEq, Repr

namespace Flt

variable {K : Type} [LinearOrderedField K]

/-- Unary minus. -/
def neg : Flt K → Flt K
  | fin x => fin (-x)
  | pinf => ninf
  | ninf => pinf
  | nan => nan

/-- Addition: `inf + (-inf)` is NaN. -/
def add : Flt K → Flt K → Flt K
  | fin x, fin y => fin (x + y)
  | nan, _ => nan
  | _, nan => nan
  | pinf, ninf => nan
  | ninf, pinf => nan
  | pinf, _ => pinf
  | _, pinf => pinf
  | ninf, _ => ninf
  | _, ninf => ninf

/-- The infinity with the sign of `x`, NaN for `x = 0`: the product `x * inf`. -/
def signedInf (x : K) : Flt K := if x = 0 then nan else if 0 < x then pinf else ninf

/-- Multiplication: `0 * inf` is NaN. -/
def mul : Flt K → Flt K → Flt K
  | fin x, fin y => fin (x * y)
  | nan, _ => nan
  | _, nan => nan
  | fin x, pinf => signedInf x
  | fin x, ninf => signedInf (-x)
  | pinf, fin y => signedInf y
  | ninf, fin y => signedInf (-y)
  | pinf, pinf => pinf
  | pinf, ninf => ninf
  | ninf, pinf => ninf
  | ninf, ninf => pinf

/-- Division: `x / 0` is an infinity with the sign of `x`, `0 / 0` and
`inf / inf` are NaN, a finite number over an infinity is zero. -/
def div : Flt K → Flt K → Flt K
  | fin x, fin y => if y = 0 then signedInf x else fin (x / y)
  | nan, _ => nan
  | _, nan => nan
  | fin _, pinf => fin 0
  | fin _, ninf => fin 0
  | pinf, fin y => if y < 0 then ninf else pinf
  | ninf, fin y => if y < 0 then pinf else ninf
  | pinf, pinf => nan
  | pinf, ninf => nan
  | ninf, pinf => nan
  | ninf, ninf => nan

/-- The comparison `a < b`, false when either side is NaN. -/
def blt : Flt K → Flt K → Bool
  | fin x, fin y => decide (x < y)
  | nan, _ => false
  | _, nan => false
  | ninf, ninf => false
  | ninf, _ => true
  | _, ninf => false
  | pinf, _ => false
  | fin _, pinf => true

/-- The comparison `a <= b`, false when either side is NaN. -/
def ble : Flt K → Flt K → Bool
  | fin x, fin y => decide (x ≤ y)
  | nan, _ => false
  | _, nan => false
  | ninf, _ => true
  | _, pinf => true
  | pinf, _ => false
  | fin _, ninf => false

/-- The comparison `a == b`, false when either side is NaN. -/
def beq : Flt K → Flt K → Bool
  | fin x, fin y => decide (x = y)
  | pinf, pinf => true
  | ninf, ninf => true
  | _, _ => false

/-- The square root, given one on `K`: NaN below zero. -/
def sqrt (f : K → K) : Flt K → Flt K
  | fin x => if x < 0 then nan else fin (f x)
  | pinf => pinf
  | ninf => nan
  | nan => nan

instance : OfNat (Flt K) 0 := ⟨fin 0⟩
instance : OfNat (Flt K) 1 := ⟨fin 1⟩
instance : OfNat (Flt K) 2 := ⟨fin 2⟩
instance : OfScientific (Flt K) := ⟨fun m e k => fin (OfScientific.ofScientific m e k)⟩
instance : Neg (Flt K) := ⟨neg⟩
instance : Add (Flt K) := ⟨add⟩
instance : Sub (Flt K) := ⟨fun a b => add a (neg b)⟩
instance : Mul (Flt K) := ⟨mul⟩
instance : Div (Flt K) := ⟨div⟩
instance : LT (Flt K) := ⟨fun a b => blt a b = true⟩
instance : LE (Flt K) := ⟨fun a b => ble a b = true⟩
instance : BEq (Flt K) := ⟨beq⟩
instance : DecidableRel (fun a b : Flt K => a < b) := fun a b => inferInstanceAs (Decidable (blt a b = true))
instance : DecidableRel (fun a b : Flt K => a ≤ b) := fun a b => inferInstanceAs (Decidable (ble a b = true))

/-- The host environment over `Flt K` that a host environment over `K` gives. -/
def env (M : MathEnv K) : MathEnv (Flt K) :=
  { sqrt := sqrt M.sqrt,
    TexcoordOf := fun n =>
      match n with
      | ⟨fin x, fin y, fin z⟩ => ⟨fin (M.TexcoordOf ⟨x, y, z⟩).x, fin (M.TexcoordOf ⟨x, y, z⟩).y⟩
      | _ => ⟨nan, nan⟩,
    TangentOf := fun n =>
      match n with
      | ⟨fin x, fin y, fin z⟩ =>
        ⟨fin (M.TangentOf ⟨x, y, z⟩).x, fin (M.TangentOf ⟨x, y, z⟩).y,
          fin (M.TangentOf ⟨x, y, z⟩).z⟩
      | _ => ⟨nan, nan, nan⟩ }

end Flt

/-! ## Numbers of the type `float`

The scalars of the source are `float`: every operation gives the binary32
number nearest to its exact result, ties going to the even mantissa.  `F32`
keeps that: finite numbers `m * 2 ^ e`, the infinities and NaN, with each
operation rounded once (no wider intermediate results, no fused
multiply-add).  As in `Flt` there is one zero, which divides like `+0`. -/

/-- A binary32 number: `fin m e` is `m * 2 ^ e`.  The operations below return
it with `2 ^ 23 <= |m| < 2 ^ 24` and `-149 <= e <= 104`, or with a smaller `m`
and `e = -149` (subnormal), or as `fin 0 0`. -/
inductive F32 where
  | fin (m : Int) (e : Int) : F32
  | pinf : F32
  | ninf : F32
  | nan : F32
  deriving DecidableEq, Repr

namespace F32

/-- The number of binary digits of `n`, with a bound on the number of steps. -/
def bitsAux : Nat → Nat → Nat
  | 0, _ => 0
  | fuel + 1, n => if n = 0 then 0 else bitsAux fuel (n / 2) + 1

/-- The number of binary digits of `n`. -/
def bits (n : Nat) : Nat := bitsAux n n

/-- The binary32 number nearest to `n / d * 2 ^ s` (for `d > 0`), ties to the
even mantissa: `k` is the binary exponent of the quotient, `e` the exponent of
the last kept digit (not below `-149`), `q` and `r` the quotient and the
remainder at that digit; a mantissa rounded up to `2 ^ 24` moves to the next
exponent, and an exponent above `104` overflows to an infinity. -/
def round (n : Int) (d : Nat) (s : Int) : F32 :=
  if n = 0 ∨ d = 0 then fin 0 0
  else
    let a := n.natAbs
    let k0 : Int := (bits a : Int) - (bits d : Int)
    let ge : Bool :=
      if 0 ≤ k0 then decide (d * 2 ^ k0.toNat ≤ a) else decide (d ≤ a * 2 ^ (-k0).toNat)
    let k : Int := if ge then k0 else k0 - 1
    let e : Int := max (k + s - 23) (-149)
    let t : Int := s - e
    let N : Nat := if 0 ≤ t then a * 2 ^ t.toNat else a
    let D : Nat := if 0 ≤ t then d else d * 2 ^ (-t).toNat
    let q := N / D
    let r := N % D
    let m := if D < 2 * r ∨ (2 * r = D ∧ q % 2 = 1) then q + 1 else q
    let m1 := if m = 2 ^ 24 then 2 ^ 23 else m
    let e1 := if m = 2 ^ 24 then e + 1 else e
    if 104 < e1 then (if 0 < n then pinf else ninf)
    else if m1 = 0 then fin 0 0
    else fin (if 0 < n then (m1 : Int) else -(m1 : Int)) e1

/-- Unary minus. -/
def neg : F32 → F32
  | fin m e => fin (-m) e
  | pinf => ninf
  | ninf => pinf
  | nan => nan

/-- The numerator of `m * 2 ^ e` over `2 ^ e0`, for `e0 <= e`. -/
def scale (m e e0 : Int) : Int := m * ((2 ^ (e - e0).toNat : Nat) : Int)

/-- Addition: the rounded sum; `inf + (-inf)` is NaN. -/
def add : F32 → F32 → F32
  | fin m1 e1, fin m2 e2 =>
    round (scale m1 e1 (min e1 e2) + scale m2 e2 (min e1 e2)) 1 (min e1 e2)
  | nan, _ => nan
  | _, nan => nan
  | pinf, ninf => nan
  | ninf, pinf => nan
  | pinf, _ => pinf
  | _, pinf => pinf
  | ninf, _ => ninf
  | _, ninf => ninf

/-- The infinity with the sign of `m`, NaN for `m = 0`. -/
def signedInf (m : Int) : F32 := if m = 0 then nan else if 0 < m then pinf else ninf

/-- Multiplication: the rounded product; `0 * inf` is NaN. -/
def mul : F32 → F32 → F32
  | fin m1 e1, fin m2 e2 => round (m1 * m2) 1 (e1 + e2)
  | nan, _ => nan
  | _, nan => nan
  | fin m _, pinf => signedInf m
  | fin m _, ninf => signedInf (-m)
  | pinf, fin m _ => signedInf m
  | ninf, fin m _ => signedInf (-m)
  | pinf, pinf => pinf
  | pinf, ninf => ninf
  | ninf, pinf => ninf
  | ninf, ninf => pinf

/-- Division: the rounded quotient; `x / 0` is an infinity with the sign of `x`,
`0 / 0` and `inf / inf` are NaN, a finite number over an infinity is zero. -/
def div : F32 → F32 → F32
  | fin m1 e1, fin m2 e2 =>
    if m2 = 0 then signedInf m1
    else round (if 0 < m2 then m1 else -m1) m2.natAbs (e1 - e2)
  | nan, _ => nan
  | _, nan => nan
  | fin _ _, pinf => fin 0 0
  | fin _ _, ninf => fin 0 0
  | pinf, fin m _ => if m < 0 then ninf else pinf
  | ninf, fin m _ => if m < 0 then pinf else ninf
  | pinf, pinf => nan
  | pinf, ninf => nan
  | ninf, pinf => nan
  | ninf, ninf => nan

/-- The comparison `a < b`, false when either side is NaN. -/
def blt : F32 → F32 → Bool
  | fin m1 e1, fin m2 e2 => decide (scale m1 e1 (min e1 e2) < scale m2 e2 (min e1 e2))
  | nan, _ => false
  | _, nan => false
  | ninf, ninf => false
  | ninf, _ => true
  | _, ninf => false
  | pinf, _ => false
  | fin _ _, pinf => true

/-- The comparison `a <= b`, false when either side is NaN. -/
def ble : F32 → F32 → Bool
  | fin m1 e1, fin m2 e2 => decide (scale m1 e1 (min e1 e2) ≤ scale m2 e2 (min e1 e2))
  | nan, _ => false
  | _, nan => false
  | ninf, _ => true
  | _, pinf => true
  | pinf, _ => false
  | fin _ _, ninf => false

/-- The comparison `a == b` of the values, false when either side is NaN. -/
def beq : F32 → F32 → Bool
  | fin m1 e1, fin m2 e2 => decide (scale m1 e1 (min e1 e2) = scale m2 e2 (min e1 e2))
  | pinf, pinf => true
  | ninf, ninf => true
  | _, _ => false

/-- The integer part of the square root of `n`, found bit by bit from bit
`k - 1` down, `r` being the part found so far. -/
def isqrtAux (n : Nat) : Nat → Nat → Nat
  | 0, r => r
  | k + 1, r => isqrtAux n k (if (r + 2 ^ k) * (r + 2 ^ k) ≤ n then r + 2 ^ k else r)

/-- The integer part of the square root of `n`. -/
def isqrt (n : Nat) : Nat := isqrtAux n (bits n / 2 + 1) 0

/-- The square root, rounded: the operand is scaled to an integer `M` of more
than sixty digits over an even power of two, and the integer part `r` of its
root, with half a unit added when `M` is not a square, is rounded.  NaN below
zero. -/
def sqrt : F32 → F32
  | fin m e =>
    if m < 0 then nan
    else
      let t : Int := 60 + e % 2
      let M : Nat := m.natAbs * 2 ^ t.toNat
      let r := isqrt M
      round ((2 * r + (if r * r = M then 0 else 1) : Nat) : Int) 1 ((e - t) / 2 - 1)
  | pinf => pinf
  | ninf => nan
  | nan => nan

/-- The exact value of a finite number; zero for the infinities and NaN. -/
def toRat : F32 → ℚ
  | fin m e => (m : ℚ) * (2 : ℚ) ^ e
  | _ => 0

instance (n : Nat) : OfNat F32 n := ⟨round n 1 0⟩
instance : OfScientific F32 :=
  ⟨fun m s e => if s then round m (10 ^ e) 0 else round ((m * 10 ^ e : Nat) : Int) 1 0⟩
instance : Neg F32 := ⟨neg⟩
instance : Add F32 := ⟨add⟩
instance : Sub F32 := ⟨fun a b => add a (neg b)⟩
instance : Mul F32 := ⟨mul⟩
instance : Div F32 := ⟨div⟩
instance : LT F32 := ⟨fun a b => blt a b = true⟩
instance : LE F32 := ⟨fun a b => ble a b = true⟩
instance : BEq F32 := ⟨beq⟩
instance : DecidableRel (fun a b : F32 => a < b) :=
  fun a b => inferInstanceAs (Decidable (blt a b = true))
instance : DecidableRel (fun a b : F32 => a ≤ b) :=
  fun a b => inferInstanceAs (Decidable (ble a b = true))

end F32

/-- The exact values of the components of a binary32 vector. -/
def Vec3.exact (v : Vec3 F32) : Vec3 ℚ := ⟨v.x.toRat, v.y.toRat, v.z.toRat⟩

/-- The exact values of the fields of a binary32 ray. -/
def ERay.exact (r : ERay F32) : ERay ℚ :=
  { o := r.o.exact, d := r.d.exact, tMin := r.tMin.toRat, tMax := r.tMax.toRat }

/-- The exact values of the corners of a binary32 box. -/
def BBox.exact (b : BBox F32) : BBox ℚ := ⟨b.minP.exact, b.maxP.exact⟩

/-- A host environment over binary32: the rounded square root, and for
`Sphere::TexcoordOf` and `Sphere::TangentOf` the stand-ins of `ratEnv`. -/
def f32Env : MathEnv F32 :=
  { sqrt := F32.sqrt, TexcoordOf := fun n => ⟨n.x, n.z⟩, TangentOf := fun n => ⟨n.z, 0, -n.x⟩ }

/-! ## The output contract of a primitive test -/

/-- The shared output contract of a primitive test `f`, at the state `s`: origin,
direction and `tMin` are kept; without a hit `tMax` is kept; with a hit the new
`tMax` (the reported distance) lies between `tMin` and the `tMax` at call time. -/
def ContractAt {α : Type} [LE α] (f : St α → St α) (s : St α) : Prop :=
  (f s).ray.o = s.ray.o ∧ (f s).ray.d = s.ray.d ∧ (f s).ray.tMin = s.ray.tMin ∧
  ((f s).rst.isIntersect = false → (f s).ray.tMax = s.ray.tMax) ∧
  ((f s).rst.isIntersect = true → s.ray.tMin ≤ (f s).ray.tMax ∧ (f s).ray.tMax ≤ s.ray.tMax)

/-- The two ways a primitive test can end at `s`: the exit `miss`, or the exit
`hit` with a distance inside the bounds of `s`. -/
def Outcome {α : Type} [LE α] (s r : St α) : Prop :=
  r = RayIntersector.miss s ∨
  ∃ t n tc tg, r = RayIntersector.hit s t n tc tg ∧ s.ray.tMin ≤ t ∧ t ≤ s.ray.tMax

/-- The discriminant `b * b - a * c` that `Visit(Ptr<Sphere>)` computes for a ray. -/
def sphereDiscriminant {α : Type} [OfNat α 1] [Add α] [Sub α] [Mul α] (r : ERay α) : α :=
  r.o.Dot r.d * r.o.Dot r.d - r.d.Dot r.d * (r.o.Dot r.o - 1)

/-- The root `-(b + sqrt(discriminant)) * inv_a` that `Visit(Ptr<Sphere>)` tries first. -/
def sphereRootNear {α : Type} [OfNat α 1] [Add α] [Sub α] [Mul α] [Div α] [Neg α]
    (M : MathEnv α) (r : ERay α) : α :=
  -(r.o.Dot r.d + M.sqrt (sphereDiscriminant r)) * (1 / r.d.Dot r.d)

/-- The root `(-b + sqrt(discriminant)) * inv_a` that `Visit(Ptr<Sphere>)` tries second. -/
def sphereRootFar {α : Type} [OfNat α 1] [Add α] [Sub α] [Mul α] [Div α] [Neg α]
    (M : MathEnv α) (r : ERay α) : α :=
  (-(r.o.Dot r.d) + M.sqrt (sphereDiscriminant r)) * (1 / r.d.Dot r.d)

/-- The host square root is exact at `x`: it returns the non-negative number
whose square is `x`, when `x` is not negative. -/
def SqrtExactAt {α : Type} [OfNat α 0] [LE α] [Mul α] (M : MathEnv α) (x : α) : Prop :=
  0 ≤ x → 0 ≤ M.sqrt x ∧ M.sqrt x * M.sqrt x = x

/-! ## The quantities of the triangle test -/

section TriangleQuantities

variable {α : Type} [OfNat α 0] [OfNat α 1] [Add α] [Sub α] [Mul α] [Div α]

/-- First vertex position `p1 = positions[idx[0]]` of a triangle. -/
def Triangle.p1 (tr : Triangle α) : Vec3 α := vertexAt tr.mesh.positions tr.idx0

/-- Second vertex position `p2 = positions[idx[1]]` of a triangle. -/
def Triangle.p2 (tr : Triangle α) : Vec3 α := vertexAt tr.mesh.positions tr.idx1

/-- Third vertex position `p3 = positions[idx[2]]` of a triangle. -/
def Triangle.p3 (tr : Triangle α) : Vec3 α := vertexAt tr.mesh.positions tr.idx2

/-- The `denominator` `(e1 x d) . e2` of `Visit(Ptr<Triangle>)`. -/
def Triangle.denominator (tr : Triangle α) (r : ERay α) : α :=
  ((tr.p2.sub tr.p1).Cross r.d).Dot (tr.p3.sub tr.p1)

/-- The weight `u = r1 * inv_denominator` of `Visit(Ptr<Triangle>)`. -/
def Triangle.u (tr : Triangle α) (r : ERay α) : α :=
  (((tr.p3.sub tr.p1).Cross (r.o.sub tr.p1)).Dot r.d) * (1 / tr.denominator r)

/-- The weight `v = r2 * inv_denominator` of `Visit(Ptr<Triangle>)`. -/
def Triangle.v (tr : Triangle α) (r : ERay α) : α :=
  (((tr.p2.sub tr.p1).Cross r.d).Dot (r.o.sub tr.p1)) * (1 / tr.denominator r)

/-- The distance `t = r3 * inv_denominator` of `Visit(Ptr<Triangle>)`. -/
def Triangle.t (tr : Triangle α) (r : ERay α) : α :=
  (((tr.p3.sub tr.p1).Cross (r.o.sub tr.p1)).Dot (tr.p2.sub tr.p1)) * (1 / tr.denominator r)

/-- The combination `w * a1 + u * a2 + v * a3` of three vectors. -/
def bary3 (w u v : α) (a1 a2 a3 : Vec3 α) : Vec3 α :=
  ((Vec3.smul w a1).add (Vec3.smul u a2)).add (Vec3.smul v a3)

/-- The combination `w * a1 + u * a2 + v * a3` of three texture coordinates. -/
def bary2 (w u v : α) (a1 a2 a3 : Point2 α) : Point2 α :=
  ⟨w * a1.x + u * a2.x + v * a3.x, w * a1.y + u * a2.y + v * a3.y⟩

end TriangleQuantities

section SlabQuantities

variable {α : Type} [OfNat α 0] [Sub α] [Mul α] [LT α] [DecidableRel (fun a b : α => a < b)]

/-- Entry distance of the slab test on axis `i`: `t0` after the `swap`. -/
def slabEntry (bbox : BBox α) (origin invDir : Vec3 α) (i : Fin 3) : α :=
  if invDir.get i < 0 then (bbox.maxP.get i - origin.get i) * invDir.get i
  else (bbox.minP.get i - origin.get i) * invDir.get i

/-- Exit distance of the slab test on axis `i`: `t1` after the `swap`. -/
def slabExit (bbox : BBox α) (origin invDir : Vec3 α) (i : Fin 3) : α :=
  if invDir.get i < 0 then (bbox.minP.get i - origin.get i) * invDir.get i
  else (bbox.maxP.get i - origin.get i) * invDir.get i

/-- The running interval of the slab test after all the axes of a list, computed
without the early reject. -/
def slabInterval (bbox : BBox α) (origin invDir : Vec3 α) : List (Fin 3) → α × α → α × α
  | [], p => p
  | i :: rest, (tMin, tMax) =>
    slabInterval bbox origin invDir rest
      (stdMax (slabEntry bbox origin invDir i) tMin, stdMin (slabExit bbox origin invDir i) tMax)

end SlabQuantities

/-- The invariant of the loops of `Visit(Ptr<BVHAccel>)`, for the `tMax` at
entry: the reported distances never increase, the current `tMax` is the latest
reported distance (the entry value when there is none) and is below all of
them, and the recorded owner is the scene node of the latest reporting shape. -/
def BVHInv {α : Type} [LE α] (bvh : BVHAccel α) (tMax0 : α) (owner0 : Option Nat)
    (x : St α × RayIntersector.HitLog α) : Prop :=
  List.Pairwise (fun a b => b ≤ a) (tMax0 :: x.2.map Prod.snd) ∧
  (∀ a ∈ tMax0 :: x.2.map Prod.snd, x.1.ray.tMax ≤ a) ∧
  (x.2 = [] → x.1.ray.tMax = tMax0 ∧ x.1.rst.closestSObj = owner0) ∧
  (∀ init e, x.2 = init ++ [e] →
    x.1.rst.closestSObj = bvh.shapeSObj e.1 ∧ e.2 = x.1.ray.tMax)

/-! ## The quantities of the capsule test -/

/-- The discriminant of the side quadratic (in x and z) of `Visit(Ptr<Capsule>)`. -/
def capsuleSideDiscriminant {α : Type} [OfNat α 1] [Add α] [Sub α] [Mul α] (r : ERay α) : α :=
  (r.d.x * r.o.x + r.d.z * r.o.z) * (r.d.x * r.o.x + r.d.z * r.o.z) -
    (r.d.x * r.d.x + r.d.z * r.d.z) * (r.o.x * r.o.x + r.o.z * r.o.z - 1)

/-- The discriminant that `Visit(Ptr<Capsule>)` computes for the unit sphere
centred at `(0, cy, 0)`: `cy = halfH` for the upper hemisphere, `cy = -halfH` for
the lower one. -/
def capsuleCapDiscriminant {α : Type} [OfNat α 0] [OfNat α 1] [Add α] [Sub α] [Mul α]
    (cy : α) (r : ERay α) : α :=
  r.d.Dot (r.o.sub ⟨0, cy, 0⟩) * r.d.Dot (r.o.sub ⟨0, cy, 0⟩) -
    r.d.Dot r.d * ((r.o.sub ⟨0, cy, 0⟩).Norm2 - 1)

section CapsuleRoots

variable {α : Type} [OfNat α 0] [OfNat α 1] [Add α] [Sub α] [Mul α] [Div α] [Neg α] [LE α]
  [DecidableRel (fun a b : α => a ≤ b)]

/-- The root `-(b + sqrtDiscriminant) / a` that the side block tries first. -/
def capsuleSideRootNear (M : MathEnv α) (r : ERay α) : α :=
  -(r.d.x * r.o.x + r.d.z * r.o.z + M.sqrt (capsuleSideDiscriminant r)) /
    (r.d.x * r.d.x + r.d.z * r.d.z)

/-- The root `(sqrtDiscriminant - b) / a` that the side block tries second. -/
def capsuleSideRootFar (M : MathEnv α) (r : ERay α) : α :=
  (M.sqrt (capsuleSideDiscriminant r) - (r.d.x * r.o.x + r.d.z * r.o.z)) /
    (r.d.x * r.d.x + r.d.z * r.d.z)

/-- The root the side block selects: the smaller root if it lies in
`[tMin, tMax]`, else the larger one if that lies in range. -/
def capsuleSideRoot (M : MathEnv α) (r : ERay α) : Option α :=
  if r.tMin ≤ capsuleSideRootNear M r ∧ capsuleSideRootNear M r ≤ r.tMax then
    some (capsuleSideRootNear M r)
  else if r.tMin ≤ capsuleSideRootFar M r ∧ capsuleSideRootFar M r ≤ r.tMax then
    some (capsuleSideRootFar M r)
  else none

end CapsuleRoots

/-! ## Paths in the scene graph -/

mutual
/-- The identities of the nodes of a scene tree, in the order of the visit. -/
def SObj.ids {α : Type} : SObj α → List Nat
  | .node id _ _ children => id :: SObj.idsList children
/-- The identities of the nodes of a list of scene trees. -/
def SObj.idsList {α : Type} : List (SObj α) → List Nat
  | [] => []
  | child :: rest => SObj.ids child ++ SObj.idsList rest
end

mutual
/-- The transforms of all the nodes of a scene tree. -/
def SObj.transforms {α : Type} : SObj α → List (Transform α)
  | .node _ _ transform children => transform.toList ++ SObj.transformsList children
/-- The transforms of all the nodes of a list of scene trees. -/
def SObj.transformsList {α : Type} : List (SObj α) → List (Transform α)
  | [] => []
  | child :: rest => SObj.transforms child ++ SObj.transformsList rest
end

mutual
/-- The transforms on the way from the node `target` up to the root of a scene
tree, innermost first: the transform of `target` itself (if it has one), then
those of its ancestors.  `none`: no node of the tree has this identity. -/
def SObj.pathTransforms {α : Type} (target : Nat) : SObj α → Option (List (Transform α))
  | .node id _ transform children =>
    if id = target then some transform.toList
    else
      match SObj.pathTransformsList target children with
      | some l => some (l ++ transform.toList)
      | none => none
/-- The same, in the first tree of a list that has a node `target`. -/
def SObj.pathTransformsList {α : Type} (target : Nat) :
    List (SObj α) → Option (List (Transform α))
  | [] => none
  | child :: rest =>
    match SObj.pathTransforms target child with
    | some l => some l
    | none => SObj.pathTransformsList target rest
end

/-- A normal or tangent taken through a list of transforms, first to last, and
normalised after each. -/
def reproject {α : Type} [Mul α] [Add α] [Div α] (M : MathEnv α) (l : List (Transform α))
    (v : Vec3 α) : Vec3 α :=
  l.foldl (fun w T => Vec3.Normalize M (T.normal w)) v

/-- A transform whose forward map undoes its inverse on points and directions:
`T` applied after `T.Inverse()` is the identity. -/
def Transform.Invertible {α : Type} (T : Transform α) : Prop :=
  (∀ p, T.point (T.invPoint p) = p) ∧ (∀ v, T.vector (T.invVector v) = v)

/-- The ray of `r` has the origin, the direction and the `tMin` of the ray of `s`. -/
def RayKept {α : Type} (s r : St α) : Prop :=
  r.ray.o = s.ray.o ∧ r.ray.d = s.ray.d ∧ r.ray.tMin = s.ray.tMin

/-- The closest owner recorded in `x` is not one of the nodes `ids`. -/
def OwnerNotIn {α : Type} (x : St α × RayIntersector.OwnerLog α) (ids : List Nat) : Prop :=
  ∀ k, x.1.rst.closestSObj = some k → k ∉ ids

/-- A part of the scene traversal, from `x` to `y`, in which no owner was
recorded: the record, the closest owner, the normal and the tangent are kept. -/
def OwnerKept {α : Type} (x y : St α × RayIntersector.OwnerLog α) : Prop :=
  y.2 = x.2 ∧ y.1.rst.closestSObj = x.1.rst.closestSObj ∧ y.1.rst.n = x.1.rst.n ∧
  y.1.rst.tangent = x.1.rst.tangent

/-- A part of the scene traversal, from `x` to `y`, in which an owner was
recorded, the last one being the node `N` with the normal `n` and the tangent
`g`: `N` is the closest owner in `y`, and the normal and the tangent in `y` are
`n` and `g` taken through the transforms `path N`. -/
def OwnerReprojected {α : Type} [Mul α] [Add α] [Div α] (M : MathEnv α)
    (path : Nat → Option (List (Transform α))) (x y : St α × RayIntersector.OwnerLog α) : Prop :=
  ∃ (pre : RayIntersector.OwnerLog α) (N : Nat) (n g : Vec3 α) (l : List (Transform α)),
    y.2 = x.2 ++ pre ++ [(N, n, g)] ∧ y.1.rst.closestSObj = some N ∧ path N = some l ∧
    y.1.rst.n = reproject M l n ∧ y.1.rst.tangent = reproject M l g

section SubVisits

variable {α : Type} [OfNat α 0] [OfNat α 1] [OfNat α 2] [OfScientific α]
  [Add α] [Sub α] [Mul α] [Div α] [Neg α] [LT α] [LE α] [BEq α]
  [DecidableRel (fun a b : α => a < b)] [DecidableRel (fun a b : α => a ≤ b)]

/-- The visits that take place during `Visit(root)` from `x0`: the visit of
`root` itself, and, for a visited node with children, the visit of each child
from where the node's own test and the visits of the earlier children have led. -/
inductive SubVisit (M : MathEnv α) (root : SObj α) (x0 : St α × RayIntersector.OwnerLog α) :
    SObj α → St α × RayIntersector.OwnerLog α → Prop
  | root : SubVisit M root x0 root x0
  | child (id : Nat) (p : Option (Shape α)) (T : Option (Transform α))
      (before : List (SObj α)) (c : SObj α) (after : List (SObj α))
      (x : St α × RayIntersector.OwnerLog α) :
      SubVisit M root x0 (.node id p T (before ++ c :: after)) x →
      SubVisit M root x0 c
        (RayIntersector.Visit_SObj.children M before
          (RayIntersector.Visit_SObj.own M id p (RayIntersector.Visit_SObj.enter T x.1, x.2)))

end SubVisits

/-! ## The tree behind a flattened hierarchy -/

/-- The tree of a flattened hierarchy: a leaf at an array index with its shape
indices, or an internal node at an array index over its two subtrees. -/
inductive BVHTree where
  | leaf (idx : Nat) (shapesIdx : List Nat) : BVHTree
  | node (idx : Nat) (first second : BVHTree) : BVHTree

/-- The array index of the root of a tree. -/
def BVHTree.idx : BVHTree → Nat
  | .leaf idx _ => idx
  | .node idx _ _ => idx

/-- The shape indices in the leaves of a tree, first subtree first. -/
def BVHTree.shapes : BVHTree → List Nat
  | .leaf _ shapesIdx => shapesIdx
  | .node _ first second => first.shapes ++ second.shapes

/-- The number of nodes of a tree. -/
def BVHTree.size : BVHTree → Nat
  | .leaf _ _ => 1
  | .node _ first second => first.size + second.size + 1

section BVHTrees

variable {α : Type} [OfNat α 0] [OfNat α 1] [OfNat α 2] [OfScientific α]
  [Add α] [Sub α] [Mul α] [Div α] [Neg α] [LT α] [LE α] [BEq α]
  [DecidableRel (fun a b : α => a < b)] [DecidableRel (fun a b : α => a ≤ b)]

/-- The node array of `bvh` is the flattening of the tree: every node of the
tree is in the array at its index, a leaf of the tree is a leaf of the array
with these shape indices, all inside the shape list, and an internal node at
index `i` has its first subtree at `i + 1` and its second subtree at its
second-child index. -/
def BVHAccel.Realizes (bvh : BVHAccel α) : BVHTree → Prop
  | .leaf idx shapesIdx =>
    ∃ node, bvh.nodes.get? idx = some node ∧ node.isLeaf = true ∧
      node.shapesIdx = shapesIdx ∧ ∀ k ∈ shapesIdx, k < bvh.shapes.length
  | .node idx first second =>
    ∃ node, bvh.nodes.get? idx = some node ∧ node.isLeaf = false ∧
      first.idx = LinearBVHNode.FirstChildIdx idx ∧ second.idx = node.secondChildIdx ∧
      bvh.Realizes first ∧ bvh.Realizes second

/-- The leaf shape tests of `bvh` are exact nearest-hit tests on the line of
`ray`: `dist k` is the distance of the nearest intersection of shape `k` at or
after `tMin` (`none`: there is none), and the test of shape `k`, as the leaf
loop runs it on a ray with this origin, direction and `tMin`, reports a hit at
`dist k` when that is at most the current `tMax`, and otherwise reports no hit
and keeps `tMax`. -/
def ExactTests (M : MathEnv α) (bvh : BVHAccel α) (ray : ERay α) (dist : Nat → Option α) :
    Prop :=
  (∀ k d, dist k = some d → ray.tMin ≤ d) ∧
  ∀ k shape, bvh.shapes.get? k = some shape →
    ∀ s : St α, s.ray.o = ray.o → s.ray.d = ray.d → s.ray.tMin = ray.tMin →
      ((∃ d, dist k = some d ∧ d ≤ s.ray.tMax) →
        (shape.Accept M { s with ray := (bvh.shapeW2L k).ApplyTo s.ray }).rst.isIntersect = true ∧
        dist k =
          some (shape.Accept M { s with ray := (bvh.shapeW2L k).ApplyTo s.ray }).ray.tMax) ∧
      ((∀ d, dist k = some d → s.ray.tMax < d) →
        (shape.Accept M { s with ray := (bvh.shapeW2L k).ApplyTo s.ray }).rst.isIntersect = false ∧
        (shape.Accept M { s with ray := (bvh.shapeW2L k).ApplyTo s.ray }).ray.tMax = s.ray.tMax)

/-- The box of the root of `t` passes the slab test on every ray with the
origin and `tMin` of `ray` in whose interval `[tMin, tMax]` some shape of `t`
has its intersection. -/
def BoxPass (bvh : BVHAccel α) (ray : ERay α) (dist : Nat → Option α) (t : BVHTree) : Prop :=
  ∀ node, bvh.nodes.get? t.idx = some node →
    ∀ r : ERay α, r.o = ray.o → r.tMin = ray.tMin →
      (∃ k ∈ t.shapes, ∃ d, dist k = some d ∧ ray.tMin ≤ d ∧ d ≤ r.tMax) →
      RayIntersector.Intersect r node.box ray.InvDir = true

/-- `BoxPass` at every node of the tree. -/
def BoxesPass (bvh : BVHAccel α) (ray : ERay α) (dist : Nat → Option α) : BVHTree → Prop
  | .leaf idx shapesIdx => BoxPass bvh ray dist (.leaf idx shapesIdx)
  | .node idx first second =>
    BoxPass bvh ray dist (.node idx first second) ∧
    BoxesPass bvh ray dist first ∧ BoxesPass bvh ray dist second

/-- Testing the shapes `order` of the hierarchy directly, one after the other,
without any box test: each shape is tested and recorded as the leaf loop of
`Visit(Ptr<BVHAccel>)` does it. -/
def bruteForce (M : MathEnv α) (bvh : BVHAccel α) (order : List Nat) (s : St α) :
    Option (St α × RayIntersector.HitLog α) :=
  RayIntersector.Visit_BVHAccel.leaf M bvh s.ray.o s.ray.d order (s, [])

/-- What testing the shapes `S` in some order makes of `x`: the ray keeps its
origin, direction and `tMin`; the new `tMax` is the least of the old one and
the distances of the shapes in `S`; and the record grows exactly if some shape
in `S` has its distance within the old `tMax`. -/
def ScanPost (dist : Nat → Option α) (S : Nat → Prop) (x x1 : St α × RayIntersector.HitLog α) :
    Prop :=
  x1.1.ray.o = x.1.ray.o ∧ x1.1.ray.d = x.1.ray.d ∧ x1.1.ray.tMin = x.1.ray.tMin ∧
  x1.1.ray.tMax ≤ x.1.ray.tMax ∧
  (∀ k d, S k → dist k = some d → x1.1.ray.tMax ≤ d) ∧
  (x1.1.ray.tMax = x.1.ray.tMax ∨ ∃ k, S k ∧ dist k = some x1.1.ray.tMax) ∧
  ∃ new, x1.2 = x.2 ++ new ∧ (new ≠ [] ↔ ∃ k d, S k ∧ dist k = some d ∧ d ≤ x.1.ray.tMax)

end BVHTrees

/-! ## Concrete inputs over the rationals -/

/-- A result record as `Init` leaves it, with zeroed attributes. -/
def rst0 : Rst ℚ :=
  { closestSObj := none, isIntersect := false, n := ⟨0, 0, 0⟩, texcoord := ⟨0, 0⟩,
    tangent := ⟨0, 0, 0⟩ }

/-- The ray from `(0,0,-5)` along `(0,0,1)` with bounds `[0, 100]`. -/
def sphereExample : St ℚ :=
  { ray := { o := ⟨0, 0, -5⟩, d := ⟨0, 0, 1⟩, tMin := 0, tMax := 100 }, rst := rst0 }

/-- The ray from `(0,5,0)` along `(0,-1,0)` with bounds `[0, 100]`. -/
def planeExample : St ℚ :=
  { ray := { o := ⟨0, 5, 0⟩, d := ⟨0, -1, 0⟩, tMin := 0, tMax := 100 }, rst := rst0 }

/-- Vertex arrays with the corners `(0,0,0)`, `(1,0,0)`, `(0,1,0)` of a triangle
in the plane `z = 0`, followed by the corners `(0,0,-1)`, `(1,0,-1)`, `(0,1,-1)`
of a copy of it in the plane `z = -1`, and the points `(1,1,1)`, `(2,2,2)`. -/
def meshExample : MeshData ℚ :=
  { positions := [⟨0, 0, 0⟩, ⟨1, 0, 0⟩, ⟨0, 1, 0⟩, ⟨0, 0, -1⟩, ⟨1, 0, -1⟩, ⟨0, 1, -1⟩,
      ⟨1, 1, 1⟩, ⟨2, 2, 2⟩],
    normals := [⟨0, 0, 1⟩, ⟨0, 0, 1⟩, ⟨0, 0, 1⟩, ⟨0, 0, 1⟩, ⟨0, 0, 1⟩, ⟨0, 0, 1⟩,
      ⟨0, 0, 1⟩, ⟨0, 0, 1⟩],
    texcoords := [⟨0, 0⟩, ⟨1, 0⟩, ⟨0, 1⟩, ⟨0, 0⟩, ⟨1, 0⟩, ⟨0, 1⟩, ⟨0, 0⟩, ⟨0, 0⟩],
    tangents := [⟨1, 0, 0⟩, ⟨1, 0, 0⟩, ⟨1, 0, 0⟩, ⟨1, 0, 0⟩, ⟨1, 0, 0⟩, ⟨1, 0, 0⟩,
      ⟨1, 0, 0⟩, ⟨1, 0, 0⟩] }

/-- The triangle of `meshExample` in the plane `z = 0`. -/
def triNear : Triangle ℚ := { mesh := meshExample, idx0 := 0, idx1 := 1, idx2 := 2 }

/-- The triangle of `meshExample` in the plane `z = -1`. -/
def triFar : Triangle ℚ := { mesh := meshExample, idx0 := 3, idx1 := 4, idx2 := 5 }

/-- A degenerate triangle of `meshExample`: `(0,0,0)`, `(1,1,1)`, `(2,2,2)`. -/
def triFlat : Triangle ℚ := { mesh := meshExample, idx0 := 0, idx1 := 6, idx2 := 7 }

/-- The ray from `(1/4,1/4,1)` along `(0,0,-1)` with bounds `[0, 100]`: it meets
`triNear` at `t = 1` and `triFar` at `t = 2`. -/
def triangleExample : St ℚ :=
  { ray := { o := ⟨1/4, 1/4, 1⟩, d := ⟨0, 0, -1⟩, tMin := 0, tMax := 100 }, rst := rst0 }

/-- The ray from `(-5,-4,-3)` along `(1,1,1)` with bounds `[0, 100]`. -/
def slabExampleRay : ERay ℚ :=
  { o := ⟨-5, -4, -3⟩, d := ⟨1, 1, 1⟩, tMin := 0, tMax := 100 }

/-- The box `[-1,-1,-1]`-`[1,1,1]`. -/
def unitBox : BBox ℚ := { minP := ⟨-1, -1, -1⟩, maxP := ⟨1, 1, 1⟩ }

/-- A mesh that stores the farther triangle before the nearer one. -/
def meshFarFirst : TriMesh ℚ := { triangles := [triFar, triNear] }

/-- The identity transform. -/
def idTransform : Transform ℚ :=
  { point := fun p => p, vector := fun v => v, normal := fun n => n,
    invPoint := fun p => p, invVector := fun v => v, invNormal := fun n => n }

/-- The world-to-local transform of a shape placed one unit up the y axis. -/
def downTransform : Transform ℚ :=
  { point := fun p => ⟨p.x, p.y - 1, p.z⟩, vector := fun v => v, normal := fun n => n,
    invPoint := fun p => ⟨p.x, p.y + 1, p.z⟩, invVector := fun v => v, invNormal := fun n => n }

/-- A hierarchy of three nodes: the root, split along x, over a leaf with the
unit plane (shape 0, scene node 10) and a leaf with a unit disk lifted to
`y = 1` (shape 1, scene node 11). -/
def bvhExample : BVHAccel ℚ :=
  { nodes :=
      [ { box := ⟨⟨-1, -1/10, -1⟩, ⟨1, 11/10, 1⟩⟩, isLeaf := false, shapesIdx := [],
          axis := 0, secondChildIdx := 2 },
        { box := ⟨⟨-1/2, -1/10, -1/2⟩, ⟨1/2, 1/10, 1/2⟩⟩, isLeaf := true, shapesIdx := [0],
          axis := 0, secondChildIdx := 0 },
        { box := ⟨⟨-1, 9/10, -1⟩, ⟨1, 11/10, 1⟩⟩, isLeaf := true, shapesIdx := [1],
          axis := 0, secondChildIdx := 0 } ],
    shapes := [Shape.plane, Shape.disk],
    shapeW2L := fun i => if i = 1 then downTransform else idTransform,
    shapeSObj := fun i => some (10 + i),
    sobjW2L := fun k => if k = 11 then downTransform else idTransform }

/-- The ray from `(-1,2,-1)` along `(1/2,-1,1/2)` with bounds `[0, 100]`: it
meets the lifted disk at `t = 1` and the plane at `t = 2`. -/
def bvhExampleStart : St ℚ :=
  { ray := { o := ⟨-1, 2, -1⟩, d := ⟨1/2, -1, 1/2⟩, tMin := 0, tMax := 100 }, rst := rst0 }

/-- The state in which the traversal of `bvhExample` leaves `bvhExampleStart`. -/
def bvhExampleEnd : St ℚ :=
  { ray := { o := ⟨-1, 2, -1⟩, d := ⟨1/2, -1, 1/2⟩, tMin := 0, tMax := 1 },
    rst := { closestSObj := some 11, isIntersect := false, n := ⟨0, 1, 0⟩,
             texcoord := ⟨1/4, 1/4⟩, tangent := ⟨1, 0, 0⟩ } }

/-- The tree of `bvhExample`: the root at index 0 over the leaf at index 1 with
shape 0 and the leaf at index 2 with shape 1. -/
def bvhExampleTree : BVHTree := .node 0 (.leaf 1 [0]) (.leaf 2 [1])

/-- The distances of the shapes of `bvhExample` along the ray of
`bvhExampleStart`: the plane at 2, the lifted disk at 1. -/
def bvhExampleDist : Nat → Option ℚ :=
  fun k => if k = 0 then some 2 else if k = 1 then some 1 else none

/-! ## Concrete inputs with the special values -/

/-- A zeroed result record over `Flt ℚ`. -/
def fltRst0 : Rst (Flt ℚ) :=
  { closestSObj := none, isIntersect := false, n := ⟨0, 0, 0⟩, texcoord := ⟨0, 0⟩,
    tangent := ⟨0, 0, 0⟩ }

/-- A ray lying in the plane `y = 0`: from the origin along `(1,0,0)`, with
bounds `[0, 100]`. -/
def inPlaneRay : St (Flt ℚ) :=
  { ray := { o := ⟨0, 0, 0⟩, d := ⟨1, 0, 0⟩, tMin := 0, tMax := Flt.fin 100 }, rst := fltRst0 }

/-- The ray of C6 along the axis of a capsule: from `(0,5,0)` along `(0,-1,0)`,
with bounds `[0, 100]`. -/
def axisRay : St ℚ :=
  { ray := { o := ⟨0, 5, 0⟩, d := ⟨0, -1, 0⟩, tMin := 0, tMax := 100 }, rst := rst0 }

/-- The ray `axisRay` over `Flt ℚ`. -/
def axisRayFlt : St (Flt ℚ) :=
  { ray := { o := ⟨0, Flt.fin 5, 0⟩, d := ⟨0, Flt.fin (-1), 0⟩, tMin := 0, tMax := Flt.fin 100 },
    rst := fltRst0 }

/-- A ray that enters the capsule of height 2 through its upper cap region and
leaves through the side: from `(0,9/2,0)` along `(2,-9,0)`, bounds `[0, 100]`.
It meets the upper sphere at `t = 3/10` and the side at `t = 1/2`. -/
def priorityRay : St ℚ :=
  { ray := { o := ⟨0, 9/2, 0⟩, d := ⟨2, -9, 0⟩, tMin := 0, tMax := 100 }, rst := rst0 }

/-- The box `[-1,-1,-1]`-`[1,1,1]` over numbers with special values. -/
def unitBoxFlt (K : Type) [LinearOrderedField K] : BBox (Flt K) :=
  { minP := ⟨Flt.fin (-1), Flt.fin (-1), Flt.fin (-1)⟩, maxP := ⟨1, 1, 1⟩ }

/-- The ray of C12 over `Flt ℚ`: from `(0,0,-5)` along `(0,0,1)`, bounds `[0, 100]`. -/
def zAxisRay : ERay (Flt ℚ) :=
  { o := ⟨0, 0, Flt.fin (-5)⟩, d := ⟨0, 0, 1⟩, tMin := Flt.fin 0, tMax := Flt.fin 100 }

/-- A ray along `(0,0,1)` that passes beside the unit box: from `(3,0,-5)`. -/
def zAxisRayOff : ERay (Flt ℚ) :=
  { o := ⟨Flt.fin 3, 0, Flt.fin (-5)⟩, d := ⟨0, 0, 1⟩, tMin := Flt.fin 0, tMax := Flt.fin 100 }

/-- A scene of two nodes: the root (node 0) carries the unit sphere, its child
(node 1) a mesh with no triangles. -/
def staleScene : SObj ℚ :=
  .node 0 (some Shape.sphere) none [.node 1 (some (Shape.triMesh { triangles := [] })) none []]

/-- A scene of three nodes: the root (node 0) has the transform `downTransform`
and no primitive; its children are node 1 with the unit plane and node 2 with
the unit disk under `downTransform`. -/
def sceneExample : SObj ℚ :=
  .node 0 none (some downTransform)
    [.node 1 (some Shape.plane) none [], .node 2 (some Shape.disk) (some downTransform) []]

/-! ## Concrete inputs in binary32 -/

/-- A zeroed result record over binary32. -/
def f32Rst0 : Rst F32 :=
  { closestSObj := none, isIntersect := false, n := ⟨0, 0, 0⟩, texcoord := ⟨0, 0⟩,
    tangent := ⟨0, 0, 0⟩ }

/-- The ray from `(1, 2^-13, -5)` along `(0,0,1)` with bounds `[0, 100]`: it
passes the unit sphere at the distance `sqrt (1 + 2^-26)` from its centre. -/
def roundingSphereRay : St F32 :=
  { ray := { o := ⟨1, 1 / 8192, -5⟩, d := ⟨0, 0, 1⟩, tMin := 0, tMax := 100 }, rst := f32Rst0 }

/-- The ray from `(-1,-1,0)` along `(44,30,1)` with bounds `[0, 100]`. -/
def roundingSlabRay : ERay F32 :=
  { o := ⟨-1, -1, 0⟩, d := ⟨44, 30, 1⟩, tMin := 0, tMax := 100 }

/-- The box `[6.25, 7.25] x [4.625, 5.625] x [-100, 100]`, which the ray
`roundingSlabRay` touches at `t = 3/16` in the point `(7.25, 4.625, 0.1875)`. -/
def roundingBox : BBox F32 := ⟨⟨6.25, 4.625, -100⟩, ⟨7.25, 5.625, 100⟩⟩

/-! ## Theorems -/

set_option linter.unusedSectionVars false

section ContractProofs

variable {α : Type} [LinearOrder α] [OfNat α 0] [OfNat α 1] [OfNat α 2] [OfScientific α]
  [Add α] [Sub α] [Mul α] [Div α] [Neg α] [BEq α]

open RayIntersector

theorem contractAt_of_outcome (f : St α → St α) (s : St α) (h : Outcome s (f s)) :
    ContractAt f s := by
  rcases h with h | ⟨t, n, tc, tg, h, h1, h2⟩
  · simp [ContractAt, h, miss]
  · simp [ContractAt, h, hit, h1, h2]

theorem outcome_Sphere (M : MathEnv α) (s : St α) : Outcome s (Visit_Sphere M s) := by
  unfold Visit_Sphere
  simp only []
  split_ifs with h1 h2 h3 <;> first
    | exact Or.inl rfl
    | (simp only [not_or, not_lt] at *; exact Or.inr ⟨_, _, _, _, rfl, by tauto, by tauto⟩)

theorem outcome_Plane (s : St α) : Outcome s (Visit_Plane s) := by
  unfold Visit_Plane
  simp only []
  split_ifs with h1 h2 <;> first
    | exact Or.inl rfl
    | (simp only [not_or, not_lt] at *; exact Or.inr ⟨_, _, _, _, rfl, by tauto, by tauto⟩)

theorem outcome_Disk (s : St α) : Outcome s (Visit_Disk s) := by
  unfold Visit_Disk
  simp only []
  split_ifs with h1 h2 <;> first
    | exact Or.inl rfl
    | (simp only [not_or, not_lt] at *; exact Or.inr ⟨_, _, _, _, rfl, by tauto, by tauto⟩)

theorem outcome_Triangle (M : MathEnv α) (tr : Triangle α) (s : St α) :
    Outcome s (Visit_Triangle M tr s) := by
  unfold Visit_Triangle
  simp only []
  split_ifs <;> first
    | exact Or.inl rfl
    | (simp only [not_or, not_lt] at *; exact Or.inr ⟨_, _, _, _, rfl, by tauto, by tauto⟩)

theorem outcome_Capsule_side (M : MathEnv α) (h : α) (s r : St α)
    (hr : Visit_Capsule.side M h s = some r) : Outcome s r := by
  unfold Visit_Capsule.side at hr
  simp only [] at hr
  split_ifs at hr <;> cases hr <;> first
    | exact Or.inl rfl
    | (simp only [not_or, not_lt, not_le] at *; exact Or.inr ⟨_, _, _, _, rfl, by tauto, by tauto⟩)

theorem outcome_Capsule_top (M : MathEnv α) (h a : α) (s r : St α)
    (hr : Visit_Capsule.top M h a s = some r) : Outcome s r := by
  unfold Visit_Capsule.top at hr
  simp only [] at hr
  split_ifs at hr <;> cases hr <;> first
    | exact Or.inl rfl
    | (simp only [not_or, not_lt, not_le] at *; exact Or.inr ⟨_, _, _, _, rfl, by tauto, by tauto⟩)

theorem outcome_Capsule_bottom (M : MathEnv α) (h a : α) (s r : St α)
    (hr : Visit_Capsule.bottom M h a s = some r) : Outcome s r := by
  unfold Visit_Capsule.bottom at hr
  simp only [] at hr
  split_ifs at hr <;> cases hr <;> first
    | exact Or.inl rfl
    | (simp only [not_or, not_lt, not_le] at *; exact Or.inr ⟨_, _, _, _, rfl, by tauto, by tauto⟩)

theorem outcome_Capsule (M : MathEnv α) (h : α) (s : St α) :
    Outcome s (Visit_Capsule M h s) := by
  unfold Visit_Capsule
  simp only []
  cases h1 : Visit_Capsule.side M (h / 2) s with
  | some r => exact outcome_Capsule_side M _ s r h1
  | none =>
    cases h2 : Visit_Capsule.top M (h / 2) (s.ray.d.Dot s.ray.d) s with
    | some r => exact outcome_Capsule_top M _ _ s r h2
    | none =>
      cases h3 : Visit_Capsule.bottom M (h / 2) (s.ray.d.Dot s.ray.d) s with
      | some r => exact outcome_Capsule_bottom M _ _ s r h3
      | none => exact Or.inl rfl

/-- C1. Shared output contract of the primitive tests: for each of
`Visit(Sphere)`, `Visit(Plane)`, `Visit(Disk)`, `Visit(Triangle)` and
`Visit(Capsule)`, every ray and every prior result state, the origin, the
direction and `tMin` are unchanged; if the test ends with the hit flag false,
`tMax` is unchanged; if it ends with the hit flag true, the new `tMax` (the
reported distance) satisfies `tMin <= t <= tMax at call time`; hence `tMax`
never increases.  It holds over every linearly ordered scalar type whatever the
arithmetic operations return, so it does not depend on how a division by zero
is resolved. -/
theorem primitive_output_contract (M : MathEnv α) (s : St α) :
    (ContractAt (Visit_Sphere M) s ∧ ContractAt Visit_Plane s ∧ ContractAt Visit_Disk s ∧
      (∀ tr : Triangle α, ContractAt (Visit_Triangle M tr) s) ∧
      (∀ height : α, ContractAt (Visit_Capsule M height) s)) ∧
    ((Visit_Sphere M s).ray.tMax ≤ s.ray.tMax ∧ (Visit_Plane s).ray.tMax ≤ s.ray.tMax ∧
      (Visit_Disk s).ray.tMax ≤ s.ray.tMax ∧
      (∀ tr : Triangle α, (Visit_Triangle M tr s).ray.tMax ≤ s.ray.tMax) ∧
      (∀ height : α, (Visit_Capsule M height s).ray.tMax ≤ s.ray.tMax)) := by
  have mono : ∀ f : St α → St α, Outcome s (f s) → (f s).ray.tMax ≤ s.ray.tMax := by
    intro f h
    rcases h with h | ⟨t, n, tc, tg, h, _, h2⟩
    · simp [h, miss]
    · simp [h, hit, h2]
  exact ⟨⟨contractAt_of_outcome _ _ (outcome_Sphere M s),
      contractAt_of_outcome _ _ (outcome_Plane s),
      contractAt_of_outcome _ _ (outcome_Disk s),
      fun tr => contractAt_of_outcome _ _ (outcome_Triangle M tr s),
      fun h => contractAt_of_outcome _ _ (outcome_Capsule M h s)⟩,
    mono _ (outcome_Sphere M s), mono Visit_Plane (outcome_Plane s),
    mono Visit_Disk (outcome_Disk s),
    fun tr => mono _ (outcome_Triangle M tr s), fun h => mono _ (outcome_Capsule M h s)⟩

/-! ### The BVH traversal -/

/-- What every shape test guarantees at every state, the mesh scan included:
`tMin` and the recorded owner are kept, `tMax` does not grow, and it is kept
when the test ends without a hit. -/
theorem outcome_weak (s r : St α) (h : Outcome s r) :
    r.ray.tMin = s.ray.tMin ∧ r.ray.tMax ≤ s.ray.tMax ∧
    (r.rst.isIntersect = false → r.ray.tMax = s.ray.tMax) ∧
    r.rst.closestSObj = s.rst.closestSObj := by
  rcases h with h | ⟨t, n, tc, tg, h, _, h2⟩
  · simp [h, miss]
  · simp [h, hit, h2]

theorem Visit_TriMesh_loop_weak (M : MathEnv α) (trs : List (Triangle α)) :
    ∀ s : St α,
      (Visit_TriMesh.loop M trs s).ray.tMin = s.ray.tMin ∧
      (Visit_TriMesh.loop M trs s).ray.tMax ≤ s.ray.tMax ∧
      ((Visit_TriMesh.loop M trs s).rst.isIntersect = false →
        (Visit_TriMesh.loop M trs s).ray.tMax = s.ray.tMax) ∧
      (Visit_TriMesh.loop M trs s).rst.closestSObj = s.rst.closestSObj := by
  induction trs with
  | nil => intro s; exact ⟨rfl, le_refl _, fun _ => rfl, rfl⟩
  | cons tr rest ih =>
    intro s
    have h1 := outcome_weak s _ (outcome_Triangle M tr s)
    simp only [Visit_TriMesh.loop]
    split_ifs with hf
    · exact h1
    · obtain ⟨a1, a2, a3, a4⟩ := ih (Visit_Triangle M tr s)
      have hfalse : (Visit_Triangle M tr s).rst.isIntersect = false := by simpa using hf
      refine ⟨a1.trans h1.1, a2.trans h1.2.1, fun h => ?_, a4.trans h1.2.2.2⟩
      rw [a3 h, h1.2.2.1 hfalse]

theorem Accept_weak (M : MathEnv α) (shape : Shape α) (s : St α) :
    (shape.Accept M s).ray.tMin = s.ray.tMin ∧ (shape.Accept M s).ray.tMax ≤ s.ray.tMax ∧
    ((shape.Accept M s).rst.isIntersect = false → (shape.Accept M s).ray.tMax = s.ray.tMax) ∧
    (shape.Accept M s).rst.closestSObj = s.rst.closestSObj := by
  cases shape with
  | sphere => exact outcome_weak s _ (outcome_Sphere M s)
  | plane => exact outcome_weak s _ (outcome_Plane s)
  | disk => exact outcome_weak s _ (outcome_Disk s)
  | capsule h => exact outcome_weak s _ (outcome_Capsule M h s)
  | triangle t => exact outcome_weak s _ (outcome_Triangle M t s)
  | triMesh m => exact Visit_TriMesh_loop_weak M m.triangles s

theorem BVHInv_init (bvh : BVHAccel α) (s : St α) :
    BVHInv bvh s.ray.tMax s.rst.closestSObj (s, []) := by
  refine ⟨by simp, by simp, fun _ => ⟨rfl, rfl⟩, ?_⟩
  intro init e h
  exact absurd h (by simp)

theorem BVHInv_congr (bvh : BVHAccel α) (tMax0 : α) (owner0 : Option Nat)
    (x y : St α × HitLog α) (h1 : y.1.ray.tMax = x.1.ray.tMax)
    (h2 : y.1.rst.closestSObj = x.1.rst.closestSObj) (h3 : y.2 = x.2)
    (h : BVHInv bvh tMax0 owner0 x) : BVHInv bvh tMax0 owner0 y := by
  unfold BVHInv at *
  rw [h1, h2, h3]
  exact h

/-- The invariant after a leaf test that reported a hit at a distance not
above the current `tMax`. -/
theorem BVHInv_hit (bvh : BVHAccel α) (tMax0 : α) (owner0 : Option Nat)
    (x y : St α × HitLog α) (idx : Nat) (hle : y.1.ray.tMax ≤ x.1.ray.tMax)
    (hown : y.1.rst.closestSObj = bvh.shapeSObj idx) (hlog : y.2 = x.2 ++ [(idx, y.1.ray.tMax)])
    (h : BVHInv bvh tMax0 owner0 x) : BVHInv bvh tMax0 owner0 y := by
  obtain ⟨p1, p2, _, _⟩ := h
  have hall : ∀ a ∈ tMax0 :: x.2.map Prod.snd, y.1.ray.tMax ≤ a :=
    fun a ha => hle.trans (p2 a ha)
  have hlist : tMax0 :: y.2.map Prod.snd = (tMax0 :: x.2.map Prod.snd) ++ [y.1.ray.tMax] := by
    rw [hlog]; simp
  refine ⟨?_, ?_, ?_, ?_⟩
  · rw [hlist, List.pairwise_append]
    refine ⟨p1, by simp, ?_⟩
    intro a ha b hb
    rw [List.mem_singleton.mp hb]
    exact hall a ha
  · intro a ha
    rw [hlist, List.mem_append] at ha
    rcases ha with ha | ha
    · exact hall a ha
    · rw [List.mem_singleton.mp ha]
  · intro h0
    rw [hlog] at h0
    exact absurd h0 (by simp)
  · intro init e he
    rw [hlog] at he
    have h2 := (List.append_inj' he rfl).2
    have h3 : (idx, y.1.ray.tMax) = e := by simpa using h2
    rw [← h3]
    exact ⟨hown, rfl⟩

theorem Visit_BVHAccel_leaf_inv (M : MathEnv α) (bvh : BVHAccel α) (origin dir : Vec3 α)
    (tMax0 : α) (owner0 : Option Nat) (idxs : List Nat) :
    ∀ x x1 : St α × HitLog α, BVHInv bvh tMax0 owner0 x →
      Visit_BVHAccel.leaf M bvh origin dir idxs x = some x1 → BVHInv bvh tMax0 owner0 x1 := by
  induction idxs with
  | nil =>
    intro x x1 hx h
    simp only [Visit_BVHAccel.leaf, Option.some.injEq] at h
    rw [← h]; exact hx
  | cons idx rest ih =>
    rintro ⟨s, log⟩ x1 hx h
    simp only [Visit_BVHAccel.leaf] at h
    cases hg : bvh.shapes.get? idx with
    | none => rw [hg] at h; exact absurd h (by simp)
    | some shape =>
      rw [hg] at h
      simp only [] at h
      obtain ⟨_, w2, w3, w4⟩ :=
        Accept_weak M shape { s with ray := (bvh.shapeW2L idx).ApplyTo s.ray }
      split_ifs at h with hf
      · refine ih _ x1 ?_ h
        exact BVHInv_hit bvh tMax0 owner0 (s, log) _ idx w2 rfl rfl hx
      · refine ih _ x1 ?_ h
        have hfalse : (shape.Accept M
            { s with ray := (bvh.shapeW2L idx).ApplyTo s.ray }).rst.isIntersect = false := by
          simpa using hf
        exact BVHInv_congr bvh tMax0 owner0 (s, log) _ (w3 hfalse) w4 rfl hx

theorem Visit_BVHAccel_loop_inv (M : MathEnv α) (bvh : BVHAccel α) (origin dir invDir : Vec3 α)
    (dirIsNeg : Fin 3 → Bool) (tMax0 : α) (owner0 : Option Nat) (fuel : Nat) :
    ∀ (stack : List Nat) (x x1 : St α × HitLog α), BVHInv bvh tMax0 owner0 x →
      Visit_BVHAccel.loop M bvh origin dir invDir dirIsNeg fuel stack x = some x1 →
      BVHInv bvh tMax0 owner0 x1 := by
  induction fuel with
  | zero =>
    intro stack x x1 hx h
    cases stack with
    | nil =>
      simp only [Visit_BVHAccel.loop, Option.some.injEq] at h
      rw [← h]; exact hx
    | cons i st => exact absurd h (by simp [Visit_BVHAccel.loop])
  | succ fuel ih =>
    intro stack x x1 hx h
    cases stack with
    | nil =>
      simp only [Visit_BVHAccel.loop, Option.some.injEq] at h
      rw [← h]; exact hx
    | cons i st =>
      simp only [Visit_BVHAccel.loop] at h
      cases hg : bvh.nodes.get? i with
      | none => rw [hg] at h; exact absurd h (by simp)
      | some node =>
        rw [hg] at h
        simp only [] at h
        split_ifs at h with h1 h2 h3
        · exact ih _ _ _ hx h
        · cases hl : Visit_BVHAccel.leaf M bvh origin dir node.shapesIdx x with
          | none => rw [hl] at h; exact absurd h (by simp)
          | some x2 =>
            rw [hl] at h
            exact ih _ _ _ (Visit_BVHAccel_leaf_inv M bvh origin dir tMax0 owner0 _ x x2 hx hl) h
        · exact ih _ _ _ hx h
        · exact ih _ _ _ hx h

/-- C5. Closest hit within one BVH traversal: when `Visit(BVHAccel)` returns,
the distances reported by the leaf shape tests that found a hit, listed after
the `tMax` at entry, never increase, and the final `tMax` is not above the one at
entry; if at least one leaf shape test reported a hit, the recorded closest
owner is the scene node of the last shape that reported one, that shape's
reported distance is the final `tMax`, and the final `tMax` is `<=` the distance
reported by every shape hit during the traversal; with no hit, `tMax` and the
owner are those at entry.  The leaf tests are the shape tests of this file,
which obey the output contract. -/
theorem bvh_closest_hit (M : MathEnv α) (bvh : BVHAccel α) (fuel : Nat) (s s1 : St α)
    (log : HitLog α) (hrun : Visit_BVHAccel M bvh fuel s = some (s1, log)) :
    List.Pairwise (fun a b => b ≤ a) (s.ray.tMax :: log.map Prod.snd) ∧
    s1.ray.tMax ≤ s.ray.tMax ∧
    (∀ init e, log = init ++ [e] →
      s1.rst.closestSObj = bvh.shapeSObj e.1 ∧ e.2 = s1.ray.tMax ∧
      ∀ e1 ∈ log, s1.ray.tMax ≤ e1.2) ∧
    (log = [] → s1.ray.tMax = s.ray.tMax ∧ s1.rst.closestSObj = s.rst.closestSObj) := by
  unfold Visit_BVHAccel at hrun
  simp only [] at hrun
  cases hl : Visit_BVHAccel.loop M bvh s.ray.o s.ray.d s.ray.InvDir
      (fun i => decide (s.ray.InvDir.get i < 0)) fuel [0] (s, []) with
  | none => rw [hl] at hrun; exact absurd hrun (by simp)
  | some x =>
    rw [hl] at hrun
    obtain ⟨s2, log2⟩ := x
    simp only [Option.some.injEq, Prod.mk.injEq] at hrun
    obtain ⟨hs, hlog⟩ := hrun
    have hinv := Visit_BVHAccel_loop_inv M bvh _ _ _ _ _ _ fuel [0] (s, []) (s2, log2)
      (BVHInv_init bvh s) hl
    have hray : s1.ray = s2.ray := by
      rw [← hs]; unfold Visit_BVHAccel.finish; cases s2.rst.closestSObj <;> rfl
    have hown : s1.rst.closestSObj = s2.rst.closestSObj := by
      rw [← hs]; unfold Visit_BVHAccel.finish
      cases h : s2.rst.closestSObj <;> simp [h]
    obtain ⟨p1, p2, p3, p4⟩ := hinv
    simp only [] at p1 p2 p3 p4
    rw [hlog] at p1 p2 p3 p4
    rw [hray, hown]
    refine ⟨p1, p2 _ (List.mem_cons_self _ _), ?_, p3⟩
    intro init e he
    refine ⟨(p4 init e he).1, (p4 init e he).2, ?_⟩
    intro e1 he1
    exact p2 _ (List.mem_cons_of_mem _ (List.mem_map_of_mem _ he1))

/-! ### The traversals and the shared ray -/

/-- Induction over a scene tree: a property of a node follows from the property
of its children. -/
theorem SObj.induct {β : Type} (P : SObj β → Prop)
    (h : ∀ id p T cs, (∀ c ∈ cs, P c) → P (.node id p T cs)) : ∀ t, P t := fun t =>
  SObj.rec (motive_1 := P) (motive_2 := fun cs => ∀ c ∈ cs, P c)
    (fun id p T cs ih => h id p T cs ih)
    (fun c hc => absurd hc (List.not_mem_nil c))
    (fun c cs ih1 ih2 c1 hc1 => by
      rcases List.mem_cons.mp hc1 with e | e
      · rw [e]; exact ih1
      · exact ih2 c1 e) t

theorem RayKept_refl (s : St α) : RayKept s s := ⟨rfl, rfl, rfl⟩

theorem RayKept_trans (a b c : St α) (h1 : RayKept a b) (h2 : RayKept b c) : RayKept a c :=
  ⟨h2.1.trans h1.1, h2.2.1.trans h1.2.1, h2.2.2.trans h1.2.2⟩

theorem outcome_ray (s r : St α) (h : Outcome s r) : RayKept s r := by
  rcases h with h | ⟨t, n, tc, tg, h, _, _⟩
  · rw [h]; exact ⟨rfl, rfl, rfl⟩
  · rw [h]; exact ⟨rfl, rfl, rfl⟩

theorem Visit_TriMesh_loop_ray (M : MathEnv α) (trs : List (Triangle α)) :
    ∀ s : St α, RayKept s (Visit_TriMesh.loop M trs s) := by
  induction trs with
  | nil => intro s; exact RayKept_refl s
  | cons tr rest ih =>
    intro s
    have h1 := outcome_ray s _ (outcome_Triangle M tr s)
    simp only [Visit_TriMesh.loop]
    split_ifs
    · exact h1
    · exact RayKept_trans _ _ _ h1 (ih _)

theorem Accept_ray (M : MathEnv α) (shape : Shape α) (s : St α) :
    RayKept s (shape.Accept M s) := by
  cases shape with
  | sphere => exact outcome_ray s _ (outcome_Sphere M s)
  | plane => exact outcome_ray s _ (outcome_Plane s)
  | disk => exact outcome_ray s _ (outcome_Disk s)
  | capsule h => exact outcome_ray s _ (outcome_Capsule M h s)
  | triangle t => exact outcome_ray s _ (outcome_Triangle M t s)
  | triMesh m => exact Visit_TriMesh_loop_ray M m.triangles s

theorem Visit_SObj_own_ray (M : MathEnv α) (id : Nat) (p : Option (Shape α))
    (x : St α × OwnerLog α) : RayKept x.1 (Visit_SObj.own M id p x).1 := by
  cases p with
  | none => exact RayKept_refl _
  | some shape =>
    have h := Accept_ray M shape x.1
    simp only [Visit_SObj.own]
    split_ifs
    · exact h
    · exact h

/-- Entering and leaving a node with an invertible transform, around a part of
the visit that keeps the ray, keeps the ray. -/
theorem Visit_SObj_leave_enter_ray (M : MathEnv α) (T : Option (Transform α))
    (hT : ∀ T1 ∈ T.toList, T1.Invertible) (orig : Option Nat) (s : St α)
    (y : St α × OwnerLog α) (hy : RayKept (Visit_SObj.enter T s) y.1) :
    RayKept s (Visit_SObj.leave M T orig y).1 := by
  cases T with
  | none => exact hy
  | some T1 =>
    obtain ⟨hp, hv⟩ := hT T1 (by simp)
    obtain ⟨h1, h2, h3⟩ := hy
    simp only [Visit_SObj.enter, Transform.Inverse, Transform.ApplyTo] at h1 h2 h3
    simp only [Visit_SObj.leave]
    split_ifs
    · refine ⟨?_, ?_, ?_⟩
      · show T1.point y.1.ray.o = s.ray.o
        rw [h1, hp]
      · show T1.vector y.1.ray.d = s.ray.d
        rw [h2, hv]
      · exact h3
    · refine ⟨?_, ?_, ?_⟩
      · show T1.point y.1.ray.o = s.ray.o
        rw [h1, hp]
      · show T1.vector y.1.ray.d = s.ray.d
        rw [h2, hv]
      · exact h3

theorem Visit_SObj_children_ray (M : MathEnv α) (cs : List (SObj α))
    (ih : ∀ c ∈ cs, (∀ T ∈ c.transforms, T.Invertible) →
      ∀ x, RayKept x.1 (Visit_SObj M c x).1)
    (hinv : ∀ T ∈ SObj.transformsList cs, T.Invertible) :
    ∀ x, RayKept x.1 (Visit_SObj.children M cs x).1 := by
  induction cs with
  | nil => intro x; exact RayKept_refl _
  | cons c rest ihl =>
    intro x
    simp only [Visit_SObj.children]
    have hc := ih c (List.mem_cons_self _ _)
      (fun T hT => hinv T (by simp only [SObj.transformsList, List.mem_append]; exact Or.inl hT)) x
    have hr := ihl (fun c1 hc1 => ih c1 (List.mem_cons_of_mem _ hc1))
      (fun T hT => hinv T (by simp only [SObj.transformsList, List.mem_append]; exact Or.inr hT))
      (Visit_SObj M c x)
    exact RayKept_trans _ _ _ hc hr

theorem Visit_SObj_ray (M : MathEnv α) :
    ∀ t : SObj α, (∀ T ∈ t.transforms, T.Invertible) →
      ∀ x, RayKept x.1 (Visit_SObj M t x).1 := by
  refine SObj.induct _ ?_
  intro id p T cs ih hinv x
  have hT : ∀ T1 ∈ T.toList, T1.Invertible := fun T1 h1 =>
    hinv T1 (by simp only [SObj.transforms, List.mem_append]; exact Or.inl h1)
  have hcs : ∀ T1 ∈ SObj.transformsList cs, T1.Invertible := fun T1 h1 =>
    hinv T1 (by simp only [SObj.transforms, List.mem_append]; exact Or.inr h1)
  have body : RayKept x.1 (Visit_SObj.leave M T x.1.rst.closestSObj
      (Visit_SObj.children M cs (Visit_SObj.own M id p (Visit_SObj.enter T x.1, x.2)))).1 := by
    apply Visit_SObj_leave_enter_ray M T hT
    exact RayKept_trans _ _ _ (Visit_SObj_own_ray M id p (Visit_SObj.enter T x.1, x.2))
      (Visit_SObj_children_ray M cs ih hcs _)
  cases p with
  | none =>
    cases cs with
    | nil => simp only [Visit_SObj]; exact RayKept_refl _
    | cons c rest => simp only [Visit_SObj]; exact body
  | some shape => simp only [Visit_SObj]; exact body

theorem Visit_BVHAccel_leaf_ray (M : MathEnv α) (bvh : BVHAccel α) (origin dir : Vec3 α)
    (idxs : List Nat) :
    ∀ x x1 : St α × HitLog α, x.1.ray.o = origin → x.1.ray.d = dir →
      Visit_BVHAccel.leaf M bvh origin dir idxs x = some x1 →
      x1.1.ray.o = origin ∧ x1.1.ray.d = dir ∧ x1.1.ray.tMin = x.1.ray.tMin := by
  induction idxs with
  | nil =>
    intro x x1 ho hd h
    simp only [Visit_BVHAccel.leaf, Option.some.injEq] at h
    rw [← h]; exact ⟨ho, hd, rfl⟩
  | cons idx rest ih =>
    rintro ⟨s, log⟩ x1 _ _ h
    simp only [Visit_BVHAccel.leaf] at h
    cases hg : bvh.shapes.get? idx with
    | none => rw [hg] at h; exact absurd h (by simp)
    | some shape =>
      rw [hg] at h
      simp only [] at h
      have hk := (Accept_ray M shape { s with ray := (bvh.shapeW2L idx).ApplyTo s.ray }).2.2
      split_ifs at h
      · obtain ⟨a1, a2, a3⟩ := ih _ x1 rfl rfl h
        exact ⟨a1, a2, a3.trans hk⟩
      · obtain ⟨a1, a2, a3⟩ := ih _ x1 rfl rfl h
        exact ⟨a1, a2, a3.trans hk⟩

/-- After an individual leaf shape test the ray has the saved origin and
direction again, and its `tMin`. -/
theorem Visit_BVHAccel_leaf_step (M : MathEnv α) (bvh : BVHAccel α) (origin dir : Vec3 α)
    (idx : Nat) (rest : List Nat) (x : St α × HitLog α) :
    Visit_BVHAccel.leaf M bvh origin dir (idx :: rest) x = none ∨
    ∃ y : St α × HitLog α, y.1.ray.o = origin ∧ y.1.ray.d = dir ∧
      y.1.ray.tMin = x.1.ray.tMin ∧
      Visit_BVHAccel.leaf M bvh origin dir (idx :: rest) x =
        Visit_BVHAccel.leaf M bvh origin dir rest y := by
  obtain ⟨s, log⟩ := x
  simp only [Visit_BVHAccel.leaf]
  cases hg : bvh.shapes.get? idx with
  | none => exact Or.inl rfl
  | some shape =>
    right
    simp only []
    have hk := (Accept_ray M shape { s with ray := (bvh.shapeW2L idx).ApplyTo s.ray }).2.2
    split_ifs
    · exact ⟨_, rfl, rfl, hk, rfl⟩
    · exact ⟨_, rfl, rfl, hk, rfl⟩

theorem Visit_BVHAccel_loop_ray (M : MathEnv α) (bvh : BVHAccel α) (origin dir invDir : Vec3 α)
    (dirIsNeg : Fin 3 → Bool) (fuel : Nat) :
    ∀ (stack : List Nat) (x x1 : St α × HitLog α), x.1.ray.o = origin → x.1.ray.d = dir →
      Visit_BVHAccel.loop M bvh origin dir invDir dirIsNeg fuel stack x = some x1 →
      x1.1.ray.o = origin ∧ x1.1.ray.d = dir ∧ x1.1.ray.tMin = x.1.ray.tMin := by
  induction fuel with
  | zero =>
    intro stack x x1 ho hd h
    cases stack with
    | nil =>
      simp only [Visit_BVHAccel.loop, Option.some.injEq] at h
      rw [← h]; exact ⟨ho, hd, rfl⟩
    | cons i st => exact absurd h (by simp [Visit_BVHAccel.loop])
  | succ fuel ih =>
    intro stack x x1 ho hd h
    cases stack with
    | nil =>
      simp only [Visit_BVHAccel.loop, Option.some.injEq] at h
      rw [← h]; exact ⟨ho, hd, rfl⟩
    | cons i st =>
      simp only [Visit_BVHAccel.loop] at h
      cases hg : bvh.nodes.get? i with
      | none => rw [hg] at h; exact absurd h (by simp)
      | some node =>
        rw [hg] at h
        simp only [] at h
        split_ifs at h with h1 h2 h3
        · exact ih _ _ _ ho hd h
        · cases hl : Visit_BVHAccel.leaf M bvh origin dir node.shapesIdx x with
          | none => rw [hl] at h; exact absurd h (by simp)
          | some x2 =>
            rw [hl] at h
            obtain ⟨b1, b2, b3⟩ := Visit_BVHAccel_leaf_ray M bvh origin dir _ x x2 ho hd hl
            obtain ⟨a1, a2, a3⟩ := ih _ _ _ b1 b2 h
            exact ⟨a1, a2, a3.trans b3⟩
        · exact ih _ _ _ ho hd h
        · exact ih _ _ _ ho hd h

/-- C13. The traversals restore the shared ray.  For a scene tree whose node
transforms are invertible (`T` after `T.Inverse()` is the identity): when
`Visit(SObj)` returns, on every path, the origin and the direction of the ray
are those at entry, and so they are between the visits of the children; when
`Visit(BVHAccel)` returns, and after every leaf shape test inside it, they are
the values saved at entry.  Neither traversal modifies `tMin`. -/
theorem traversals_restore_ray (M : MathEnv α) (t : SObj α)
    (hinv : ∀ T ∈ t.transforms, T.Invertible) :
    (∀ x, RayKept x.1 (Visit_SObj M t x).1) ∧
    (∀ id p T cs, t = .node id p T cs → ∀ x, RayKept x.1 (Visit_SObj.children M cs x).1) ∧
    (∀ (bvh : BVHAccel α) (fuel : Nat) (s : St α) (x1 : St α × HitLog α),
      Visit_BVHAccel M bvh fuel s = some x1 → RayKept s x1.1) ∧
    (∀ (bvh : BVHAccel α) (origin dir : Vec3 α) (idx : Nat) (rest : List Nat)
      (x : St α × HitLog α),
      Visit_BVHAccel.leaf M bvh origin dir (idx :: rest) x = none ∨
      ∃ y : St α × HitLog α, y.1.ray.o = origin ∧ y.1.ray.d = dir ∧
        y.1.ray.tMin = x.1.ray.tMin ∧
        Visit_BVHAccel.leaf M bvh origin dir (idx :: rest) x =
          Visit_BVHAccel.leaf M bvh origin dir rest y) := by
  refine ⟨Visit_SObj_ray M t hinv, ?_, ?_, Visit_BVHAccel_leaf_step M⟩
  · intro id p T cs ht x
    apply Visit_SObj_children_ray M cs (fun c _ hc => Visit_SObj_ray M c hc)
    intro T1 h1
    apply hinv
    rw [ht]
    simp only [SObj.transforms, List.mem_append]
    exact Or.inr h1
  · intro bvh fuel s x1 hrun
    unfold Visit_BVHAccel at hrun
    simp only [] at hrun
    cases hl : Visit_BVHAccel.loop M bvh s.ray.o s.ray.d s.ray.InvDir
        (fun i => decide (s.ray.InvDir.get i < 0)) fuel [0] (s, []) with
    | none => rw [hl] at hrun; exact absurd hrun (by simp)
    | some x =>
      rw [hl] at hrun
      obtain ⟨s2, log2⟩ := x
      simp only [Option.some.injEq] at hrun
      obtain ⟨a1, a2, a3⟩ := Visit_BVHAccel_loop_ray M bvh _ _ _ _ fuel [0] (s, []) (s2, log2)
        rfl rfl hl
      have hray : x1.1.ray = s2.ray := by
        rw [← hrun]; unfold Visit_BVHAccel.finish; cases s2.rst.closestSObj <;> rfl
      exact ⟨by rw [hray]; exact a1, by rw [hray]; exact a2, by rw [hray]; exact a3⟩

/-! ### The orientation of the recorded hit -/

theorem outcome_keeps (s r : St α) (h : Outcome s r) (hf : r.rst.isIntersect = false) :
    r.rst.n = s.rst.n ∧ r.rst.tangent = s.rst.tangent := by
  rcases h with h | ⟨t, n, tc, tg, h, _, _⟩
  · rw [h]; exact ⟨rfl, rfl⟩
  · rw [h] at hf; exact absurd hf (by simp [hit])

theorem Visit_TriMesh_loop_keeps (M : MathEnv α) (trs : List (Triangle α)) :
    ∀ s : St α, (Visit_TriMesh.loop M trs s).rst.isIntersect = false →
      (Visit_TriMesh.loop M trs s).rst.n = s.rst.n ∧
      (Visit_TriMesh.loop M trs s).rst.tangent = s.rst.tangent := by
  induction trs with
  | nil => intro s _; exact ⟨rfl, rfl⟩
  | cons tr rest ih =>
    intro s hf
    simp only [Visit_TriMesh.loop] at hf ⊢
    split_ifs at hf ⊢ with h1
    · rw [hf] at h1; exact absurd h1 (by simp)
    · have hfalse : (Visit_Triangle M tr s).rst.isIntersect = false := by simpa using h1
      obtain ⟨a1, a2⟩ := outcome_keeps s _ (outcome_Triangle M tr s) hfalse
      obtain ⟨b1, b2⟩ := ih _ hf
      exact ⟨b1.trans a1, b2.trans a2⟩

theorem Accept_keeps (M : MathEnv α) (shape : Shape α) (s : St α)
    (hf : (shape.Accept M s).rst.isIntersect = false) :
    (shape.Accept M s).rst.n = s.rst.n ∧ (shape.Accept M s).rst.tangent = s.rst.tangent := by
  cases shape with
  | sphere => exact outcome_keeps s _ (outcome_Sphere M s) hf
  | plane => exact outcome_keeps s _ (outcome_Plane s) hf
  | disk => exact outcome_keeps s _ (outcome_Disk s) hf
  | capsule h => exact outcome_keeps s _ (outcome_Capsule M h s) hf
  | triangle t => exact outcome_keeps s _ (outcome_Triangle M t s) hf
  | triMesh m => exact Visit_TriMesh_loop_keeps M m.triangles s hf

theorem pathTransforms_mem {β : Type} (N : Nat) :
    ∀ t : SObj β, ∀ l, t.pathTransforms N = some l → N ∈ t.ids := by
  refine SObj.induct _ ?_
  intro id p T cs ih l hl
  simp only [SObj.pathTransforms] at hl
  simp only [SObj.ids, List.mem_cons]
  by_cases hid : id = N
  · exact Or.inl hid.symm
  · right
    rw [if_neg hid] at hl
    have hlist : ∀ (cs1 : List (SObj β)), (∀ c ∈ cs1, ∀ l, c.pathTransforms N = some l → N ∈ c.ids) →
        ∀ l1, SObj.pathTransformsList N cs1 = some l1 → N ∈ SObj.idsList cs1 := by
      intro cs1
      induction cs1 with
      | nil => intro _ l1 h1; simp [SObj.pathTransformsList] at h1
      | cons c rest ihr =>
        intro hall l1 h1
        simp only [SObj.pathTransformsList] at h1
        simp only [SObj.idsList, List.mem_append]
        cases hc : SObj.pathTransforms N c with
        | some l2 => exact Or.inl (hall c (List.mem_cons_self _ _) l2 hc)
        | none =>
          rw [hc] at h1
          exact Or.inr (ihr (fun c1 hc1 => hall c1 (List.mem_cons_of_mem _ hc1)) l1 h1)
    cases hc : SObj.pathTransformsList N cs with
    | none => rw [hc] at hl; exact absurd hl (by simp)
    | some l1 => exact hlist cs ih l1 hc

theorem pathTransforms_none {β : Type} (N : Nat) (t : SObj β) (h : N ∉ t.ids) :
    t.pathTransforms N = none := by
  cases hc : t.pathTransforms N with
  | none => rfl
  | some l => exact absurd (pathTransforms_mem N t l hc) h

theorem pathTransformsList_mem {β : Type} (N : Nat) (cs : List (SObj β)) :
    ∀ l, SObj.pathTransformsList N cs = some l → N ∈ SObj.idsList cs := by
  induction cs with
  | nil => intro l h; simp [SObj.pathTransformsList] at h
  | cons c rest ih =>
    intro l h
    simp only [SObj.pathTransformsList] at h
    simp only [SObj.idsList, List.mem_append]
    cases hc : SObj.pathTransforms N c with
    | some l2 => exact Or.inl (pathTransforms_mem N c l2 hc)
    | none => rw [hc] at h; exact Or.inr (ih l h)

/-- The node's own primitive either records nothing and keeps the owner, the
normal and the tangent, or records the node with the normal and tangent now in
`rst`. -/
theorem Visit_SObj_own_cases (M : MathEnv α) (id : Nat) (p : Option (Shape α))
    (x : St α × OwnerLog α) :
    OwnerKept x (Visit_SObj.own M id p x) ∨
    ((Visit_SObj.own M id p x).2 = x.2 ++ [(id, (Visit_SObj.own M id p x).1.rst.n,
        (Visit_SObj.own M id p x).1.rst.tangent)] ∧
      (Visit_SObj.own M id p x).1.rst.closestSObj = some id) := by
  cases p with
  | none => exact Or.inl ⟨rfl, rfl, rfl, rfl⟩
  | some shape =>
    simp only [Visit_SObj.own]
    split_ifs with hf
    · exact Or.inr ⟨rfl, rfl⟩
    · have hfalse : (shape.Accept M x.1).rst.isIntersect = false := by simpa using hf
      obtain ⟨k1, k2⟩ := Accept_keeps M shape x.1 hfalse
      exact Or.inl ⟨rfl, (Accept_weak M shape x.1).2.2.2, k1, k2⟩

theorem reproject_app (M : MathEnv α) (l l1 : List (Transform α)) (v : Vec3 α) :
    reproject M (l ++ l1) v = reproject M l1 (reproject M l v) := by
  simp [reproject, List.foldl_append]

/-- Leaving a node keeps the record and the owner; it keeps the normal and the
tangent when the owner is the one saved at entry, and takes them through the
node's transform (if any) otherwise. -/
theorem Visit_SObj_leave_cases (M : MathEnv α) (T : Option (Transform α)) (orig : Option Nat)
    (x : St α × OwnerLog α) :
    (Visit_SObj.leave M T orig x).2 = x.2 ∧
    (Visit_SObj.leave M T orig x).1.rst.closestSObj = x.1.rst.closestSObj ∧
    (x.1.rst.closestSObj = orig →
      (Visit_SObj.leave M T orig x).1.rst.n = x.1.rst.n ∧
      (Visit_SObj.leave M T orig x).1.rst.tangent = x.1.rst.tangent) ∧
    (x.1.rst.closestSObj ≠ orig →
      (Visit_SObj.leave M T orig x).1.rst.n = reproject M T.toList x.1.rst.n ∧
      (Visit_SObj.leave M T orig x).1.rst.tangent = reproject M T.toList x.1.rst.tangent) := by
  cases T with
  | none => exact ⟨rfl, rfl, fun _ => ⟨rfl, rfl⟩, fun _ => ⟨rfl, rfl⟩⟩
  | some T1 =>
    simp only [Visit_SObj.leave]
    split_ifs with h
    · exact ⟨rfl, rfl, fun h1 => absurd h1 h, fun _ => ⟨rfl, rfl⟩⟩
    · exact ⟨rfl, rfl, fun _ => ⟨rfl, rfl⟩, fun h1 => absurd h1 h⟩

theorem Visit_SObj_children_owner (M : MathEnv α) (cs : List (SObj α))
    (ih : ∀ c ∈ cs, c.ids.Nodup → ∀ x : St α × OwnerLog α, OwnerNotIn x c.ids →
      OwnerKept x (Visit_SObj M c x) ∨
      OwnerReprojected M (fun N => c.pathTransforms N) x (Visit_SObj M c x)) :
    (SObj.idsList cs).Nodup → ∀ x : St α × OwnerLog α, OwnerNotIn x (SObj.idsList cs) →
      OwnerKept x (Visit_SObj.children M cs x) ∨
      OwnerReprojected M (fun N => SObj.pathTransformsList N cs) x
        (Visit_SObj.children M cs x) := by
  induction cs with
  | nil => intro _ x _; exact Or.inl ⟨rfl, rfl, rfl, rfl⟩
  | cons c rest ihl =>
    intro hnd x hx
    simp only [SObj.idsList] at hnd hx
    obtain ⟨hnd1, hnd2, hdisj⟩ := List.nodup_append.mp hnd
    simp only [Visit_SObj.children]
    have hx1 : OwnerNotIn x c.ids := fun k hk hmem => hx k hk (List.mem_append_left _ hmem)
    have hx2 : OwnerNotIn x (SObj.idsList rest) :=
      fun k hk hmem => hx k hk (List.mem_append_right _ hmem)
    have h1 := ih c (List.mem_cons_self _ _) hnd1 x hx1
    have ihr := ihl (fun c1 hc1 => ih c1 (List.mem_cons_of_mem _ hc1)) hnd2
    rcases h1 with hk | ⟨pre, N, n, g, l, e1, e2, e3, e4, e5⟩
    · have hy : OwnerNotIn (Visit_SObj M c x) (SObj.idsList rest) := by
        intro k hk1
        rw [hk.2.1] at hk1
        exact hx2 k hk1
      rcases ihr _ hy with hk2 | ⟨pre2, N2, n2, g2, l2, f1, f2, f3, f4, f5⟩
      · exact Or.inl ⟨hk2.1.trans hk.1, hk2.2.1.trans hk.2.1, hk2.2.2.1.trans hk.2.2.1,
          hk2.2.2.2.trans hk.2.2.2⟩
      · refine Or.inr ⟨pre2, N2, n2, g2, l2, ?_, f2, ?_, f4, f5⟩
        · rw [f1, hk.1]
        · have hN2 : N2 ∈ SObj.idsList rest := pathTransformsList_mem N2 rest l2 f3
          have hnot : N2 ∉ c.ids := fun hm => hdisj hm hN2
          simp only [SObj.pathTransformsList, pathTransforms_none N2 c hnot]
          exact f3
    · have hN : N ∈ c.ids := pathTransforms_mem N c l e3
      have hy : OwnerNotIn (Visit_SObj M c x) (SObj.idsList rest) := by
        intro k hk1
        rw [e2] at hk1
        have hkN : N = k := Option.some.inj hk1
        rw [← hkN]
        exact fun hm => hdisj hN hm
      rcases ihr _ hy with hk2 | ⟨pre2, N2, n2, g2, l2, f1, f2, f3, f4, f5⟩
      · refine Or.inr ⟨pre, N, n, g, l, hk2.1.trans e1, hk2.2.1.trans e2, ?_,
          hk2.2.2.1.trans e4, hk2.2.2.2.trans e5⟩
        simp only [SObj.pathTransformsList, e3]
      · refine Or.inr ⟨pre ++ [(N, n, g)] ++ pre2, N2, n2, g2, l2, ?_, f2, ?_, f4, f5⟩
        · rw [f1, e1]; simp only [List.append_assoc]
        · have hN2 : N2 ∈ SObj.idsList rest := pathTransformsList_mem N2 rest l2 f3
          have hnot : N2 ∉ c.ids := fun hm => hdisj hm hN2
          simp only [SObj.pathTransformsList, pathTransforms_none N2 c hnot]
          exact f3

/-- The body of `Visit(Ptr<SObj>)` behind the early return. -/
theorem Visit_SObj_body_owner (M : MathEnv α) (id : Nat) (p : Option (Shape α))
    (T : Option (Transform α)) (cs : List (SObj α))
    (ih : ∀ c ∈ cs, c.ids.Nodup → ∀ x : St α × OwnerLog α, OwnerNotIn x c.ids →
      OwnerKept x (Visit_SObj M c x) ∨
      OwnerReprojected M (fun N => c.pathTransforms N) x (Visit_SObj M c x))
    (hid : id ∉ SObj.idsList cs) (hndcs : (SObj.idsList cs).Nodup)
    (x : St α × OwnerLog α) (hx : OwnerNotIn x (id :: SObj.idsList cs))
    (x2 x3 y : St α × OwnerLog α)
    (h2 : x2 = Visit_SObj.own M id p (Visit_SObj.enter T x.1, x.2))
    (h3 : x3 = Visit_SObj.children M cs x2)
    (hy : y = Visit_SObj.leave M T x.1.rst.closestSObj x3) :
    OwnerKept x y ∨
    OwnerReprojected M (fun N => (SObj.node id p T cs).pathTransforms N) x y := by
  have hrst : (Visit_SObj.enter T x.1).rst = x.1.rst := by cases T <;> rfl
  obtain ⟨L1, L2, L3, L4⟩ := Visit_SObj_leave_cases M T x.1.rst.closestSObj x3
  rw [← hy] at L1 L2 L3 L4
  have hown := Visit_SObj_own_cases M id p (Visit_SObj.enter T x.1, x.2)
  rw [← h2] at hown
  have hown2 : (x2.2 = x.2 ∧ x2.1.rst.closestSObj = x.1.rst.closestSObj ∧
      x2.1.rst.n = x.1.rst.n ∧ x2.1.rst.tangent = x.1.rst.tangent) ∨
      (x2.2 = x.2 ++ [(id, x2.1.rst.n, x2.1.rst.tangent)] ∧ x2.1.rst.closestSObj = some id) := by
    rcases hown with ho | ho
    · left
      obtain ⟨o1, o2, o3, o4⟩ := ho
      refine ⟨o1, ?_, ?_, ?_⟩
      · rw [o2]; exact congrArg Rst.closestSObj hrst
      · rw [o3]; exact congrArg Rst.n hrst
      · rw [o4]; exact congrArg Rst.tangent hrst
    · exact Or.inr ho
  have hx2 : OwnerNotIn x2 (SObj.idsList cs) := by
    intro k hk
    rcases hown2 with ho | ⟨_, ho⟩
    · rw [ho.2.1] at hk
      exact fun hm => hx k hk (List.mem_cons_of_mem _ hm)
    · rw [ho] at hk
      have hkid : id = k := Option.some.inj hk
      rw [← hkid]
      exact hid
  have hch := Visit_SObj_children_owner M cs ih hndcs x2 hx2
  rw [← h3] at hch
  rcases hch with hk | ⟨pre, N, n, g, l, e1, e2, e3, e4, e5⟩
  · rcases hown2 with ho | ⟨ho1, ho2⟩
    · left
      have hsame : x3.1.rst.closestSObj = x.1.rst.closestSObj := hk.2.1.trans ho.2.1
      obtain ⟨a, b⟩ := L3 hsame
      exact ⟨L1.trans (hk.1.trans ho.1), L2.trans hsame,
        a.trans (hk.2.2.1.trans ho.2.2.1), b.trans (hk.2.2.2.trans ho.2.2.2)⟩
    · right
      have howner : x3.1.rst.closestSObj = some id := hk.2.1.trans ho2
      have hne : x3.1.rst.closestSObj ≠ x.1.rst.closestSObj := by
        rw [howner]
        intro h
        exact hx id h.symm (List.mem_cons_self _ _)
      obtain ⟨a, b⟩ := L4 hne
      refine ⟨[], id, x2.1.rst.n, x2.1.rst.tangent, T.toList, ?_, L2.trans howner, ?_, ?_, ?_⟩
      · rw [L1, hk.1, ho1]; simp only [List.append_nil]
      · simp only [SObj.pathTransforms, if_true]
      · rw [a, hk.2.2.1]
      · rw [b, hk.2.2.2]
  · right
    have hN : N ∈ SObj.idsList cs := pathTransformsList_mem N cs l e3
    have hNid : id ≠ N := fun h => hid (h ▸ hN)
    have hne : x3.1.rst.closestSObj ≠ x.1.rst.closestSObj := by
      rw [e2]
      intro h
      exact hx N h.symm (List.mem_cons_of_mem _ hN)
    obtain ⟨a, b⟩ := L4 hne
    have hlog : ∃ pre1, x3.2 = x.2 ++ pre1 ++ [(N, n, g)] := by
      rcases hown2 with ho | ⟨ho1, _⟩
      · exact ⟨pre, by rw [e1, ho.1]⟩
      · exact ⟨[(id, x2.1.rst.n, x2.1.rst.tangent)] ++ pre, by
          rw [e1, ho1]; simp only [List.append_assoc]⟩
    obtain ⟨pre1, hpre1⟩ := hlog
    refine ⟨pre1, N, n, g, l ++ T.toList, L1.trans hpre1, L2.trans e2, ?_, ?_, ?_⟩
    · simp only [SObj.pathTransforms, if_neg hNid, e3]
    · rw [a, e4, reproject_app]
    · rw [b, e5, reproject_app]

/-- The visit of a subtree, entered with an owner outside it, either records
nothing and keeps owner, normal and tangent, or ends with the last recorded
node as the owner and its normal and tangent taken through the transforms on
the way from that node up to the root of the subtree. -/
theorem Visit_SObj_owner (M : MathEnv α) :
    ∀ t : SObj α, t.ids.Nodup → ∀ x : St α × OwnerLog α, OwnerNotIn x t.ids →
      OwnerKept x (Visit_SObj M t x) ∨
      OwnerReprojected M (fun N => t.pathTransforms N) x (Visit_SObj M t x) := by
  refine SObj.induct _ ?_
  intro id p T cs ih hnd x hx
  simp only [SObj.ids] at hnd hx
  obtain ⟨hid, hndcs⟩ := List.nodup_cons.mp hnd
  have body := Visit_SObj_body_owner M id p T cs ih hid hndcs x hx _ _ _ rfl rfl rfl
  cases p with
  | none =>
    cases cs with
    | nil => simp only [Visit_SObj]; exact Or.inl ⟨rfl, rfl, rfl, rfl⟩
    | cons c rest => simp only [Visit_SObj]; exact body
  | some shape => simp only [Visit_SObj]; exact body

theorem idsList_append {β : Type} (l1 l2 : List (SObj β)) :
    SObj.idsList (l1 ++ l2) = SObj.idsList l1 ++ SObj.idsList l2 := by
  induction l1 with
  | nil => rfl
  | cons c rest ih =>
    show c.ids ++ SObj.idsList (rest ++ l2) = c.ids ++ SObj.idsList rest ++ SObj.idsList l2
    rw [ih, List.append_assoc]

/-- Every visit inside `Visit(root)` is entered with an owner outside the
visited subtree, when the node identities are distinct. -/
theorem SubVisit_owner (M : MathEnv α) (root : SObj α) (x0 : St α × OwnerLog α)
    (hids : root.ids.Nodup) (h0 : OwnerNotIn x0 root.ids) (t : SObj α) (x : St α × OwnerLog α)
    (h : SubVisit M root x0 t x) : t.ids.Nodup ∧ OwnerNotIn x t.ids := by
  induction h with
  | root => exact ⟨hids, h0⟩
  | child id p T before c after x _ ih =>
    obtain ⟨hnd, hx⟩ := ih
    simp only [SObj.ids, idsList_append, SObj.idsList] at hnd hx
    obtain ⟨hid, hndl⟩ := List.nodup_cons.mp hnd
    obtain ⟨hb, hca, hdisj1⟩ := List.nodup_append.mp hndl
    obtain ⟨hc, _, _⟩ := List.nodup_append.mp hca
    refine ⟨hc, ?_⟩
    have hrst : (Visit_SObj.enter T x.1).rst = x.1.rst := by cases T <;> rfl
    have hown := Visit_SObj_own_cases M id p (Visit_SObj.enter T x.1, x.2)
    have hx2 : OwnerNotIn (Visit_SObj.own M id p (Visit_SObj.enter T x.1, x.2))
        (SObj.idsList before ++ c.ids) := by
      intro k hk hm
      rcases hown with ho | ⟨_, ho⟩
      · rw [ho.2.1] at hk
        have hk1 : x.1.rst.closestSObj = some k := (congrArg Rst.closestSObj hrst).symm.trans hk
        refine hx k hk1 (List.mem_cons_of_mem _ ?_)
        rcases List.mem_append.mp hm with m | m
        · exact List.mem_append_left _ m
        · exact List.mem_append_right _ (List.mem_append_left _ m)
      · rw [ho] at hk
        have hkid : id = k := Option.some.inj hk
        rw [← hkid] at hm
        apply hid
        rcases List.mem_append.mp hm with m | m
        · exact List.mem_append_left _ m
        · exact List.mem_append_right _ (List.mem_append_left _ m)
    have hch := Visit_SObj_children_owner M before
      (fun c1 _ hn1 x1 hx1 => Visit_SObj_owner M c1 hn1 x1 hx1) hb _
      (fun k hk hm => hx2 k hk (List.mem_append_left _ hm))
    intro k hk hm
    rcases hch with hkept | ⟨pre, N, n, g, l, e1, e2, e3, e4, e5⟩
    · rw [hkept.2.1] at hk
      exact hx2 k hk (List.mem_append_right _ hm)
    · rw [e2] at hk
      have hkN : N = k := Option.some.inj hk
      rw [← hkN] at hm
      exact hdisj1 (pathTransformsList_mem N before l e3) (List.mem_append_left _ hm)

/-- C14.  After `Init` and `Visit(root)` on a scene tree with distinct nodes:
either no owner was recorded, the closest owner is null and normal and tangent
are those before the visit; or the last recorded node `N`, recorded with the
normal `n` and the tangent `g` that stood in `rst` after the test of its
primitive, is the final closest owner, and the final normal and tangent are `n`
and `g` taken through the transform of `N` (if any) and of each ancestor of `N`
with a transform, innermost first, each once and each followed by `Normalize`.
And every visit of a node inside `Visit(root)` that ends with the closest owner
it started with leaves the record, the normal and the tangent as they were. -/
theorem hit_orientation_reprojected (M : MathEnv α) (root : SObj α) (hids : root.ids.Nodup)
    (ray : ERay α) (old : Rst α) :
    (((Visit_SObj M root (Init ray old, [])).2 = [] ∧
        (Visit_SObj M root (Init ray old, [])).1.rst.closestSObj = none ∧
        (Visit_SObj M root (Init ray old, [])).1.rst.n = old.n ∧
        (Visit_SObj M root (Init ray old, [])).1.rst.tangent = old.tangent) ∨
      (∃ (pre : OwnerLog α) (N : Nat) (n g : Vec3 α) (l : List (Transform α)),
        (Visit_SObj M root (Init ray old, [])).2 = pre ++ [(N, n, g)] ∧
        (Visit_SObj M root (Init ray old, [])).1.rst.closestSObj = some N ∧
        root.pathTransforms N = some l ∧
        (Visit_SObj M root (Init ray old, [])).1.rst.n = reproject M l n ∧
        (Visit_SObj M root (Init ray old, [])).1.rst.tangent = reproject M l g)) ∧
    (∀ (t : SObj α) (x : St α × OwnerLog α), SubVisit M root (Init ray old, []) t x →
      (Visit_SObj M t x).1.rst.closestSObj = x.1.rst.closestSObj →
      (Visit_SObj M t x).2 = x.2 ∧ (Visit_SObj M t x).1.rst.n = x.1.rst.n ∧
      (Visit_SObj M t x).1.rst.tangent = x.1.rst.tangent) := by
  have h0 : OwnerNotIn ((Init ray old, []) : St α × OwnerLog α) root.ids := by
    intro k hk
    exact absurd hk (by simp [Init])
  constructor
  · rcases Visit_SObj_owner M root hids _ h0 with hk | ⟨pre, N, n, g, l, e1, e2, e3, e4, e5⟩
    · exact Or.inl ⟨hk.1, hk.2.1, hk.2.2.1, hk.2.2.2⟩
    · refine Or.inr ⟨pre, N, n, g, l, ?_, e2, e3, e4, e5⟩
      rw [e1]; simp only [List.nil_append]
  · intro t x hsub hsame
    obtain ⟨hnd, hx⟩ := SubVisit_owner M root _ hids h0 t x hsub
    rcases Visit_SObj_owner M t hnd x hx with hk | ⟨pre, N, n, g, l, e1, e2, e3, e4, e5⟩
    · exact ⟨hk.1, hk.2.2.1, hk.2.2.2⟩
    · rw [e2] at hsame
      exact absurd (pathTransforms_mem N t l e3) (hx N hsame.symm)

/-! ### The BVH traversal and the direct scan -/

theorem scanPost_refl (dist : Nat → Option α) (S : Nat → Prop) (x : St α × HitLog α)
    (h : ∀ k d, S k → dist k = some d → x.1.ray.tMax < d) : ScanPost dist S x x := by
  refine ⟨rfl, rfl, rfl, le_refl _, fun k d hk hd => le_of_lt (h k d hk hd), Or.inl rfl,
    [], (List.append_nil _).symm, ?_⟩
  constructor
  · intro hne; exact absurd rfl hne
  · rintro ⟨k, d, hk, hd, hle⟩
    exact absurd hle (not_le.mpr (h k d hk hd))

theorem scanPost_congr (dist : Nat → Option α) (S S1 : Nat → Prop) (x x1 : St α × HitLog α)
    (hS : ∀ k, S k ↔ S1 k) (h : ScanPost dist S x x1) : ScanPost dist S1 x x1 := by
  obtain ⟨a1, a2, a3, a4, a5, a6, new, a7, a8⟩ := h
  refine ⟨a1, a2, a3, a4, fun k d hk hd => a5 k d ((hS k).mpr hk) hd, ?_, new, a7, ?_⟩
  · rcases a6 with e | ⟨k, hk, hd⟩
    · exact Or.inl e
    · exact Or.inr ⟨k, (hS k).mp hk, hd⟩
  · rw [a8]
    constructor
    · rintro ⟨k, d, hk, hd, hle⟩; exact ⟨k, d, (hS k).mp hk, hd, hle⟩
    · rintro ⟨k, d, hk, hd, hle⟩; exact ⟨k, d, (hS k).mpr hk, hd, hle⟩

theorem scanPost_trans (dist : Nat → Option α) (S1 S2 : Nat → Prop)
    (x x1 x2 : St α × HitLog α) (h1 : ScanPost dist S1 x x1) (h2 : ScanPost dist S2 x1 x2) :
    ScanPost dist (fun k => S1 k ∨ S2 k) x x2 := by
  obtain ⟨a1, a2, a3, a4, a5, a6, newA, a7, a8⟩ := h1
  obtain ⟨b1, b2, b3, b4, b5, b6, newB, b7, b8⟩ := h2
  refine ⟨b1.trans a1, b2.trans a2, b3.trans a3, le_trans b4 a4, ?_, ?_, newA ++ newB, ?_, ?_⟩
  · intro k d hk hd
    rcases hk with hk | hk
    · exact le_trans b4 (a5 k d hk hd)
    · exact b5 k d hk hd
  · rcases b6 with e | ⟨k, hk, hd⟩
    · rw [e]
      rcases a6 with e1 | ⟨k, hk, hd⟩
      · exact Or.inl e1
      · exact Or.inr ⟨k, Or.inl hk, hd⟩
    · exact Or.inr ⟨k, Or.inr hk, hd⟩
  · rw [b7, a7, List.append_assoc]
  · constructor
    · intro hne
      by_cases hA : newA = []
      · have hB : newB ≠ [] := by
          intro hB; rw [hA, hB] at hne; exact hne rfl
        obtain ⟨k, d, hk, hd, hle⟩ := b8.mp hB
        exact ⟨k, d, Or.inr hk, hd, le_trans hle a4⟩
      · obtain ⟨k, d, hk, hd, hle⟩ := a8.mp hA
        exact ⟨k, d, Or.inl hk, hd, hle⟩
    · rintro ⟨k, d, hk, hd, hle⟩
      intro hnil
      obtain ⟨hA, hB⟩ := List.append_eq_nil.mp hnil
      rcases hk with hk | hk
      · exact (a8.mpr ⟨k, d, hk, hd, hle⟩) hA
      · by_cases hle1 : d ≤ x1.1.ray.tMax
        · exact (b8.mpr ⟨k, d, hk, hd, hle1⟩) hB
        · rcases a6 with e | ⟨k1, hk1, hd1⟩
          · rw [e] at hle1; exact hle1 hle
          · exact (a8.mpr ⟨k1, _, hk1, hd1, a4⟩) hA

/-- Two scans of the same shapes from the same state end with the same `tMax`,
and one has recorded a hit exactly if the other has. -/
theorem scanPost_unique (dist : Nat → Option α) (S : Nat → Prop) (x a b : St α × HitLog α)
    (ha : ScanPost dist S x a) (hb : ScanPost dist S x b) :
    a.1.ray.tMax = b.1.ray.tMax ∧ (a.2 = x.2 ↔ b.2 = x.2) := by
  obtain ⟨_, _, _, a4, a5, a6, newA, a7, a8⟩ := ha
  obtain ⟨_, _, _, b4, b5, b6, newB, b7, b8⟩ := hb
  constructor
  · apply le_antisymm
    · rcases b6 with e | ⟨k, hk, hd⟩
      · rw [e]; exact a4
      · exact a5 k _ hk hd
    · rcases a6 with e | ⟨k, hk, hd⟩
      · rw [e]; exact b4
      · exact b5 k _ hk hd
  · have hA : a.2 = x.2 ↔ newA = [] := by
      rw [a7]
      constructor
      · intro h; exact List.append_right_eq_self.mp h
      · intro h; rw [h, List.append_nil]
    have hB : b.2 = x.2 ↔ newB = [] := by
      rw [b7]
      constructor
      · intro h; exact List.append_right_eq_self.mp h
      · intro h; rw [h, List.append_nil]
    rw [hA, hB]
    constructor
    · intro h
      by_contra hne
      exact (a8.mpr (b8.mp hne)) h
    · intro h
      by_contra hne
      exact (b8.mpr (a8.mp hne)) h

/-- One pass of the leaf loop, for a shape with an exact test. -/
theorem Visit_BVHAccel_leaf_exact_step (M : MathEnv α) (bvh : BVHAccel α) (ray : ERay α)
    (dist : Nat → Option α) (hexact : ExactTests M bvh ray dist) (k : Nat) (rest : List Nat)
    (hk : k < bvh.shapes.length) (x : St α × HitLog α)
    (ho : x.1.ray.o = ray.o) (hd : x.1.ray.d = ray.d) (htm : x.1.ray.tMin = ray.tMin) :
    ∃ y : St α × HitLog α, ScanPost dist (fun k1 => k1 = k) x y ∧
      Visit_BVHAccel.leaf M bvh ray.o ray.d (k :: rest) x =
        Visit_BVHAccel.leaf M bvh ray.o ray.d rest y := by
  obtain ⟨s, log⟩ := x
  cases hg : bvh.shapes.get? k with
  | none => exact absurd (List.get?_eq_none.mp hg) (not_le.mpr hk)
  | some shape =>
    obtain ⟨hyes, hno⟩ := hexact.2 k shape hg s ho hd htm
    have hkept := (Accept_ray M shape { s with ray := (bvh.shapeW2L k).ApplyTo s.ray }).2.2
    simp only [Visit_BVHAccel.leaf, hg]
    by_cases hin : ∃ d, dist k = some d ∧ d ≤ s.ray.tMax
    · obtain ⟨hflag, hdist⟩ := hyes hin
      obtain ⟨d, hd1, hd2⟩ := hin
      have hd3 : d = (shape.Accept M { s with ray := (bvh.shapeW2L k).ApplyTo s.ray }).ray.tMax :=
        Option.some.inj (hd1.symm.trans hdist)
      rw [if_pos hflag]
      refine ⟨_, ?_, rfl⟩
      refine ⟨ho.symm, hd.symm, hkept, ?_, ?_, ?_, [(k, _)], rfl, ?_⟩
      · show (shape.Accept M { s with ray := (bvh.shapeW2L k).ApplyTo s.ray }).ray.tMax
          ≤ s.ray.tMax
        rw [← hd3]; exact hd2
      · intro k1 d1 hk1 hd4
        show (shape.Accept M { s with ray := (bvh.shapeW2L k).ApplyTo s.ray }).ray.tMax ≤ d1
        rw [hk1, hdist] at hd4
        exact le_of_eq (Option.some.inj hd4)
      · exact Or.inr ⟨k, rfl, hdist⟩
      · constructor
        · intro _; exact ⟨k, d, rfl, hd1, hd2⟩
        · intro _; exact List.cons_ne_nil _ _
    · have hall : ∀ d, dist k = some d → s.ray.tMax < d := by
        intro d hd1
        exact not_le.mp (fun hle => hin ⟨d, hd1, hle⟩)
      obtain ⟨hflag, htmax⟩ := hno hall
      rw [if_neg (by rw [hflag]; exact Bool.false_ne_true)]
      refine ⟨_, ?_, rfl⟩
      refine ⟨ho.symm, hd.symm, hkept, ?_, ?_, ?_, [], (List.append_nil _).symm, ?_⟩
      · exact le_of_eq htmax
      · intro k1 d1 hk1 hd4
        show (shape.Accept M { s with ray := (bvh.shapeW2L k).ApplyTo s.ray }).ray.tMax ≤ d1
        rw [htmax]
        rw [hk1] at hd4
        exact le_of_lt (hall d1 hd4)
      · exact Or.inl htmax
      · constructor
        · intro hne; exact absurd rfl hne
        · rintro ⟨k1, d1, hk1, hd4, hle⟩
          rw [hk1] at hd4
          exact absurd hle (not_le.mpr (hall d1 hd4))

/-- The leaf loop over shapes with exact tests returns, and is a scan of these
shapes. -/
theorem Visit_BVHAccel_leaf_exact (M : MathEnv α) (bvh : BVHAccel α) (ray : ERay α)
    (dist : Nat → Option α) (hexact : ExactTests M bvh ray dist) (ks : List Nat) :
    (∀ k ∈ ks, k < bvh.shapes.length) → ∀ x : St α × HitLog α,
      x.1.ray.o = ray.o → x.1.ray.d = ray.d → x.1.ray.tMin = ray.tMin →
      ∃ x1, Visit_BVHAccel.leaf M bvh ray.o ray.d ks x = some x1 ∧
        ScanPost dist (fun k => k ∈ ks) x x1 := by
  induction ks with
  | nil =>
    intro _ x _ _ _
    exact ⟨x, rfl, scanPost_refl dist _ x (fun k d hk _ => absurd hk (List.not_mem_nil k))⟩
  | cons k rest ih =>
    intro hval x ho hd htm
    obtain ⟨y, hy, hstep⟩ := Visit_BVHAccel_leaf_exact_step M bvh ray dist hexact k rest
      (hval k (List.mem_cons_self _ _)) x ho hd htm
    obtain ⟨x1, hx1, hpost⟩ := ih (fun k1 h1 => hval k1 (List.mem_cons_of_mem _ h1)) y
      (hy.1.trans ho) (hy.2.1.trans hd) (hy.2.2.1.trans htm)
    refine ⟨x1, hstep.trans hx1, ?_⟩
    refine scanPost_congr dist _ _ x x1 ?_ (scanPost_trans dist _ _ x y x1 hy hpost)
    intro k1
    exact List.mem_cons.symm

theorem Visit_BVHAccel_loop_skip (M : MathEnv α) (bvh : BVHAccel α) (origin dir invDir : Vec3 α)
    (dirIsNeg : Fin 3 → Bool) (fuel : Nat) (i : Nat) (st : List Nat) (x : St α × HitLog α)
    (node : LinearBVHNode α) (hg : bvh.nodes.get? i = some node)
    (hI : Intersect x.1.ray node.box invDir = false) :
    Visit_BVHAccel.loop M bvh origin dir invDir dirIsNeg (fuel + 1) (i :: st) x =
      Visit_BVHAccel.loop M bvh origin dir invDir dirIsNeg fuel st x := by
  simp only [Visit_BVHAccel.loop, hg, hI, Bool.not_false, if_true]

theorem Visit_BVHAccel_loop_leaf (M : MathEnv α) (bvh : BVHAccel α) (origin dir invDir : Vec3 α)
    (dirIsNeg : Fin 3 → Bool) (fuel : Nat) (i : Nat) (st : List Nat) (x x1 : St α × HitLog α)
    (node : LinearBVHNode α) (hg : bvh.nodes.get? i = some node)
    (hI : Intersect x.1.ray node.box invDir = true) (hleaf : node.isLeaf = true)
    (hl : Visit_BVHAccel.leaf M bvh origin dir node.shapesIdx x = some x1) :
    Visit_BVHAccel.loop M bvh origin dir invDir dirIsNeg (fuel + 1) (i :: st) x =
      Visit_BVHAccel.loop M bvh origin dir invDir dirIsNeg fuel st x1 := by
  simp only [Visit_BVHAccel.loop, hg, hI, hleaf, hl, Bool.not_true, if_true,
    Bool.false_eq_true, if_false]

theorem Visit_BVHAccel_loop_inner (M : MathEnv α) (bvh : BVHAccel α) (origin dir invDir : Vec3 α)
    (dirIsNeg : Fin 3 → Bool) (fuel : Nat) (i : Nat) (st : List Nat) (x : St α × HitLog α)
    (node : LinearBVHNode α) (hg : bvh.nodes.get? i = some node)
    (hI : Intersect x.1.ray node.box invDir = true) (hleaf : node.isLeaf = false) :
    Visit_BVHAccel.loop M bvh origin dir invDir dirIsNeg (fuel + 1) (i :: st) x =
      if dirIsNeg node.axis then
        Visit_BVHAccel.loop M bvh origin dir invDir dirIsNeg fuel
          (node.secondChildIdx :: LinearBVHNode.FirstChildIdx i :: st) x
      else
        Visit_BVHAccel.loop M bvh origin dir invDir dirIsNeg fuel
          (LinearBVHNode.FirstChildIdx i :: node.secondChildIdx :: st) x := by
  simp only [Visit_BVHAccel.loop, hg, hI, hleaf, Bool.not_true, Bool.false_eq_true, if_false]

/-- One more iteration allowed does not change a result of the loop. -/
theorem Visit_BVHAccel_loop_succ (M : MathEnv α) (bvh : BVHAccel α) (origin dir invDir : Vec3 α)
    (dirIsNeg : Fin 3 → Bool) (fuel : Nat) :
    ∀ (stack : List Nat) (x y : St α × HitLog α),
      Visit_BVHAccel.loop M bvh origin dir invDir dirIsNeg fuel stack x = some y →
      Visit_BVHAccel.loop M bvh origin dir invDir dirIsNeg (fuel + 1) stack x = some y := by
  induction fuel with
  | zero =>
    intro stack x y h
    cases stack with
    | nil => simpa only [Visit_BVHAccel.loop] using h
    | cons i st => exact absurd h (by simp [Visit_BVHAccel.loop])
  | succ fuel ih =>
    intro stack x y h
    cases stack with
    | nil => simpa only [Visit_BVHAccel.loop] using h
    | cons i st =>
      cases hg : bvh.nodes.get? i with
      | none =>
        simp only [Visit_BVHAccel.loop, hg] at h
        exact absurd h (by simp)
      | some node =>
        cases hI : Intersect x.1.ray node.box invDir with
        | false =>
          rw [Visit_BVHAccel_loop_skip M bvh origin dir invDir dirIsNeg _ i st x node hg hI] at h ⊢
          exact ih _ _ _ h
        | true =>
          cases hleaf : node.isLeaf with
          | true =>
            cases hl : Visit_BVHAccel.leaf M bvh origin dir node.shapesIdx x with
            | none =>
              simp only [Visit_BVHAccel.loop, hg, hI, hleaf, hl, Bool.not_true, if_true,
                Bool.false_eq_true, if_false] at h
              exact absurd h (by simp)
            | some x1 =>
              rw [Visit_BVHAccel_loop_leaf M bvh origin dir invDir dirIsNeg _ i st x x1 node hg hI
                hleaf hl] at h ⊢
              exact ih _ _ _ h
          | false =>
            rw [Visit_BVHAccel_loop_inner M bvh origin dir invDir dirIsNeg _ i st x node hg hI
              hleaf] at h ⊢
            split_ifs at h ⊢
            · exact ih _ _ _ h
            · exact ih _ _ _ h

theorem Visit_BVHAccel_loop_add (M : MathEnv α) (bvh : BVHAccel α) (origin dir invDir : Vec3 α)
    (dirIsNeg : Fin 3 → Bool) (fuel : Nat) (stack : List Nat) (x y : St α × HitLog α)
    (h : Visit_BVHAccel.loop M bvh origin dir invDir dirIsNeg fuel stack x = some y) (n : Nat) :
    Visit_BVHAccel.loop M bvh origin dir invDir dirIsNeg (fuel + n) stack x = some y := by
  induction n with
  | zero => exact h
  | succ n ih => exact Visit_BVHAccel_loop_succ M bvh origin dir invDir dirIsNeg _ _ _ _ ih

/-- The loop, started with the root of a subtree on top of the stack, comes
back to the rest of the stack after at most as many iterations as the subtree
has nodes, and has then made a scan of the shapes of the subtree. -/
theorem Visit_BVHAccel_loop_subtree (M : MathEnv α) (bvh : BVHAccel α) (ray : ERay α)
    (dirIsNeg : Fin 3 → Bool) (dist : Nat → Option α) (hexact : ExactTests M bvh ray dist) :
    ∀ t : BVHTree, bvh.Realizes t → BoxesPass bvh ray dist t →
      ∀ (stack : List Nat) (x : St α × HitLog α),
        x.1.ray.o = ray.o → x.1.ray.d = ray.d → x.1.ray.tMin = ray.tMin →
        ∃ x1 : St α × HitLog α, ScanPost dist (fun k => k ∈ t.shapes) x x1 ∧
          ∀ (fuel : Nat) (y : St α × HitLog α),
            Visit_BVHAccel.loop M bvh ray.o ray.d ray.InvDir dirIsNeg fuel stack x1 = some y →
            Visit_BVHAccel.loop M bvh ray.o ray.d ray.InvDir dirIsNeg (fuel + t.size)
              (t.idx :: stack) x = some y := by
  intro t
  induction t with
  | leaf idx shapesIdx =>
    intro hwf hbox stack x ho hd htm
    obtain ⟨node, hg, hleaf, hsh, hval⟩ := hwf
    cases hI : Intersect x.1.ray node.box ray.InvDir with
    | false =>
      refine ⟨x, scanPost_refl dist _ x ?_, ?_⟩
      · intro k d hk hdk
        by_contra hnot
        have hpass := hbox node hg x.1.ray ho htm
          ⟨k, hk, d, hdk, hexact.1 k d hdk, not_lt.mp hnot⟩
        rw [hI] at hpass
        exact absurd hpass (by simp)
      · intro fuel y hy
        show Visit_BVHAccel.loop M bvh ray.o ray.d ray.InvDir dirIsNeg (fuel + 1)
          (idx :: stack) x = some y
        rw [Visit_BVHAccel_loop_skip M bvh _ _ _ dirIsNeg fuel idx stack x node hg hI]
        exact hy
    | true =>
      obtain ⟨x1, hl, hpost⟩ := Visit_BVHAccel_leaf_exact M bvh ray dist hexact shapesIdx hval x
        ho hd htm
      refine ⟨x1, hpost, ?_⟩
      intro fuel y hy
      show Visit_BVHAccel.loop M bvh ray.o ray.d ray.InvDir dirIsNeg (fuel + 1)
        (idx :: stack) x = some y
      rw [Visit_BVHAccel_loop_leaf M bvh _ _ _ dirIsNeg fuel idx stack x x1 node hg hI hleaf
        (by rw [hsh]; exact hl)]
      exact hy
  | node idx a b iha ihb =>
    intro hwf hbox stack x ho hd htm
    obtain ⟨node, hg, hleaf, hfirst, hsecond, hwa, hwb⟩ := hwf
    obtain ⟨hbx, hba, hbb⟩ := hbox
    cases hI : Intersect x.1.ray node.box ray.InvDir with
    | false =>
      refine ⟨x, scanPost_refl dist _ x ?_, ?_⟩
      · intro k d hk hdk
        by_contra hnot
        have hpass := hbx node hg x.1.ray ho htm
          ⟨k, hk, d, hdk, hexact.1 k d hdk, not_lt.mp hnot⟩
        rw [hI] at hpass
        exact absurd hpass (by simp)
      · intro fuel y hy
        show Visit_BVHAccel.loop M bvh ray.o ray.d ray.InvDir dirIsNeg
          ((fuel + (a.size + b.size)) + 1) (idx :: stack) x = some y
        rw [Visit_BVHAccel_loop_skip M bvh _ _ _ dirIsNeg _ idx stack x node hg hI]
        exact Visit_BVHAccel_loop_add M bvh _ _ _ dirIsNeg fuel stack x y hy _
    | true =>
      cases hneg : dirIsNeg node.axis with
      | true =>
        obtain ⟨x1, hp1, hf1⟩ := ihb hwb hbb (a.idx :: stack) x ho hd htm
        obtain ⟨x2, hp2, hf2⟩ := iha hwa hba stack x1 (hp1.1.trans ho) (hp1.2.1.trans hd)
          (hp1.2.2.1.trans htm)
        refine ⟨x2, ?_, ?_⟩
        · refine scanPost_congr dist _ _ x x2 ?_ (scanPost_trans dist _ _ x x1 x2 hp1 hp2)
          intro k
          simp only [BVHTree.shapes, List.mem_append]
          exact Or.comm
        · intro fuel y hy
          have h1 := hf1 _ y (hf2 fuel y hy)
          have h2 : Visit_BVHAccel.loop M bvh ray.o ray.d ray.InvDir dirIsNeg
              ((fuel + a.size + b.size) + 1) (idx :: stack) x = some y := by
            rw [Visit_BVHAccel_loop_inner M bvh _ _ _ dirIsNeg _ idx stack x node hg hI hleaf,
              hneg, if_pos rfl, ← hsecond, ← hfirst]
            exact h1
          have hfuel : fuel + (BVHTree.node idx a b).size = (fuel + a.size + b.size) + 1 := by
            simp only [BVHTree.size]; omega
          show Visit_BVHAccel.loop M bvh ray.o ray.d ray.InvDir dirIsNeg
            (fuel + (BVHTree.node idx a b).size) (idx :: stack) x = some y
          rw [hfuel]
          exact h2
      | false =>
        obtain ⟨x1, hp1, hf1⟩ := iha hwa hba (b.idx :: stack) x ho hd htm
        obtain ⟨x2, hp2, hf2⟩ := ihb hwb hbb stack x1 (hp1.1.trans ho) (hp1.2.1.trans hd)
          (hp1.2.2.1.trans htm)
        refine ⟨x2, ?_, ?_⟩
        · refine scanPost_congr dist _ _ x x2 ?_ (scanPost_trans dist _ _ x x1 x2 hp1 hp2)
          intro k
          simp only [BVHTree.shapes, List.mem_append]
        · intro fuel y hy
          have h1 := hf1 _ y (hf2 fuel y hy)
          have h2 : Visit_BVHAccel.loop M bvh ray.o ray.d ray.InvDir dirIsNeg
              ((fuel + b.size + a.size) + 1) (idx :: stack) x = some y := by
            rw [Visit_BVHAccel_loop_inner M bvh _ _ _ dirIsNeg _ idx stack x node hg hI hleaf,
              hneg, if_neg Bool.false_ne_true, ← hsecond, ← hfirst]
            exact h1
          have hfuel : fuel + (BVHTree.node idx a b).size = (fuel + b.size + a.size) + 1 := by
            simp only [BVHTree.size]; omega
          show Visit_BVHAccel.loop M bvh ray.o ray.d ray.InvDir dirIsNeg
            (fuel + (BVHTree.node idx a b).size) (idx :: stack) x = some y
          rw [hfuel]
          exact h2

theorem Realizes_shapes_valid (bvh : BVHAccel α) :
    ∀ t : BVHTree, bvh.Realizes t → ∀ k ∈ t.shapes, k < bvh.shapes.length := by
  intro t
  induction t with
  | leaf idx shapesIdx =>
    intro hwf k hk
    obtain ⟨node, _, _, _, hval⟩ := hwf
    exact hval k hk
  | node idx a b iha ihb =>
    intro hwf k hk
    obtain ⟨node, _, _, _, _, hwa, hwb⟩ := hwf
    rcases List.mem_append.mp hk with h | h
    · exact iha hwa k h
    · exact ihb hwb k h

theorem Visit_BVHAccel_finish_ray (M : MathEnv α) (bvh : BVHAccel α) (s : St α) :
    (Visit_BVHAccel.finish M bvh s).ray = s.ray := by
  unfold Visit_BVHAccel.finish
  cases s.rst.closestSObj with
  | none => rfl
  | some k => rfl

/-- C17.  The BVH traversal agrees with the direct scan.  Let the node array of
`bvh` be the flattening of a finite tree with its root at index 0 (an internal
node at `i` has its children at `i + 1` and at its second-child index), let the
leaf shape tests be exact nearest-hit tests with the distances `dist`, and let
the box of every node pass the slab test whenever a shape of its subtree has
its intersection in the current `[tMin, tMax]`.  Then the scan of the shapes in
the leaves, in any order and without box tests, returns; the traversal returns
as soon as it is allowed as many iterations as the tree has nodes; both end
with the same `tMax`, the least of the initial `tMax` and the distances of the
shapes; and the traversal records a hit exactly if the scan does, which is
exactly if some shape has its distance within the initial `tMax`. -/
theorem bvh_agrees_with_brute_force (M : MathEnv α) (bvh : BVHAccel α) (tree : BVHTree)
    (dist : Nat → Option α) (order : List Nat) (s : St α)
    (hroot : tree.idx = 0) (hwf : bvh.Realizes tree)
    (horder : ∀ k, k ∈ order ↔ k ∈ tree.shapes)
    (hexact : ExactTests M bvh s.ray dist) (hbox : BoxesPass bvh s.ray dist tree) :
    ∃ xb x1 : St α × HitLog α,
      bruteForce M bvh order s = some xb ∧
      (∀ fuel, tree.size ≤ fuel → Visit_BVHAccel M bvh fuel s = some x1) ∧
      x1.1.ray.tMax = xb.1.ray.tMax ∧
      (x1.2 ≠ [] ↔ xb.2 ≠ []) ∧
      (xb.2 ≠ [] ↔ ∃ k d, k ∈ order ∧ dist k = some d ∧ d ≤ s.ray.tMax) ∧
      xb.1.ray.tMax ≤ s.ray.tMax ∧
      (∀ k d, k ∈ order → dist k = some d → xb.1.ray.tMax ≤ d) ∧
      (xb.1.ray.tMax = s.ray.tMax ∨ ∃ k, k ∈ order ∧ dist k = some xb.1.ray.tMax) := by
  have hval : ∀ k ∈ order, k < bvh.shapes.length := fun k hk =>
    Realizes_shapes_valid bvh tree hwf k ((horder k).mp hk)
  obtain ⟨xb, hb, hpostb⟩ := Visit_BVHAccel_leaf_exact M bvh s.ray dist hexact order hval
    (s, []) rfl rfl rfl
  obtain ⟨x1, hpost1, hf⟩ := Visit_BVHAccel_loop_subtree M bvh s.ray
    (fun i => decide (s.ray.InvDir.get i < 0)) dist hexact tree hwf hbox [] (s, []) rfl rfl rfl
  have hpost1o : ScanPost dist (fun k => k ∈ order) (s, []) x1 :=
    scanPost_congr dist _ _ _ _ (fun k => (horder k).symm) hpost1
  obtain ⟨htmax, hlog⟩ := scanPost_unique dist _ (s, []) x1 xb hpost1o hpostb
  have hrun := hf 0 x1 (by simp only [Visit_BVHAccel.loop])
  rw [hroot, Nat.zero_add] at hrun
  obtain ⟨_, _, _, b4, b5, b6, newB, b7, b8⟩ := hpostb
  have hxb : xb.2 = newB := by rw [b7]; rfl
  obtain ⟨s1, log1⟩ := x1
  refine ⟨xb, (Visit_BVHAccel.finish M bvh s1, log1), hb, ?_, ?_, ?_, ?_, b4, b5, b6⟩
  · intro fuel hfuel
    obtain ⟨n, hn⟩ := Nat.exists_eq_add_of_le hfuel
    have hloop := Visit_BVHAccel_loop_add M bvh _ _ _ _ _ _ _ _ hrun n
    rw [← hn] at hloop
    unfold Visit_BVHAccel
    simp only [hloop]
  · show (Visit_BVHAccel.finish M bvh s1).ray.tMax = xb.1.ray.tMax
    rw [Visit_BVHAccel_finish_ray]
    exact htmax
  · show log1 ≠ [] ↔ xb.2 ≠ []
    exact not_congr hlog
  · rw [hxb]; exact b8

end ContractProofs




/-! ### Exact arithmetic: the sphere -/

section Field

variable {K : Type} [LinearOrderedField K]

open RayIntersector

theorem quad_no_root (a b c t : K) (hD : b * b - a * c < 0) :
    a * t * t + 2 * b * t + c ≠ 0 := by
  intro h
  have h1 : (a * t + b) * (a * t + b) = b * b - a * c + a * (a * t * t + 2 * b * t + c) := by
    ring
  rw [h, mul_zero, add_zero] at h1
  nlinarith [mul_self_nonneg (a * t + b)]

theorem quad_roots (a b c s t : K) (ha : 0 < a) (hs : s * s = b * b - a * c) :
    a * t * t + 2 * b * t + c = 0 ↔ t = -(b + s) * (1 / a) ∨ t = (-b + s) * (1 / a) := by
  have ha0 : a ≠ 0 := ne_of_gt ha
  constructor
  · intro h
    have h1 : (a * t + b + s) * (a * t + b - s) = 0 := by
      have e : (a * t + b + s) * (a * t + b - s)
          = a * (a * t * t + 2 * b * t + c) - (s * s - (b * b - a * c)) := by ring
      rw [e, h, hs]; ring
    rcases mul_eq_zero.mp h1 with h2 | h2
    · left; field_simp; linarith
    · right; field_simp; linarith
  · rintro (h | h)
    · have h2 : a * t = -(b + s) := by rw [h]; field_simp
      have h3 : a * (a * t * t + 2 * b * t + c) = 0 := by
        have e : a * (a * t * t + 2 * b * t + c)
            = (a * t) * (a * t) + 2 * b * (a * t) + a * c := by ring
        rw [e, h2]; linear_combination hs
      exact (mul_eq_zero.mp h3).resolve_left ha0
    · have h2 : a * t = -b + s := by rw [h]; field_simp
      have h3 : a * (a * t * t + 2 * b * t + c) = 0 := by
        have e : a * (a * t * t + 2 * b * t + c)
            = (a * t) * (a * t) + 2 * b * (a * t) + a * c := by ring
        rw [e, h2]; linear_combination hs
      exact (mul_eq_zero.mp h3).resolve_left ha0

theorem root_order (a b s : K) (ha : 0 < a) (hs : 0 ≤ s) :
    -(b + s) * (1 / a) ≤ (-b + s) * (1 / a) := by
  have h : 0 < 1 / a := by positivity
  apply mul_le_mul_of_nonneg_right _ h.le
  linarith

theorem dot_self_pos (d : Vec3 K) (hd : d ≠ ⟨0, 0, 0⟩) : 0 < d.Dot d := by
  obtain ⟨x, y, z⟩ := d
  simp only [Vec3.Dot]
  have h0 : 0 ≤ x * x + y * y + z * z := by
    nlinarith [mul_self_nonneg x, mul_self_nonneg y, mul_self_nonneg z]
  rcases h0.lt_or_eq with h | h
  · exact h
  · exfalso
    apply hd
    have hx : x = 0 := by nlinarith [mul_self_nonneg x, mul_self_nonneg y, mul_self_nonneg z]
    have hy : y = 0 := by nlinarith [mul_self_nonneg x, mul_self_nonneg y, mul_self_nonneg z]
    have hz : z = 0 := by nlinarith [mul_self_nonneg x, mul_self_nonneg y, mul_self_nonneg z]
    rw [hx, hy, hz]

theorem sphere_quadratic (r : ERay K) (t : K) :
    (r.At t).Norm2 = 1 ↔
      r.d.Dot r.d * t * t + 2 * r.o.Dot r.d * t + (r.o.Dot r.o - 1) = 0 := by
  simp only [ERay.At, Vec3.Norm2, Vec3.Dot]
  constructor <;> intro h <;> linear_combination h

/-- What `Visit(Ptr<Sphere>)` returns, by the three cases of its control flow. -/
theorem Visit_Sphere_cases (M : MathEnv K) (s : St K) :
    (sphereDiscriminant s.ray < 0 → Visit_Sphere M s = miss s) ∧
    (¬ sphereDiscriminant s.ray < 0 →
      (s.ray.tMin ≤ sphereRootNear M s.ray ∧ sphereRootNear M s.ray ≤ s.ray.tMax →
        Visit_Sphere M s = hit s (sphereRootNear M s.ray) (s.ray.At (sphereRootNear M s.ray))
          (M.TexcoordOf (s.ray.At (sphereRootNear M s.ray)))
          (M.TangentOf (s.ray.At (sphereRootNear M s.ray)))) ∧
      (¬ (s.ray.tMin ≤ sphereRootNear M s.ray ∧ sphereRootNear M s.ray ≤ s.ray.tMax) →
        (s.ray.tMin ≤ sphereRootFar M s.ray ∧ sphereRootFar M s.ray ≤ s.ray.tMax →
          Visit_Sphere M s = hit s (sphereRootFar M s.ray) (s.ray.At (sphereRootFar M s.ray))
            (M.TexcoordOf (s.ray.At (sphereRootFar M s.ray)))
            (M.TangentOf (s.ray.At (sphereRootFar M s.ray)))) ∧
        (¬ (s.ray.tMin ≤ sphereRootFar M s.ray ∧ sphereRootFar M s.ray ≤ s.ray.tMax) →
          Visit_Sphere M s = miss s))) := by
  unfold Visit_Sphere sphereRootNear sphereRootFar sphereDiscriminant
  simp only []
  refine ⟨fun h => by rw [if_pos h], fun h => ⟨fun h1 => ?_, fun h1 => ⟨fun h2 => ?_, fun h2 => ?_⟩⟩⟩
  · rw [if_neg h, if_neg]
    simp only [not_or, not_lt]; exact ⟨h1.2, h1.1⟩
  · rw [if_neg h, if_pos, if_neg]
    · simp only [not_or, not_lt]; exact ⟨h2.2, h2.1⟩
    · by_contra hc
      simp only [not_or, not_lt] at hc
      exact h1 ⟨hc.2, hc.1⟩
  · rw [if_neg h, if_pos, if_pos]
    · by_contra hc
      simp only [not_or, not_lt] at hc
      exact h2 ⟨hc.2, hc.1⟩
    · by_contra hc
      simp only [not_or, not_lt] at hc
      exact h1 ⟨hc.2, hc.1⟩

/-- The points of the unit sphere on a ray with positive discriminant are those
at the two roots of `Visit(Ptr<Sphere>)`. -/
theorem sphere_roots (M : MathEnv K) (r : ERay K) (hd : r.d ≠ ⟨0, 0, 0⟩)
    (hD : ¬ sphereDiscriminant r < 0) (hsq : SqrtExactAt M (sphereDiscriminant r)) (t : K) :
    (r.At t).Norm2 = 1 ↔ t = sphereRootNear M r ∨ t = sphereRootFar M r := by
  rw [sphere_quadratic]
  exact quad_roots _ _ _ _ _ (dot_self_pos _ hd) (hsq (not_lt.mp hD)).2

theorem sphere_root_order (M : MathEnv K) (r : ERay K) (hd : r.d ≠ ⟨0, 0, 0⟩)
    (hD : ¬ sphereDiscriminant r < 0) (hsq : SqrtExactAt M (sphereDiscriminant r)) :
    sphereRootNear M r ≤ sphereRootFar M r :=
  root_order _ _ _ (dot_self_pos _ hd) (hsq (not_lt.mp hD)).1

/-- C2, amended: in exact arithmetic the sphere test is an exact nearest-hit
test.  Over an ordered field, for a ray with non-zero direction and a square
root that is exact at the discriminant of this ray,
`Visit(Sphere)` reports a hit iff some `t` in `[tMin, tMax]` has
`|o + t*d|^2 = 1`; on a hit the new `tMax` is the least such `t`, namely the
smaller root if it lies in range and the larger one otherwise, and the normal
is the hit point `o + t*d`, of unit length.  For origin `(0,0,-5)`, direction
`(0,0,1)` and `tMin <= 4 <= tMax` the hit is at `t = 4` with normal `(0,0,-1)`. -/
theorem sphere_exact_nearest_hit (M : MathEnv K) (s : St K) (hd : s.ray.d ≠ ⟨0, 0, 0⟩)
    (hsq : SqrtExactAt M (sphereDiscriminant s.ray)) :
    ((Visit_Sphere M s).rst.isIntersect = true ↔
      ∃ t, s.ray.tMin ≤ t ∧ t ≤ s.ray.tMax ∧ (s.ray.At t).Norm2 = 1) ∧
    ((Visit_Sphere M s).rst.isIntersect = true →
      (s.ray.tMin ≤ (Visit_Sphere M s).ray.tMax ∧ (Visit_Sphere M s).ray.tMax ≤ s.ray.tMax ∧
        (s.ray.At (Visit_Sphere M s).ray.tMax).Norm2 = 1) ∧
      (∀ t, s.ray.tMin ≤ t → t ≤ s.ray.tMax → (s.ray.At t).Norm2 = 1 →
        (Visit_Sphere M s).ray.tMax ≤ t) ∧
      (sphereRootNear M s.ray ≤ sphereRootFar M s.ray ∧
        (Visit_Sphere M s).ray.tMax =
          if s.ray.tMin ≤ sphereRootNear M s.ray ∧ sphereRootNear M s.ray ≤ s.ray.tMax
          then sphereRootNear M s.ray else sphereRootFar M s.ray) ∧
      (Visit_Sphere M s).rst.n = s.ray.At (Visit_Sphere M s).ray.tMax ∧
      (Visit_Sphere M s).rst.n.Norm2 = 1) ∧
    (s.ray.o = ⟨0, 0, -5⟩ → s.ray.d = ⟨0, 0, 1⟩ → s.ray.tMin ≤ 4 → 4 ≤ s.ray.tMax →
      (Visit_Sphere M s).rst.isIntersect = true ∧ (Visit_Sphere M s).ray.tMax = 4 ∧
      (Visit_Sphere M s).rst.n = ⟨0, 0, -1⟩) := by
  obtain ⟨hneg, hpos⟩ := Visit_Sphere_cases M s
  -- the general part, by the cases of the control flow
  have general :
      ((Visit_Sphere M s).rst.isIntersect = true ↔
        ∃ t, s.ray.tMin ≤ t ∧ t ≤ s.ray.tMax ∧ (s.ray.At t).Norm2 = 1) ∧
      ((Visit_Sphere M s).rst.isIntersect = true →
        (s.ray.tMin ≤ (Visit_Sphere M s).ray.tMax ∧ (Visit_Sphere M s).ray.tMax ≤ s.ray.tMax ∧
          (s.ray.At (Visit_Sphere M s).ray.tMax).Norm2 = 1) ∧
        (∀ t, s.ray.tMin ≤ t → t ≤ s.ray.tMax → (s.ray.At t).Norm2 = 1 →
          (Visit_Sphere M s).ray.tMax ≤ t) ∧
        (sphereRootNear M s.ray ≤ sphereRootFar M s.ray ∧
          (Visit_Sphere M s).ray.tMax =
            if s.ray.tMin ≤ sphereRootNear M s.ray ∧ sphereRootNear M s.ray ≤ s.ray.tMax
            then sphereRootNear M s.ray else sphereRootFar M s.ray) ∧
        (Visit_Sphere M s).rst.n = s.ray.At (Visit_Sphere M s).ray.tMax ∧
        (Visit_Sphere M s).rst.n.Norm2 = 1) := by
    by_cases hD : sphereDiscriminant s.ray < 0
    · -- negative discriminant: a miss, and no point of the sphere on the ray
      have hm := hneg hD
      have hno : ¬ ∃ t, s.ray.tMin ≤ t ∧ t ≤ s.ray.tMax ∧ (s.ray.At t).Norm2 = 1 := by
        rintro ⟨t, _, _, ht⟩
        exact quad_no_root _ _ _ t hD ((sphere_quadratic s.ray t).mp ht)
      have hf : (Visit_Sphere M s).rst.isIntersect = false := by rw [hm]; rfl
      refine ⟨⟨fun h => ?_, fun h => absurd h hno⟩, fun h => ?_⟩
      · rw [hf] at h; exact absurd h (by simp)
      · rw [hf] at h; exact absurd h (by simp)
    · obtain ⟨hnear, hfar⟩ := hpos hD
      have hroots := sphere_roots M s.ray hd hD hsq
      have hord := sphere_root_order M s.ray hd hD hsq
      by_cases h1 : s.ray.tMin ≤ sphereRootNear M s.ray ∧ sphereRootNear M s.ray ≤ s.ray.tMax
      · -- the smaller root is in range
        have hh := hnear h1
        have hon : (s.ray.At (sphereRootNear M s.ray)).Norm2 = 1 := (hroots _).mpr (Or.inl rfl)
        have ht : (Visit_Sphere M s).ray.tMax = sphereRootNear M s.ray := by rw [hh]; rfl
        have hn : (Visit_Sphere M s).rst.n = s.ray.At (sphereRootNear M s.ray) := by rw [hh]; rfl
        have hi : (Visit_Sphere M s).rst.isIntersect = true := by rw [hh]; rfl
        refine ⟨⟨fun _ => ⟨_, h1.1, h1.2, hon⟩, fun _ => hi⟩, fun _ => ?_⟩
        rw [ht, hn, if_pos h1]
        refine ⟨⟨h1.1, h1.2, hon⟩, ?_, ⟨hord, rfl⟩, rfl, hon⟩
        intro t _ _ ht1
        rcases (hroots t).mp ht1 with e | e
        · exact e.ge
        · rw [e]; exact hord
      · obtain ⟨hfar1, hfar2⟩ := hfar h1
        by_cases h2 : s.ray.tMin ≤ sphereRootFar M s.ray ∧ sphereRootFar M s.ray ≤ s.ray.tMax
        · -- only the larger root is in range
          have hh := hfar1 h2
          have hon : (s.ray.At (sphereRootFar M s.ray)).Norm2 = 1 := (hroots _).mpr (Or.inr rfl)
          have ht : (Visit_Sphere M s).ray.tMax = sphereRootFar M s.ray := by rw [hh]; rfl
          have hn : (Visit_Sphere M s).rst.n = s.ray.At (sphereRootFar M s.ray) := by rw [hh]; rfl
          have hi : (Visit_Sphere M s).rst.isIntersect = true := by rw [hh]; rfl
          refine ⟨⟨fun _ => ⟨_, h2.1, h2.2, hon⟩, fun _ => hi⟩, fun _ => ?_⟩
          rw [ht, hn, if_neg h1]
          refine ⟨⟨h2.1, h2.2, hon⟩, ?_, ⟨hord, rfl⟩, rfl, hon⟩
          intro t ht0 ht2 ht1
          rcases (hroots t).mp ht1 with e | e
          · exact absurd (e ▸ ⟨ht0, ht2⟩ : s.ray.tMin ≤ sphereRootNear M s.ray ∧
              sphereRootNear M s.ray ≤ s.ray.tMax) h1
          · exact e.ge
        · -- neither root is in range: a miss, and no point of the sphere in range
          have hm := hfar2 h2
          have hf : (Visit_Sphere M s).rst.isIntersect = false := by rw [hm]; rfl
          have hno : ¬ ∃ t, s.ray.tMin ≤ t ∧ t ≤ s.ray.tMax ∧ (s.ray.At t).Norm2 = 1 := by
            rintro ⟨t, ht0, ht2, ht1⟩
            rcases (hroots t).mp ht1 with e | e
            · exact h1 (e ▸ ⟨ht0, ht2⟩)
            · exact h2 (e ▸ ⟨ht0, ht2⟩)
          refine ⟨⟨fun h => ?_, fun h => absurd h hno⟩, fun h => ?_⟩
          · rw [hf] at h; exact absurd h (by simp)
          · rw [hf] at h; exact absurd h (by simp)
  refine ⟨general.1, general.2, ?_⟩
  -- the worked example: the point at t = 4 is on the sphere, the one before it at t = 6 is not first
  intro ho hdir hmin hmax
  have hon : (s.ray.At 4).Norm2 = 1 := by
    simp only [ERay.At, Vec3.Norm2, ho, hdir]; norm_num
  have hi : (Visit_Sphere M s).rst.isIntersect = true := general.1.mpr ⟨4, hmin, hmax, hon⟩
  obtain ⟨⟨h0, h2, h3⟩, hleast, _, hn, _⟩ := general.2 hi
  have hle : (Visit_Sphere M s).ray.tMax ≤ 4 := hleast 4 hmin hmax hon
  have hq := (sphere_quadratic s.ray _).mp h3
  simp only [Vec3.Dot, ho, hdir] at hq
  have ht : (Visit_Sphere M s).ray.tMax = 4 := by
    have hfac : ((Visit_Sphere M s).ray.tMax - 4) * ((Visit_Sphere M s).ray.tMax - 6) = 0 := by
      linear_combination hq
    rcases mul_eq_zero.mp hfac with e | e
    · linarith
    · linarith
  refine ⟨hi, ht, ?_⟩
  rw [hn, ht]
  simp only [ERay.At, ho, hdir]
  norm_num

/-- The example of C2 over the rationals: the ray from `(0,0,-5)` along
`(0,0,1)` hits the unit sphere at `t = 4` with normal `(0,0,-1)`. -/
theorem sphere_exact_nearest_hit_witness :
    sphereExample.ray.d ≠ ⟨0, 0, 0⟩ ∧
    SqrtExactAt ratEnv (sphereDiscriminant sphereExample.ray) ∧
    (Visit_Sphere ratEnv sphereExample).rst.isIntersect = true ∧
    (Visit_Sphere ratEnv sphereExample).ray.tMax = 4 ∧
    (Visit_Sphere ratEnv sphereExample).rst.n = ⟨0, 0, -1⟩ :=
  have hd : sphereExample.ray.d ≠ ⟨0, 0, 0⟩ := by
    simp [sphereExample]
  have hsq : SqrtExactAt ratEnv (sphereDiscriminant sphereExample.ray) := by
    intro _
    norm_num [sphereDiscriminant, sphereExample, Vec3.Dot, ratEnv, ratSqrt]
  ⟨hd, hsq, (sphere_exact_nearest_hit ratEnv sphereExample hd hsq).2.2 rfl rfl
    (by norm_num [sphereExample]) (by norm_num [sphereExample])⟩

/-! ### Exact arithmetic: the plane -/

/-- What `Visit(Ptr<Plane>)` returns, by the cases of its control flow. -/
theorem Visit_Plane_cases (s : St K) :
    (s.ray.tMin ≤ -s.ray.o.y / s.ray.d.y ∧ -s.ray.o.y / s.ray.d.y ≤ s.ray.tMax ∧
      -0.5 ≤ (s.ray.At (-s.ray.o.y / s.ray.d.y)).x ∧ (s.ray.At (-s.ray.o.y / s.ray.d.y)).x ≤ 0.5 ∧
      -0.5 ≤ (s.ray.At (-s.ray.o.y / s.ray.d.y)).z ∧ (s.ray.At (-s.ray.o.y / s.ray.d.y)).z ≤ 0.5 →
      Visit_Plane s = hit s (-s.ray.o.y / s.ray.d.y) ⟨0, 1, 0⟩
        ⟨(s.ray.At (-s.ray.o.y / s.ray.d.y)).x + 0.5, (s.ray.At (-s.ray.o.y / s.ray.d.y)).z + 0.5⟩
        ⟨1, 0, 0⟩) ∧
    (¬ (s.ray.tMin ≤ -s.ray.o.y / s.ray.d.y ∧ -s.ray.o.y / s.ray.d.y ≤ s.ray.tMax ∧
      -0.5 ≤ (s.ray.At (-s.ray.o.y / s.ray.d.y)).x ∧ (s.ray.At (-s.ray.o.y / s.ray.d.y)).x ≤ 0.5 ∧
      -0.5 ≤ (s.ray.At (-s.ray.o.y / s.ray.d.y)).z ∧ (s.ray.At (-s.ray.o.y / s.ray.d.y)).z ≤ 0.5) →
      Visit_Plane s = miss s) := by
  unfold Visit_Plane
  simp only []
  constructor
  · rintro ⟨h1, h2, h3, h4, h5, h6⟩
    rw [if_neg, if_neg]
    · simp only [not_or, not_lt]; exact ⟨h3, h4, h5, h6⟩
    · simp only [not_or, not_lt]; exact ⟨h1, h2⟩
  · intro h
    split_ifs with h1 h2
    · rfl
    · rfl
    · exfalso
      simp only [not_or, not_lt] at h1 h2
      exact h ⟨h1.1, h1.2, h2⟩

/-- C9. The plane test: for a ray with `d.y != 0`, with `t = -o.y/d.y` and
`(x,_,z) = o + t*d` (a point of the plane `y = 0`), `Visit(Plane)` reports a hit
iff `tMin <= t <= tMax`, `-0.5 <= x <= 0.5` and `-0.5 <= z <= 0.5`; on a hit the
new `tMax` is `t`, the normal `(0,1,0)`, the tangent `(1,0,0)` and the texcoord
`(x+0.5, z+0.5)`, both components in `[0,1]`.  For origin `(0,5,0)`, direction
`(0,-1,0)` and `tMin <= 5 <= tMax` the hit is at `t = 5`, texcoord `(0.5,0.5)`. -/
theorem plane_test (s : St K) (hdy : s.ray.d.y ≠ 0) :
    (s.ray.At (-s.ray.o.y / s.ray.d.y)).y = 0 ∧
    ((Visit_Plane s).rst.isIntersect = true ↔
      s.ray.tMin ≤ -s.ray.o.y / s.ray.d.y ∧ -s.ray.o.y / s.ray.d.y ≤ s.ray.tMax ∧
      -0.5 ≤ (s.ray.At (-s.ray.o.y / s.ray.d.y)).x ∧ (s.ray.At (-s.ray.o.y / s.ray.d.y)).x ≤ 0.5 ∧
      -0.5 ≤ (s.ray.At (-s.ray.o.y / s.ray.d.y)).z ∧ (s.ray.At (-s.ray.o.y / s.ray.d.y)).z ≤ 0.5) ∧
    ((Visit_Plane s).rst.isIntersect = true →
      (Visit_Plane s).ray.tMax = -s.ray.o.y / s.ray.d.y ∧
      (Visit_Plane s).rst.n = ⟨0, 1, 0⟩ ∧ (Visit_Plane s).rst.tangent = ⟨1, 0, 0⟩ ∧
      (Visit_Plane s).rst.texcoord =
        ⟨(s.ray.At (-s.ray.o.y / s.ray.d.y)).x + 0.5, (s.ray.At (-s.ray.o.y / s.ray.d.y)).z + 0.5⟩ ∧
      0 ≤ (Visit_Plane s).rst.texcoord.x ∧ (Visit_Plane s).rst.texcoord.x ≤ 1 ∧
      0 ≤ (Visit_Plane s).rst.texcoord.y ∧ (Visit_Plane s).rst.texcoord.y ≤ 1) ∧
    (s.ray.o = ⟨0, 5, 0⟩ → s.ray.d = ⟨0, -1, 0⟩ → s.ray.tMin ≤ 5 → 5 ≤ s.ray.tMax →
      (Visit_Plane s).rst.isIntersect = true ∧ (Visit_Plane s).ray.tMax = 5 ∧
      (Visit_Plane s).rst.texcoord = ⟨0.5, 0.5⟩) := by
  obtain ⟨hhit, hmiss⟩ := Visit_Plane_cases s
  have hy : (s.ray.At (-s.ray.o.y / s.ray.d.y)).y = 0 := by
    simp only [ERay.At]; field_simp
  have hiff : (Visit_Plane s).rst.isIntersect = true ↔
      s.ray.tMin ≤ -s.ray.o.y / s.ray.d.y ∧ -s.ray.o.y / s.ray.d.y ≤ s.ray.tMax ∧
      -0.5 ≤ (s.ray.At (-s.ray.o.y / s.ray.d.y)).x ∧ (s.ray.At (-s.ray.o.y / s.ray.d.y)).x ≤ 0.5 ∧
      -0.5 ≤ (s.ray.At (-s.ray.o.y / s.ray.d.y)).z ∧
      (s.ray.At (-s.ray.o.y / s.ray.d.y)).z ≤ 0.5 := by
    constructor
    · intro h
      by_contra hc
      rw [hmiss hc] at h
      exact absurd h (by simp [miss])
    · intro h
      rw [hhit h]; rfl
  have hdata : (Visit_Plane s).rst.isIntersect = true →
      (Visit_Plane s).ray.tMax = -s.ray.o.y / s.ray.d.y ∧
      (Visit_Plane s).rst.n = ⟨0, 1, 0⟩ ∧ (Visit_Plane s).rst.tangent = ⟨1, 0, 0⟩ ∧
      (Visit_Plane s).rst.texcoord =
        ⟨(s.ray.At (-s.ray.o.y / s.ray.d.y)).x + 0.5, (s.ray.At (-s.ray.o.y / s.ray.d.y)).z + 0.5⟩ ∧
      0 ≤ (Visit_Plane s).rst.texcoord.x ∧ (Visit_Plane s).rst.texcoord.x ≤ 1 ∧
      0 ≤ (Visit_Plane s).rst.texcoord.y ∧ (Visit_Plane s).rst.texcoord.y ≤ 1 := by
    intro h
    obtain ⟨h1, h2, h3, h4, h5, h6⟩ := hiff.mp h
    rw [hhit ⟨h1, h2, h3, h4, h5, h6⟩]
    refine ⟨rfl, rfl, rfl, rfl, ?_, ?_, ?_, ?_⟩ <;> simp only [hit]
    · norm_num at h3 ⊢; linarith
    · norm_num at h4 ⊢; linarith
    · norm_num at h5 ⊢; linarith
    · norm_num at h6 ⊢; linarith
  refine ⟨hy, hiff, hdata, ?_⟩
  intro ho hd hmin hmax
  have ht : -s.ray.o.y / s.ray.d.y = 5 := by rw [ho, hd]; norm_num
  have hpos : s.ray.At (-s.ray.o.y / s.ray.d.y) = ⟨0, 0, 0⟩ := by
    rw [ht]; simp only [ERay.At, ho, hd]; norm_num
  have hi : (Visit_Plane s).rst.isIntersect = true := by
    rw [hiff, hpos, ht]
    refine ⟨hmin, hmax, ?_, ?_, ?_, ?_⟩ <;> norm_num
  obtain ⟨h1, _, _, h4, _⟩ := hdata hi
  refine ⟨hi, h1.trans ht, ?_⟩
  rw [h4, hpos]
  norm_num

/-- The example of C9 over the rationals: the ray from `(0,5,0)` along
`(0,-1,0)` hits the unit plane at `t = 5` with texcoord `(0.5,0.5)`. -/
theorem plane_test_witness :
    planeExample.ray.d.y ≠ 0 ∧
    (Visit_Plane planeExample).rst.isIntersect = true ∧
    (Visit_Plane planeExample).ray.tMax = 5 ∧
    (Visit_Plane planeExample).rst.texcoord = ⟨0.5, 0.5⟩ :=
  have hdy : planeExample.ray.d.y ≠ 0 := by norm_num [planeExample]
  ⟨hdy, (plane_test planeExample hdy).2.2.2 rfl rfl
    (by norm_num [planeExample]) (by norm_num [planeExample])⟩

/-! ### Exact arithmetic: the triangle -/

/-- What `Visit(Ptr<Triangle>)` returns, by the cases of its control flow. -/
theorem Visit_Triangle_cases (M : MathEnv K) (tr : Triangle K) (s : St K) :
    (tr.denominator s.ray ≠ 0 ∧ 0 ≤ tr.u s.ray ∧ tr.u s.ray ≤ 1 ∧ 0 ≤ tr.v s.ray ∧
      tr.v s.ray ≤ 1 ∧ tr.u s.ray + tr.v s.ray ≤ 1 ∧ s.ray.tMin ≤ tr.t s.ray ∧
      tr.t s.ray ≤ s.ray.tMax →
      Visit_Triangle M tr s = hit s (tr.t s.ray)
        (Vec3.Normalize M (bary3 (1 - (tr.u s.ray + tr.v s.ray)) (tr.u s.ray) (tr.v s.ray)
          (vertexAt tr.mesh.normals tr.idx0) (vertexAt tr.mesh.normals tr.idx1)
          (vertexAt tr.mesh.normals tr.idx2)))
        (bary2 (1 - (tr.u s.ray + tr.v s.ray)) (tr.u s.ray) (tr.v s.ray)
          (texcoordAt tr.mesh.texcoords tr.idx0) (texcoordAt tr.mesh.texcoords tr.idx1)
          (texcoordAt tr.mesh.texcoords tr.idx2))
        (Vec3.Normalize M (bary3 (1 - (tr.u s.ray + tr.v s.ray)) (tr.u s.ray) (tr.v s.ray)
          (vertexAt tr.mesh.tangents tr.idx0) (vertexAt tr.mesh.tangents tr.idx1)
          (vertexAt tr.mesh.tangents tr.idx2)))) ∧
    (¬ (tr.denominator s.ray ≠ 0 ∧ 0 ≤ tr.u s.ray ∧ tr.u s.ray ≤ 1 ∧ 0 ≤ tr.v s.ray ∧
      tr.v s.ray ≤ 1 ∧ tr.u s.ray + tr.v s.ray ≤ 1 ∧ s.ray.tMin ≤ tr.t s.ray ∧
      tr.t s.ray ≤ s.ray.tMax) →
      Visit_Triangle M tr s = miss s) := by
  unfold Visit_Triangle Triangle.u Triangle.v Triangle.t Triangle.denominator
    Triangle.p1 Triangle.p2 Triangle.p3 bary3 bary2
  simp only [beq_iff_eq]
  constructor
  · rintro ⟨h0, h1, h2, h3, h4, h5, h6, h7⟩
    rw [if_neg h0, if_neg, if_neg, if_neg, if_neg]
    · simp only [not_or, not_lt]; exact ⟨h6, h7⟩
    · simp only [not_lt]; exact h5
    · simp only [not_or, not_lt]; exact ⟨h3, h4⟩
    · simp only [not_or, not_lt]; exact ⟨h1, h2⟩
  · intro h
    split_ifs with h0 h1 h2 h3 h4
    · rfl
    · rfl
    · rfl
    · rfl
    · rfl
    · exfalso
      simp only [not_or, not_lt] at h1 h2 h3 h4
      exact h ⟨h0, h1.1, h1.2, h2.1, h2.2, h3, h4.1, h4.2⟩

theorem stdMax_eq (a b : K) : stdMax a b = max a b := by
  unfold stdMax
  split_ifs with h
  · exact (max_eq_right h.le).symm
  · exact (max_eq_left (not_lt.mp h)).symm

theorem stdMin_eq (a b : K) : stdMin a b = min a b := by
  unfold stdMin
  split_ifs with h
  · exact (min_eq_right h.le).symm
  · exact (min_eq_left (not_lt.mp h)).symm

/-- One iteration of the loop of `Intersect`, in terms of the entry and exit
distances of the axis. -/
theorem Intersect_loop_cons (bbox : BBox K) (o invDir : Vec3 K) (i : Fin 3)
    (rest : List (Fin 3)) (lo hi : K) :
    Intersect.loop bbox o invDir (i :: rest) lo hi =
      if min (slabExit bbox o invDir i) hi < max (slabEntry bbox o invDir i) lo then false
      else Intersect.loop bbox o invDir rest (max (slabEntry bbox o invDir i) lo)
        (min (slabExit bbox o invDir i) hi) := by
  simp only [Intersect.loop, slabEntry, slabExit, stdMax_eq, stdMin_eq]

/-- The loop of `Intersect`, started on a non-empty interval, accepts exactly
when some `t` of the interval lies between entry and exit on every axis. -/
theorem Intersect_loop_iff (bbox : BBox K) (o invDir : Vec3 K) (axes : List (Fin 3)) :
    ∀ lo hi : K, lo ≤ hi →
      (Intersect.loop bbox o invDir axes lo hi = true ↔
        ∃ t, lo ≤ t ∧ t ≤ hi ∧
          ∀ i ∈ axes, slabEntry bbox o invDir i ≤ t ∧ t ≤ slabExit bbox o invDir i) := by
  induction axes with
  | nil =>
    intro lo hi h
    simp only [Intersect.loop, List.not_mem_nil, false_implies, implies_true, and_true, true_iff]
    exact ⟨lo, le_refl _, h⟩
  | cons i rest ih =>
    intro lo hi _
    rw [Intersect_loop_cons]
    split_ifs with hrej
    · simp only [Bool.false_eq_true, false_iff, not_exists, not_and]
      intro t h1 h2 h3
      have := h3 i (List.mem_cons_self _ _)
      have h4 : max (slabEntry bbox o invDir i) lo ≤ t := max_le this.1 h1
      have h5 : t ≤ min (slabExit bbox o invDir i) hi := le_min this.2 h2
      exact absurd (h4.trans h5) (not_le.mpr hrej)
    · rw [ih _ _ (not_lt.mp hrej)]
      constructor
      · rintro ⟨t, h1, h2, h3⟩
        refine ⟨t, (le_max_right _ _).trans h1, h2.trans (min_le_right _ _), ?_⟩
        intro k hk
        rcases List.mem_cons.mp hk with e | e
        · rw [e]; exact ⟨(le_max_left _ _).trans h1, h2.trans (min_le_left _ _)⟩
        · exact h3 k e
      · rintro ⟨t, h1, h2, h3⟩
        have := h3 i (List.mem_cons_self _ _)
        exact ⟨t, max_le this.1 h1, le_min this.2 h2,
          fun k hk => h3 k (List.mem_cons_of_mem _ hk)⟩

/-- The loop of `Intersect` agrees with the interval computed without the early
reject, when started on a non-empty interval. -/
theorem Intersect_loop_interval (bbox : BBox K) (o invDir : Vec3 K) (axes : List (Fin 3)) :
    ∀ lo hi : K, lo ≤ hi →
      (Intersect.loop bbox o invDir axes lo hi = true ↔
        (slabInterval bbox o invDir axes (lo, hi)).1 ≤
          (slabInterval bbox o invDir axes (lo, hi)).2) := by
  have mono : ∀ (axes : List (Fin 3)) (lo hi : K), hi < lo →
      (slabInterval bbox o invDir axes (lo, hi)).2 < (slabInterval bbox o invDir axes (lo, hi)).1 := by
    intro axes
    induction axes with
    | nil => intro lo hi h; exact h
    | cons i rest ih =>
      intro lo hi h
      simp only [slabInterval, stdMax_eq, stdMin_eq]
      exact ih _ _ (lt_of_le_of_lt (min_le_right _ _) (lt_of_lt_of_le h (le_max_right _ _)))
  induction axes with
  | nil => intro lo hi h; simpa [Intersect.loop, slabInterval] using h
  | cons i rest ih =>
    intro lo hi _
    rw [Intersect_loop_cons]
    simp only [slabInterval, stdMax_eq, stdMin_eq]
    split_ifs with hrej
    · simp only [Bool.false_eq_true, false_iff, not_le]
      exact mono rest _ _ hrej
    · exact ih _ _ (not_lt.mp hrej)

/-- On an axis with non-zero direction the point of the ray at `t` is inside the
slab exactly when `t` lies between the entry and the exit distance. -/
theorem slab_axis (mn mx o d t : K) (hd : d ≠ 0) :
    ((if 1 / d < 0 then (mx - o) * (1 / d) else (mn - o) * (1 / d)) ≤ t ∧
      t ≤ (if 1 / d < 0 then (mn - o) * (1 / d) else (mx - o) * (1 / d))) ↔
    (mn ≤ o + t * d ∧ o + t * d ≤ mx) := by
  rcases lt_or_gt_of_ne hd with h | h
  · have hi : 1 / d < 0 := one_div_neg.mpr h
    rw [if_pos hi, if_pos hi, mul_one_div, mul_one_div, div_le_iff_of_neg h, le_div_iff_of_neg h]
    constructor <;> rintro ⟨h1, h2⟩ <;> constructor <;> linarith
  · have hi : ¬ 1 / d < 0 := not_lt.mpr (one_div_pos.mpr h).le
    rw [if_neg hi, if_neg hi, mul_one_div, mul_one_div, div_le_iff₀ h, le_div_iff₀ h]
    constructor <;> rintro ⟨h1, h2⟩ <;> constructor <;> linarith

theorem At_get (r : ERay K) (t : K) (i : Fin 3) :
    (r.At t).get i = r.o.get i + t * r.d.get i := by
  fin_cases i <;> rfl

theorem InvDir_get (r : ERay K) (i : Fin 3) : r.InvDir.get i = 1 / r.d.get i := by
  fin_cases i <;> rfl

theorem slab_axis_ray (r : ERay K) (bbox : BBox K) (t : K) (i : Fin 3) (hd : r.d.get i ≠ 0) :
    (slabEntry bbox r.o r.InvDir i ≤ t ∧ t ≤ slabExit bbox r.o r.InvDir i) ↔
    (bbox.minP.get i ≤ (r.At t).get i ∧ (r.At t).get i ≤ bbox.maxP.get i) := by
  rw [At_get]
  unfold slabEntry slabExit
  rw [InvDir_get]
  exact slab_axis _ _ _ _ _ hd

/-- C4, amended: in exact arithmetic the slab test equals geometric overlap.
Over an ordered field, for a ray whose direction
components are all non-zero, with `invDir` the componentwise reciprocal of the
direction, `Intersect(bbox, invDir)` is true iff some `t` with
`tMin <= t <= tMax` has `bbox.minP[i] <= o[i] + t*d[i] <= bbox.maxP[i]` on every
axis `i`; the early reject never changes the answer, which is that of the final
interval computed without it.  (`Intersect` only reads the ray.) -/
theorem slab_test_iff_overlap (r : ERay K) (bbox : BBox K)
    (hx : r.d.x ≠ 0) (hy : r.d.y ≠ 0) (hz : r.d.z ≠ 0) :
    (Intersect r bbox r.InvDir = true ↔
      ∃ t, r.tMin ≤ t ∧ t ≤ r.tMax ∧
        ∀ i : Fin 3, bbox.minP.get i ≤ (r.At t).get i ∧ (r.At t).get i ≤ bbox.maxP.get i) ∧
    (Intersect r bbox r.InvDir = true ↔
      (slabInterval bbox r.o r.InvDir [0, 1, 2] (r.tMin, r.tMax)).1 ≤
        (slabInterval bbox r.o r.InvDir [0, 1, 2] (r.tMin, r.tMax)).2) := by
  have hd : ∀ i : Fin 3, r.d.get i ≠ 0 := by
    intro i; fin_cases i
    · exact hx
    · exact hy
    · exact hz
  by_cases hlh : r.tMin ≤ r.tMax
  · constructor
    · unfold Intersect
      rw [Intersect_loop_iff _ _ _ _ _ _ hlh]
      constructor
      · rintro ⟨t, h1, h2, h3⟩
        refine ⟨t, h1, h2, fun i => (slab_axis_ray r bbox t i (hd i)).mp (h3 i ?_)⟩
        fin_cases i <;> simp
      · rintro ⟨t, h1, h2, h3⟩
        exact ⟨t, h1, h2, fun i _ => (slab_axis_ray r bbox t i (hd i)).mpr (h3 i)⟩
    · exact Intersect_loop_interval _ _ _ _ _ _ hlh
  · -- an empty interval at entry is rejected on the first axis
    have hlt : r.tMax < r.tMin := not_le.mp hlh
    have hrej : Intersect r bbox r.InvDir = false := by
      unfold Intersect
      rw [Intersect_loop_cons, if_pos]
      exact lt_of_le_of_lt (min_le_right _ _) (lt_of_lt_of_le hlt (le_max_right _ _))
    rw [hrej]
    constructor
    · simp only [Bool.false_eq_true, false_iff, not_exists, not_and]
      intro t h1 h2
      exact absurd (h1.trans h2) hlh
    · simp only [Bool.false_eq_true, false_iff, not_le, slabInterval, stdMax_eq, stdMin_eq]
      refine lt_of_le_of_lt (min_le_right _ _) (lt_of_le_of_lt (min_le_right _ _)
        (lt_of_le_of_lt (min_le_right _ _) (lt_of_lt_of_le hlt ?_)))
      exact (le_max_right _ _).trans ((le_max_right _ _).trans (le_max_right _ _))

/-- An instance of C4 over the rationals: the ray from `(-5,-4,-3)` along
`(1,1,1)` passes the box `[-1,1]^3` (at `t = 4`), and `Intersect` accepts. -/
theorem slab_test_iff_overlap_witness :
    (slabExampleRay.d.x ≠ 0 ∧ slabExampleRay.d.y ≠ 0 ∧ slabExampleRay.d.z ≠ 0) ∧
    Intersect slabExampleRay unitBox slabExampleRay.InvDir = true :=
  have hx : slabExampleRay.d.x ≠ 0 := by norm_num [slabExampleRay]
  have hy : slabExampleRay.d.y ≠ 0 := by norm_num [slabExampleRay]
  have hz : slabExampleRay.d.z ≠ 0 := by norm_num [slabExampleRay]
  ⟨⟨hx, hy, hz⟩, (slab_test_iff_overlap slabExampleRay unitBox hx hy hz).1.mpr
    ⟨4, by norm_num [slabExampleRay], by norm_num [slabExampleRay], by
      intro i
      fin_cases i <;> norm_num [slabExampleRay, unitBox, ERay.At, Vec3.get]⟩⟩

/-! ### The mesh scan -/

/-- A triangle test reads only the ray: it gives the same result after a
failed test as before it. -/
theorem Visit_Triangle_miss (M : MathEnv K) (tr : Triangle K) (s : St K) :
    Visit_Triangle M tr (miss s) = Visit_Triangle M tr s := by
  obtain ⟨hh, hm⟩ := Visit_Triangle_cases M tr s
  obtain ⟨hh1, hm1⟩ := Visit_Triangle_cases M tr (miss s)
  by_cases hc : tr.denominator s.ray ≠ 0 ∧ 0 ≤ tr.u s.ray ∧ tr.u s.ray ≤ 1 ∧ 0 ≤ tr.v s.ray ∧
      tr.v s.ray ≤ 1 ∧ tr.u s.ray + tr.v s.ray ≤ 1 ∧ s.ray.tMin ≤ tr.t s.ray ∧
      tr.t s.ray ≤ s.ray.tMax
  · rw [hh hc, hh1 hc]; rfl
  · rw [hm hc, hm1 hc]; rfl

/-- A triangle test that does not set the hit flag ends by the exit `miss`. -/
theorem Visit_Triangle_false (M : MathEnv K) (tr : Triangle K) (s : St K)
    (h : (Visit_Triangle M tr s).rst.isIntersect = false) : Visit_Triangle M tr s = miss s := by
  obtain ⟨hh, hm⟩ := Visit_Triangle_cases M tr s
  by_cases hc : tr.denominator s.ray ≠ 0 ∧ 0 ≤ tr.u s.ray ∧ tr.u s.ray ≤ 1 ∧ 0 ≤ tr.v s.ray ∧
      tr.v s.ray ≤ 1 ∧ tr.u s.ray + tr.v s.ray ≤ 1 ∧ s.ray.tMin ≤ tr.t s.ray ∧
      tr.t s.ray ≤ s.ray.tMax
  · rw [hh hc] at h; exact absurd h (by simp [hit])
  · exact hm hc

/-- The scan over a list of triangles that all miss, followed by more triangles,
continues on the rest from the state of a failed test. -/
theorem Visit_TriMesh_loop_skip (M : MathEnv K) (pre rest : List (Triangle K)) :
    ∀ s : St K, pre ≠ [] →
      (∀ tr ∈ pre, (Visit_Triangle M tr s).rst.isIntersect = false) →
      Visit_TriMesh.loop M (pre ++ rest) s = Visit_TriMesh.loop M rest (miss s) := by
  induction pre with
  | nil => intro s h; exact absurd rfl h
  | cons tr pre ih =>
    intro s _ hall
    have h1 := hall tr (List.mem_cons_self _ _)
    have hm := Visit_Triangle_false M tr s h1
    simp only [List.cons_append, Visit_TriMesh.loop]
    rw [if_neg (by rw [h1]; simp), hm]
    by_cases hp : pre = []
    · rw [hp]; rfl
    · have := ih (miss s) hp (fun t ht => by
        rw [Visit_Triangle_miss]; exact hall t (List.mem_cons_of_mem _ ht))
      exact this.trans rfl

theorem Visit_Triangle_triFar :
    Visit_Triangle ratEnv triFar triangleExample =
      hit triangleExample 2 (Vec3.Normalize ratEnv ⟨0, 0, 1⟩) ⟨1/4, 1/4⟩
        (Vec3.Normalize ratEnv ⟨1, 0, 0⟩) := by
  norm_num [Visit_Triangle, triFar, triangleExample, meshExample, vertexAt, texcoordAt,
    Vec3.sub, Vec3.Cross, Vec3.Dot, Vec3.add, Vec3.smul, hit, miss]

theorem Visit_Triangle_triNear :
    Visit_Triangle ratEnv triNear triangleExample =
      hit triangleExample 1 (Vec3.Normalize ratEnv ⟨0, 0, 1⟩) ⟨1/4, 1/4⟩
        (Vec3.Normalize ratEnv ⟨1, 0, 0⟩) := by
  norm_num [Visit_Triangle, triNear, triangleExample, meshExample, vertexAt, texcoordAt,
    Vec3.sub, Vec3.Cross, Vec3.Dot, Vec3.add, Vec3.smul, hit, miss]

/-- C10. The mesh scan returns the first hit in storage order: when the
triangles stored before `T` all miss the entry ray and `T` hits it,
`Visit(TriMesh)` ends in exactly the state of testing `T` alone (same `tMax`,
normal, texcoord, tangent), whatever triangles are stored after `T`; and there
is a mesh and a ray (a farther triangle stored before a nearer one) for which
the reported distance is strictly greater than that of the nearest triangle. -/
theorem trimesh_first_hit (M : MathEnv K) (pre post : List (Triangle K)) (T : Triangle K)
    (s : St K)
    (hpre : ∀ tr ∈ pre, (Visit_Triangle M tr s).rst.isIntersect = false)
    (hT : (Visit_Triangle M T s).rst.isIntersect = true) :
    Visit_TriMesh M { triangles := pre ++ T :: post } s = Visit_Triangle M T s ∧
    (Visit_TriMesh M { triangles := pre ++ T :: post } s).rst.isIntersect = true ∧
    (∃ (mesh : TriMesh ℚ) (near : Triangle ℚ) (s0 : St ℚ),
      near ∈ mesh.triangles ∧
      (Visit_Triangle ratEnv near s0).rst.isIntersect = true ∧
      (Visit_TriMesh ratEnv mesh s0).rst.isIntersect = true ∧
      (Visit_Triangle ratEnv near s0).ray.tMax < (Visit_TriMesh ratEnv mesh s0).ray.tMax) := by
  have hfirst : ∀ (s1 : St K), (Visit_Triangle M T s1).rst.isIntersect = true →
      Visit_TriMesh.loop M (T :: post) s1 = Visit_Triangle M T s1 := by
    intro s1 h
    simp only [Visit_TriMesh.loop]
    rw [if_pos h]
  have heq : Visit_TriMesh M { triangles := pre ++ T :: post } s = Visit_Triangle M T s := by
    unfold Visit_TriMesh
    by_cases hp : pre = []
    · rw [hp]; exact hfirst s hT
    · rw [Visit_TriMesh_loop_skip M pre (T :: post) s hp hpre,
        hfirst _ (by rw [Visit_Triangle_miss]; exact hT), Visit_Triangle_miss]
  refine ⟨heq, by rw [heq]; exact hT, meshFarFirst, triNear, triangleExample, ?_, ?_, ?_, ?_⟩
  · simp [meshFarFirst]
  · rw [Visit_Triangle_triNear]; rfl
  · simp only [Visit_TriMesh, meshFarFirst, Visit_TriMesh.loop]
    rw [Visit_Triangle_triFar]; rfl
  · have hm : Visit_TriMesh ratEnv meshFarFirst triangleExample =
        Visit_Triangle ratEnv triFar triangleExample := by
      simp only [Visit_TriMesh, meshFarFirst, Visit_TriMesh.loop]
      rw [Visit_Triangle_triFar]; rfl
    rw [hm, Visit_Triangle_triFar, Visit_Triangle_triNear]
    norm_num [hit]

/-- An instance of C10 over the rationals: in the mesh `triFlat, triFar, triNear`
the scan passes the degenerate triangle and stops at the farther triangle, at
distance 2, although the nearer one is at distance 1. -/
theorem trimesh_first_hit_witness :
    (∀ tr ∈ [triFlat], (Visit_Triangle ratEnv tr triangleExample).rst.isIntersect = false) ∧
    (Visit_Triangle ratEnv triFar triangleExample).rst.isIntersect = true ∧
    Visit_TriMesh ratEnv { triangles := [triFlat] ++ triFar :: [triNear] } triangleExample =
      Visit_Triangle ratEnv triFar triangleExample ∧
    (Visit_TriMesh ratEnv { triangles := [triFlat] ++ triFar :: [triNear] }
      triangleExample).ray.tMax = 2 :=
  have hpre : ∀ tr ∈ [triFlat],
      (Visit_Triangle ratEnv tr triangleExample).rst.isIntersect = false := by
    intro tr htr
    rw [List.mem_singleton.mp htr]
    norm_num [Visit_Triangle, triFlat, triangleExample, meshExample, vertexAt, texcoordAt,
      Vec3.sub, Vec3.Cross, Vec3.Dot, hit, miss]
  have hT : (Visit_Triangle ratEnv triFar triangleExample).rst.isIntersect = true := by
    rw [Visit_Triangle_triFar]; rfl
  have h := trimesh_first_hit ratEnv [triFlat] [triNear] triFar triangleExample hpre hT
  ⟨hpre, hT, h.1, by rw [h.1, Visit_Triangle_triFar]; rfl⟩

/-! ### The BVH traversal on an example -/

theorem bvhExample_run :
    Visit_BVHAccel ratEnv bvhExample 5 bvhExampleStart =
      some (bvhExampleEnd, [(0, 2), (1, 1)]) := by
  norm_num [Visit_BVHAccel, Visit_BVHAccel.loop, Visit_BVHAccel.leaf, Visit_BVHAccel.finish,
    bvhExample, bvhExampleStart, bvhExampleEnd, rst0, Intersect, Intersect.loop, stdMax, stdMin,
    Vec3.get, ERay.InvDir, Shape.Accept, Visit_Plane, Visit_Disk, hit, miss, ERay.At,
    Vec3.Norm2, Transform.ApplyTo, Transform.Inverse, idTransform, downTransform,
    Vec3.Normalize, ratEnv, ratSqrt, LinearBVHNode.FirstChildIdx]

/-- An instance of C5 over the rationals: the traversal of `bvhExample` tests the
plane (hit at distance 2), then the lifted disk (hit at distance 1), and ends
with `tMax = 1` and the disk's scene node as the closest owner. -/
theorem bvh_closest_hit_witness :
    Visit_BVHAccel ratEnv bvhExample 5 bvhExampleStart =
      some (bvhExampleEnd, [(0, 2), (1, 1)]) ∧
    (List.Pairwise (fun a b => b ≤ a)
        (bvhExampleStart.ray.tMax :: ([(0, 2), (1, 1)] : HitLog ℚ).map Prod.snd) ∧
      bvhExampleEnd.ray.tMax ≤ bvhExampleStart.ray.tMax ∧
      (∀ init e, ([(0, 2), (1, 1)] : HitLog ℚ) = init ++ [e] →
        bvhExampleEnd.rst.closestSObj = bvhExample.shapeSObj e.1 ∧
        e.2 = bvhExampleEnd.ray.tMax ∧
        ∀ e1 ∈ ([(0, 2), (1, 1)] : HitLog ℚ), bvhExampleEnd.ray.tMax ≤ e1.2) ∧
      (([(0, 2), (1, 1)] : HitLog ℚ) = [] →
        bvhExampleEnd.ray.tMax = bvhExampleStart.ray.tMax ∧
        bvhExampleEnd.rst.closestSObj = bvhExampleStart.rst.closestSObj)) :=
  ⟨bvhExample_run,
    bvh_closest_hit ratEnv bvhExample 5 bvhExampleStart bvhExampleEnd [(0, 2), (1, 1)]
      bvhExample_run⟩

/-! ### Special values: rays parallel to the plane `y = 0` -/

theorem Flt.zero_def : (0 : Flt K) = Flt.fin 0 := rfl

theorem Flt.one_def : (1 : Flt K) = Flt.fin 1 := rfl

theorem Flt.two_def : (2 : Flt K) = Flt.fin 2 := rfl

theorem Flt.fin_add (a b : K) : Flt.fin a + Flt.fin b = Flt.fin (a + b) := rfl

theorem Flt.fin_mul (a b : K) : Flt.fin a * Flt.fin b = Flt.fin (a * b) := rfl

theorem Flt.fin_neg (a : K) : -Flt.fin a = Flt.fin (-a) := rfl

theorem Flt.fin_sub (a b : K) : Flt.fin a - Flt.fin b = Flt.fin (a - b) := by
  show Flt.add (Flt.fin a) (Flt.neg (Flt.fin b)) = Flt.fin (a - b)
  simp only [Flt.neg, Flt.add, sub_eq_add_neg]

theorem Flt.fin_div (a b : K) (hb : b ≠ 0) : Flt.fin a / Flt.fin b = Flt.fin (a / b) := by
  show Flt.div (Flt.fin a) (Flt.fin b) = Flt.fin (a / b)
  simp only [Flt.div, if_neg hb]

theorem Flt.fin_lt (a b : K) : Flt.fin a < Flt.fin b ↔ a < b := by
  show Flt.blt (Flt.fin a) (Flt.fin b) = true ↔ a < b
  simp [Flt.blt]

theorem Flt.fin_le (a b : K) : Flt.fin a ≤ Flt.fin b ↔ a ≤ b := by
  show Flt.ble (Flt.fin a) (Flt.fin b) = true ↔ a ≤ b
  simp [Flt.ble]

theorem Flt.nan_lt (a : Flt K) : ¬ (Flt.nan < a) := by
  show ¬ (Flt.blt Flt.nan a = true)
  cases a <;> simp [Flt.blt]

theorem Flt.lt_nan (a : Flt K) : ¬ (a < Flt.nan) := by
  show ¬ (Flt.blt a Flt.nan = true)
  cases a <;> simp [Flt.blt]

theorem Flt.nan_le (a : Flt K) : ¬ (Flt.nan ≤ a) := by
  show ¬ (Flt.ble Flt.nan a = true)
  cases a <;> simp [Flt.ble]

theorem Flt.le_nan (a : Flt K) : ¬ (a ≤ Flt.nan) := by
  show ¬ (Flt.ble a Flt.nan = true)
  cases a <;> simp [Flt.ble]

theorem Flt.nan_mul (a : Flt K) : Flt.nan * a = Flt.nan := by
  show Flt.mul Flt.nan a = Flt.nan
  cases a <;> rfl

theorem Flt.add_nan (a : Flt K) : a + Flt.nan = Flt.nan := by
  show Flt.add a Flt.nan = Flt.nan
  cases a <;> rfl

theorem Flt.nan_add (a : Flt K) : Flt.nan + a = Flt.nan := by
  show Flt.add Flt.nan a = Flt.nan
  cases a <;> rfl

theorem Flt.zero_div_zero : (-(0 : Flt K)) / 0 = Flt.nan := by
  show Flt.div (Flt.neg (Flt.fin 0)) (Flt.fin 0) = Flt.nan
  simp [Flt.div, Flt.neg, Flt.signedInf]

theorem Flt.neg_div_zero (y : K) (hy : y ≠ 0) :
    (-(Flt.fin y) / 0 : Flt K) = Flt.pinf ∨ (-(Flt.fin y) / 0 : Flt K) = Flt.ninf := by
  show Flt.div (Flt.neg (Flt.fin y)) (Flt.fin 0) = Flt.pinf ∨
    Flt.div (Flt.neg (Flt.fin y)) (Flt.fin 0) = Flt.ninf
  simp only [Flt.div, Flt.neg, Flt.signedInf, if_true, neg_eq_zero, if_neg hy]
  split_ifs
  · exact Or.inl rfl
  · exact Or.inr rfl

/-- With the special values, a ray parallel to the plane `y = 0` and off it,
with finite bounds, is missed by `Visit(Plane)` and `Visit(Disk)`: the distance
is an infinity and fails the range check. -/
theorem parallel_off_plane_miss (s : St (Flt K)) (y a b : K) (hy : y ≠ 0)
    (ho : s.ray.o.y = Flt.fin y) (hd : s.ray.d.y = 0) (hmin : s.ray.tMin = Flt.fin a)
    (hmax : s.ray.tMax = Flt.fin b) :
    Visit_Plane s = miss s ∧ Visit_Disk s = miss s := by
  unfold Visit_Plane Visit_Disk
  simp only [ho, hd, hmin, hmax]
  rcases Flt.neg_div_zero y hy with h | h
  · have h1 : Flt.pinf < Flt.fin a ∨ Flt.fin b < Flt.pinf := Or.inr rfl
    rw [h, if_pos h1, if_pos h1]
    exact ⟨rfl, rfl⟩
  · have h1 : Flt.ninf < Flt.fin a ∨ Flt.fin b < Flt.ninf := Or.inl rfl
    rw [h, if_pos h1, if_pos h1]
    exact ⟨rfl, rfl⟩

/-- With the special values, every ray with `o.y = 0` and `d.y = 0` makes
`Visit(Plane)` and `Visit(Disk)` end with the hit flag set and `tMax = NaN`:
the distance `-0/0` is NaN and no comparison with NaN rejects it. -/
theorem parallel_in_plane_hit (s : St (Flt K)) (ho : s.ray.o.y = 0) (hd : s.ray.d.y = 0) :
    ((Visit_Plane s).rst.isIntersect = true ∧ (Visit_Plane s).ray.tMax = Flt.nan) ∧
    ((Visit_Disk s).rst.isIntersect = true ∧ (Visit_Disk s).ray.tMax = Flt.nan) := by
  have hx : (s.ray.At Flt.nan).x = Flt.nan := by
    simp only [ERay.At, Flt.nan_mul, Flt.add_nan]
  have hz : (s.ray.At Flt.nan).z = Flt.nan := by
    simp only [ERay.At, Flt.nan_mul, Flt.add_nan]
  have hn : (s.ray.At Flt.nan).Norm2 = Flt.nan := by
    simp only [ERay.At, Vec3.Norm2, Flt.nan_mul, Flt.add_nan, Flt.nan_add]
  unfold Visit_Plane Visit_Disk
  simp only [ho, hd, Flt.zero_div_zero, hx, hz, hn, Flt.nan_lt, Flt.lt_nan, Flt.le_nan, or_self,
    if_false]
  exact ⟨⟨rfl, rfl⟩, rfl, rfl⟩

/-- C7, at the failing input.  The claim is that every ray with `d.y = 0`,
including one lying in the plane, makes `Visit(Plane)` and `Visit(Disk)` end
with the hit flag false and `tMax` unchanged.  On the ray from the origin along
`(1,0,0)` with bounds `[0, 100]` both tests end with the hit flag true and
`tMax = NaN`. -/
theorem parallel_ray_in_plane_reports_hit :
    inPlaneRay.ray.d.y = 0 ∧ inPlaneRay.ray.o.y = 0 ∧
    (Visit_Plane inPlaneRay).rst.isIntersect = true ∧
    (Visit_Plane inPlaneRay).ray.tMax = Flt.nan ∧
    (Visit_Disk inPlaneRay).rst.isIntersect = true ∧
    (Visit_Disk inPlaneRay).ray.tMax = Flt.nan := by
  have h := parallel_in_plane_hit inPlaneRay rfl rfl
  exact ⟨rfl, rfl, h.1.1, h.1.2, h.2.1, h.2.2⟩

/-! ### The capsule on a ray parallel to its axis -/

/-- A ray with `d.x = 0` and `d.z = 0` leaves `Visit(Ptr<Capsule>)` through the
`return` of the first block: the discriminant of the side quadratic is zero. -/
theorem Visit_Capsule_axis_parallel (M : MathEnv K) (height : K) (s : St K)
    (hx : s.ray.d.x = 0) (hz : s.ray.d.z = 0) : Visit_Capsule M height s = miss s := by
  have hside : Visit_Capsule.side M (height / 2) s = some (miss s) := by
    unfold Visit_Capsule.side
    simp only [hx, hz]
    rw [if_pos]
    simp
  unfold Visit_Capsule
  simp only [hside]

/-- A positive side discriminant excludes a direction parallel to the axis. -/
theorem capsule_side_dir (r : ERay K) (h : 0 < capsuleSideDiscriminant r) :
    0 < r.d.Dot r.d := by
  unfold capsuleSideDiscriminant at h
  have hne : r.d.x * r.d.x + r.d.z * r.d.z ≠ 0 := by
    intro h0
    have hx : r.d.x = 0 := by nlinarith [mul_self_nonneg r.d.x, mul_self_nonneg r.d.z]
    have hz : r.d.z = 0 := by nlinarith [mul_self_nonneg r.d.x, mul_self_nonneg r.d.z]
    rw [hx, hz] at h
    simp at h
  have h1 : 0 < r.d.x * r.d.x + r.d.z * r.d.z :=
    lt_of_le_of_ne (by nlinarith [mul_self_nonneg r.d.x, mul_self_nonneg r.d.z]) (Ne.symm hne)
  simp only [Vec3.Dot]
  nlinarith [mul_self_nonneg r.d.y]

/-- With a positive discriminant the first block of `Visit(Ptr<Capsule>)` either
reports a hit or leaves by `break`. -/
theorem capsule_side_some (M : MathEnv K) (halfH : K) (s r : St K)
    (h : 0 < capsuleSideDiscriminant s.ray) (hr : Visit_Capsule.side M halfH s = some r) :
    r.rst.isIntersect = true := by
  unfold Visit_Capsule.side at hr
  unfold capsuleSideDiscriminant at h
  simp only [] at hr
  rw [if_neg (not_le.mpr h)] at hr
  split_ifs at hr <;> cases hr <;> rfl

/-- The points of a cap sphere on the ray are at the two roots of its block. -/
theorem capsule_cap_roots (M : MathEnv K) (cy : K) (r : ERay K) (ha : 0 < r.d.Dot r.d)
    (hD : 0 < capsuleCapDiscriminant cy r) (hsq : SqrtExactAt M (capsuleCapDiscriminant cy r))
    (t : K) (ht : ((r.At t).sub ⟨0, cy, 0⟩).Norm2 = 1) :
    t = -(r.d.Dot (r.o.sub ⟨0, cy, 0⟩) + M.sqrt (capsuleCapDiscriminant cy r)) / r.d.Dot r.d ∨
    t = (M.sqrt (capsuleCapDiscriminant cy r) - r.d.Dot (r.o.sub ⟨0, cy, 0⟩)) / r.d.Dot r.d := by
  have hq : r.d.Dot r.d * t * t + 2 * r.d.Dot (r.o.sub ⟨0, cy, 0⟩) * t +
      ((r.o.sub ⟨0, cy, 0⟩).Norm2 - 1) = 0 := by
    simp only [ERay.At, Vec3.sub, Vec3.Norm2, Vec3.Dot] at ht ⊢
    linear_combination ht
  have := (quad_roots _ _ _ _ t ha (hsq hD.le).2).mp hq
  rcases this with e | e
  · left; rw [e, mul_one_div]
  · right; rw [e, mul_one_div, neg_add_eq_sub]

/-- The second block of `Visit(Ptr<Capsule>)` reports a hit when the upper sphere
has a positive discriminant and a point on the ray, in range, above `y = halfH`. -/
theorem capsule_top_hit (M : MathEnv K) (halfH : K) (s : St K) (ha : 0 < s.ray.d.Dot s.ray.d)
    (hD : 0 < capsuleCapDiscriminant halfH s.ray)
    (hsq : SqrtExactAt M (capsuleCapDiscriminant halfH s.ray))
    (t : K) (h0 : s.ray.tMin ≤ t) (h1 : t ≤ s.ray.tMax)
    (ht : ((s.ray.At t).sub ⟨0, halfH, 0⟩).Norm2 = 1) (hy : halfH < (s.ray.At t).y) :
    ∃ r, Visit_Capsule.top M halfH (s.ray.d.Dot s.ray.d) s = some r ∧
      r.rst.isIntersect = true := by
  have hroot := capsule_cap_roots M halfH s.ray ha hD hsq t ht
  unfold capsuleCapDiscriminant at hD hroot
  unfold Visit_Capsule.top
  simp only []
  rw [if_neg (not_le.mpr hD)]
  split_ifs with c1 c2
  · exfalso
    rcases hroot with e | e
    · rw [← e] at c1
      rcases c1 with c | c | c
      · exact absurd h0 (not_le.mpr c)
      · exact absurd h1 (not_le.mpr c)
      · exact absurd hy (not_lt.mpr c)
    · rw [← e] at c2
      rcases c2 with c | c | c
      · exact absurd h0 (not_le.mpr c)
      · exact absurd h1 (not_le.mpr c)
      · exact absurd hy (not_lt.mpr c)
  · exact ⟨_, rfl, rfl⟩
  · exact ⟨_, rfl, rfl⟩

/-- The third block of `Visit(Ptr<Capsule>)` reports a hit when the lower sphere
has a positive discriminant and a point on the ray, in range, below `y = -halfH`. -/
theorem capsule_bottom_hit (M : MathEnv K) (halfH : K) (s : St K) (ha : 0 < s.ray.d.Dot s.ray.d)
    (hD : 0 < capsuleCapDiscriminant (-halfH) s.ray)
    (hsq : SqrtExactAt M (capsuleCapDiscriminant (-halfH) s.ray))
    (t : K) (h0 : s.ray.tMin ≤ t) (h1 : t ≤ s.ray.tMax)
    (ht : ((s.ray.At t).sub ⟨0, -halfH, 0⟩).Norm2 = 1) (hy : (s.ray.At t).y < -halfH) :
    ∃ r, Visit_Capsule.bottom M halfH (s.ray.d.Dot s.ray.d) s = some r ∧
      r.rst.isIntersect = true := by
  have hroot := capsule_cap_roots M (-halfH) s.ray ha hD hsq t ht
  unfold capsuleCapDiscriminant at hD hroot
  unfold Visit_Capsule.bottom
  simp only []
  rw [if_neg (not_le.mpr hD)]
  split_ifs with c1 c2
  · exfalso
    rcases hroot with e | e
    · rw [← e] at c1
      rcases c1 with c | c | c
      · exact absurd h0 (not_le.mpr c)
      · exact absurd h1 (not_le.mpr c)
      · exact absurd hy (not_lt.mpr c)
    · rw [← e] at c2
      rcases c2 with c | c | c
      · exact absurd h0 (not_le.mpr c)
      · exact absurd h1 (not_le.mpr c)
      · exact absurd hy (not_lt.mpr c)
  · exact ⟨_, rfl, rfl⟩
  · exact ⟨_, rfl, rfl⟩

/-- A block of a cap that returns, returns a hit. -/
theorem capsule_top_some (M : MathEnv K) (halfH a : K) (s r : St K)
    (hr : Visit_Capsule.top M halfH a s = some r) : r.rst.isIntersect = true := by
  unfold Visit_Capsule.top at hr
  simp only [] at hr
  split_ifs at hr <;> cases hr <;> rfl

/-- Where the capsule does fall through from the side to the caps: when the side
quadratic has a positive discriminant (so the ray is not parallel to the axis),
a point of the upper sphere on the ray, in range and above `y = h/2`, or of the
lower sphere below `y = -h/2`, makes `Visit(Capsule)` report a hit, provided the
ray is not tangent to that sphere (its discriminant is positive). -/
theorem capsule_falls_through (M : MathEnv K) (height : K) (s : St K)
    (hside : 0 < capsuleSideDiscriminant s.ray)
    (hsqT : SqrtExactAt M (capsuleCapDiscriminant (height / 2) s.ray))
    (hsqB : SqrtExactAt M (capsuleCapDiscriminant (-(height / 2)) s.ray))
    (t : K) (h0 : s.ray.tMin ≤ t) (h1 : t ≤ s.ray.tMax)
    (hcap : (0 < capsuleCapDiscriminant (height / 2) s.ray ∧
        ((s.ray.At t).sub ⟨0, height / 2, 0⟩).Norm2 = 1 ∧ height / 2 < (s.ray.At t).y) ∨
      (0 < capsuleCapDiscriminant (-(height / 2)) s.ray ∧
        ((s.ray.At t).sub ⟨0, -(height / 2), 0⟩).Norm2 = 1 ∧ (s.ray.At t).y < -(height / 2))) :
    (Visit_Capsule M height s).rst.isIntersect = true := by
  have ha := capsule_side_dir s.ray hside
  unfold Visit_Capsule
  simp only []
  cases hs : Visit_Capsule.side M (height / 2) s with
  | some r => exact capsule_side_some M _ s r hside hs
  | none =>
    simp only []
    cases htop : Visit_Capsule.top M (height / 2) (s.ray.d.Dot s.ray.d) s with
    | some r => exact capsule_top_some M _ _ s r htop
    | none =>
      simp only []
      rcases hcap with ⟨hD, ht, hy⟩ | ⟨hD, ht, hy⟩
      · obtain ⟨r, hr, _⟩ := capsule_top_hit M _ s ha hD hsqT t h0 h1 ht hy
        rw [htop] at hr; exact absurd hr (by simp)
      · obtain ⟨r, hr, hf⟩ := capsule_bottom_hit M _ s ha hD hsqB t h0 h1 ht hy
        rw [hr]; exact hf

/-- C6, at the failing input.  The claim is that the ray from `(0,5,0)` along
`(0,-1,0)` is reported as a hit on the top cap of the capsule of height 2 at
`t = 3`.  The point at `t = 3` is on the upper sphere (centre `(0,1,0)`), above
`y = 1` and within the bounds, and yet `Visit(Capsule)` ends with the hit flag
false and `tMax` unchanged, in exact arithmetic and with the special values. -/
theorem capsule_axis_ray_missed :
    (axisRay.ray.tMin ≤ 3 ∧ 3 ≤ axisRay.ray.tMax ∧
      ((axisRay.ray.At 3).sub ⟨0, 2 / 2, 0⟩).Norm2 = 1 ∧ 2 / 2 < (axisRay.ray.At 3).y) ∧
    (Visit_Capsule ratEnv 2 axisRay).rst.isIntersect = false ∧
    (Visit_Capsule ratEnv 2 axisRay).ray.tMax = 100 ∧
    (Visit_Capsule (Flt.env ratEnv) 2 axisRayFlt).rst.isIntersect = false ∧
    (Visit_Capsule (Flt.env ratEnv) 2 axisRayFlt).ray.tMax = Flt.fin 100 := by
  have h := Visit_Capsule_axis_parallel ratEnv 2 axisRay rfl rfl
  have hside : Visit_Capsule.side (Flt.env ratEnv) (2 / 2) axisRayFlt = some (miss axisRayFlt) := by
    unfold Visit_Capsule.side
    rw [if_pos]
    simp only [axisRayFlt, Flt.zero_def, Flt.one_def, Flt.fin_mul, Flt.fin_add, Flt.fin_sub,
      Flt.fin_le]
    norm_num
  have hf : Visit_Capsule (Flt.env ratEnv) 2 axisRayFlt = miss axisRayFlt := by
    unfold Visit_Capsule
    simp only [hside]
  refine ⟨?_, by rw [h]; rfl, by rw [h]; rfl, by rw [hf]; rfl, by rw [hf]; rfl⟩
  norm_num [axisRay, ERay.At, Vec3.sub, Vec3.Norm2]

/-! ### The capsule: priority of the side, and the seam -/

theorem ratSqrt_one : ratSqrt 1 = 1 := by
  simp [ratSqrt]

theorem ratSqrt_four : ratSqrt 4 = 2 := by
  have h1 : Nat.sqrt (Int.toNat 4) = 2 := Nat.sqrt_eq 2
  norm_num [ratSqrt, h1]

theorem priorityRay_root : capsuleSideRoot ratEnv priorityRay.ray = some (1 / 2) := by
  have hD : capsuleSideDiscriminant priorityRay.ray = 4 := by
    norm_num [capsuleSideDiscriminant, priorityRay]
  simp only [capsuleSideRoot, capsuleSideRootNear, capsuleSideRootFar, hD, ratEnv, ratSqrt_four]
  norm_num [priorityRay]

/-- The two-step choice of a root in the quadratic blocks: reject the first
candidate when it is out of range, then the second. -/
theorem select_root_eq {β : Type} (tn tf lo hi : K) (F : K → Option β) :
    (if tn < lo ∨ hi < tn then (if tf < lo ∨ hi < tf then none else F tf) else F tn) =
      match (if lo ≤ tn ∧ tn ≤ hi then some tn
        else if lo ≤ tf ∧ tf ≤ hi then some tf else none) with
      | none => none
      | some t => F t := by
  by_cases h1 : lo ≤ tn ∧ tn ≤ hi
  · have hc : ¬ (tn < lo ∨ hi < tn) := by
      simp only [not_or, not_lt]; exact h1
    rw [if_neg hc, if_pos h1]
  · have hc : tn < lo ∨ hi < tn := by
      by_contra hc
      simp only [not_or, not_lt] at hc
      exact h1 hc
    rw [if_pos hc, if_neg h1]
    by_cases h2 : lo ≤ tf ∧ tf ≤ hi
    · have hc2 : ¬ (tf < lo ∨ hi < tf) := by
        simp only [not_or, not_lt]; exact h2
      rw [if_neg hc2, if_pos h2]
    · have hc2 : tf < lo ∨ hi < tf := by
        by_contra hc2
        simp only [not_or, not_lt] at hc2
        exact h2 hc2
      rw [if_pos hc2, if_neg h2]

/-- What the first block of `Visit(Ptr<Capsule>)` does with a positive
discriminant, in terms of the root it selects. -/
theorem Visit_Capsule_side_eq (M : MathEnv K) (halfH : K) (s : St K)
    (hD : 0 < capsuleSideDiscriminant s.ray) :
    Visit_Capsule.side M halfH s =
      match capsuleSideRoot M s.ray with
      | none => none
      | some t =>
        if -halfH < (s.ray.At t).y ∧ (s.ray.At t).y < halfH then
          some (hit s t ⟨(s.ray.At t).x, 0, (s.ray.At t).z⟩ (M.TexcoordOf (s.ray.At t))
            (M.TangentOf (s.ray.At t)))
        else none := by
  have hF : ∀ t : K,
      (if (s.ray.At t).y ≤ -halfH ∨ halfH ≤ (s.ray.At t).y then none
        else some (hit s t ⟨(s.ray.At t).x, 0, (s.ray.At t).z⟩ (M.TexcoordOf (s.ray.At t))
          (M.TangentOf (s.ray.At t)))) =
      (if -halfH < (s.ray.At t).y ∧ (s.ray.At t).y < halfH then
          some (hit s t ⟨(s.ray.At t).x, 0, (s.ray.At t).z⟩ (M.TexcoordOf (s.ray.At t))
            (M.TangentOf (s.ray.At t)))
        else none) := by
    intro t
    by_cases h : -halfH < (s.ray.At t).y ∧ (s.ray.At t).y < halfH
    · rw [if_pos h, if_neg]
      simp only [not_or, not_le]; exact h
    · rw [if_neg h, if_pos]
      by_contra hc
      simp only [not_or, not_le] at hc
      exact h hc
  unfold Visit_Capsule.side capsuleSideRoot capsuleSideRootNear capsuleSideRootFar
  unfold capsuleSideDiscriminant at hD ⊢
  simp only []
  rw [if_neg (not_le.mpr hD)]
  refine Eq.trans (select_root_eq _ _ _ _ (fun t =>
    if (s.ray.At t).y ≤ -halfH ∨ halfH ≤ (s.ray.At t).y then none
    else some (hit s t ⟨(s.ray.At t).x, 0, (s.ray.At t).z⟩ (M.TexcoordOf (s.ray.At t))
      (M.TangentOf (s.ray.At t))))) ?_
  simp only [hF]

/-- A point of the ray at a root of the side quadratic lies on the cylinder
`x^2 + z^2 = 1`. -/
theorem capsule_side_root_on_cylinder (M : MathEnv K) (r : ERay K)
    (hD : 0 < capsuleSideDiscriminant r) (hsq : SqrtExactAt M (capsuleSideDiscriminant r))
    (t : K) (ht : capsuleSideRoot M r = some t) :
    (r.At t).x * (r.At t).x + (r.At t).z * (r.At t).z = 1 := by
  have ha : 0 < r.d.x * r.d.x + r.d.z * r.d.z := by
    have h0 : 0 ≤ r.d.x * r.d.x + r.d.z * r.d.z := by
      nlinarith [mul_self_nonneg r.d.x, mul_self_nonneg r.d.z]
    rcases h0.lt_or_eq with h | h
    · exact h
    · exfalso
      have hx : r.d.x = 0 := by nlinarith [mul_self_nonneg r.d.x, mul_self_nonneg r.d.z]
      have hz : r.d.z = 0 := by nlinarith [mul_self_nonneg r.d.x, mul_self_nonneg r.d.z]
      unfold capsuleSideDiscriminant at hD
      rw [hx, hz] at hD
      simp at hD
  have hs := (hsq hD.le).2
  have hroot : t = -(r.d.x * r.o.x + r.d.z * r.o.z + M.sqrt (capsuleSideDiscriminant r)) *
        (1 / (r.d.x * r.d.x + r.d.z * r.d.z)) ∨
      t = (-(r.d.x * r.o.x + r.d.z * r.o.z) + M.sqrt (capsuleSideDiscriminant r)) *
        (1 / (r.d.x * r.d.x + r.d.z * r.d.z)) := by
    unfold capsuleSideRoot capsuleSideRootNear capsuleSideRootFar at ht
    split_ifs at ht
    · left; rw [← Option.some.inj ht, mul_one_div]
    · right; rw [← Option.some.inj ht, mul_one_div, neg_add_eq_sub]
  have hq := (quad_roots (r.d.x * r.d.x + r.d.z * r.d.z) (r.d.x * r.o.x + r.d.z * r.o.z)
    (r.o.x * r.o.x + r.o.z * r.o.z - 1) _ t ha hs).mpr hroot
  simp only [ERay.At]
  linear_combination hq

/-- C11. Capsule fixed priority: if the cylinder quadratic (in x, z) has a
positive discriminant and its selected root `t` (the smaller root if it lies in
`[tMin, tMax]`, else the larger one if in range) gives a point with
`-h/2 < y < h/2`, then `Visit(Capsule)` reports a hit with new `tMax = t` and
normal `(x, 0, z)` of that point (a point of the cylinder when the square root
is exact), whatever the two hemisphere spheres do; and this happens on a ray
for which the upper sphere has a valid root smaller than `t`. -/
theorem capsule_side_priority (M : MathEnv K) (height : K) (s : St K) (t : K)
    (hD : 0 < capsuleSideDiscriminant s.ray) (ht : capsuleSideRoot M s.ray = some t)
    (hy : -(height / 2) < (s.ray.At t).y ∧ (s.ray.At t).y < height / 2) :
    (Visit_Capsule M height s).rst.isIntersect = true ∧
    (Visit_Capsule M height s).ray.tMax = t ∧
    (Visit_Capsule M height s).rst.n = ⟨(s.ray.At t).x, 0, (s.ray.At t).z⟩ ∧
    (SqrtExactAt M (capsuleSideDiscriminant s.ray) →
      (s.ray.At t).x * (s.ray.At t).x + (s.ray.At t).z * (s.ray.At t).z = 1) ∧
    (∃ (s0 : St ℚ) (tcap : ℚ),
      s0.ray.tMin ≤ tcap ∧ tcap ≤ s0.ray.tMax ∧
      ((s0.ray.At tcap).sub ⟨0, 2 / 2, 0⟩).Norm2 = 1 ∧ 2 / 2 < (s0.ray.At tcap).y ∧
      (Visit_Capsule ratEnv 2 s0).rst.isIntersect = true ∧
      tcap < (Visit_Capsule ratEnv 2 s0).ray.tMax ∧
      (Visit_Capsule ratEnv 2 s0).rst.n = ⟨1, 0, 0⟩) := by
  have hside := Visit_Capsule_side_eq M (height / 2) s hD
  rw [ht] at hside
  simp only [] at hside
  rw [if_pos hy] at hside
  have hres : Visit_Capsule M height s =
      hit s t ⟨(s.ray.At t).x, 0, (s.ray.At t).z⟩ (M.TexcoordOf (s.ray.At t))
        (M.TangentOf (s.ray.At t)) := by
    unfold Visit_Capsule
    simp only [hside]
  refine ⟨by rw [hres]; rfl, by rw [hres]; rfl, by rw [hres]; rfl,
    fun hsq => capsule_side_root_on_cylinder M s.ray hD hsq t ht, priorityRay, 3 / 10, ?_⟩
  have hD0 : 0 < capsuleSideDiscriminant priorityRay.ray := by
    norm_num [capsuleSideDiscriminant, priorityRay]
  have hs0 := Visit_Capsule_side_eq ratEnv (2 / 2) priorityRay hD0
  have hroot := priorityRay_root
  rw [hroot] at hs0
  simp only [] at hs0
  rw [if_pos (by norm_num [priorityRay, ERay.At])] at hs0
  have hres0 : Visit_Capsule ratEnv 2 priorityRay =
      hit priorityRay (1 / 2) ⟨(priorityRay.ray.At (1 / 2)).x, 0, (priorityRay.ray.At (1 / 2)).z⟩
        (ratEnv.TexcoordOf (priorityRay.ray.At (1 / 2)))
        (ratEnv.TangentOf (priorityRay.ray.At (1 / 2))) := by
    unfold Visit_Capsule
    simp only [hs0]
  rw [hres0]
  norm_num [priorityRay, hit, ERay.At, Vec3.sub, Vec3.Norm2]

/-- An instance of C11 over the rationals: on the ray from `(0,9/2,0)` along
`(2,-9,0)` the side root `1/2` is selected and wins, although the upper sphere
is met earlier, at `3/10`. -/
theorem capsule_side_priority_witness :
    (0 < capsuleSideDiscriminant priorityRay.ray ∧
      capsuleSideRoot ratEnv priorityRay.ray = some (1 / 2) ∧
      (-((2 : ℚ) / 2) < (priorityRay.ray.At (1 / 2)).y ∧
        (priorityRay.ray.At (1 / 2)).y < (2 : ℚ) / 2)) ∧
    (Visit_Capsule ratEnv 2 priorityRay).rst.isIntersect = true ∧
    (Visit_Capsule ratEnv 2 priorityRay).ray.tMax = 1 / 2 :=
  have hD : 0 < capsuleSideDiscriminant priorityRay.ray := by
    norm_num [capsuleSideDiscriminant, priorityRay]
  have ht : capsuleSideRoot ratEnv priorityRay.ray = some (1 / 2) := priorityRay_root
  have hy : -((2 : ℚ) / 2) < (priorityRay.ray.At (1 / 2)).y ∧
      (priorityRay.ray.At (1 / 2)).y < (2 : ℚ) / 2 := by
    norm_num [priorityRay, ERay.At]
  have h := capsule_side_priority ratEnv 2 priorityRay (1 / 2) hD ht hy
  ⟨⟨hD, ht, hy⟩, h.1, h.2.1⟩

theorem Flt.signedInf_pos (x : K) (h : 0 < x) : Flt.signedInf x = Flt.pinf := by
  simp [Flt.signedInf, h, ne_of_gt h]

theorem Flt.signedInf_neg (x : K) (h : x < 0) : Flt.signedInf x = Flt.ninf := by
  simp [Flt.signedInf, ne_of_lt h, not_lt.mpr h.le]

theorem Flt.fin_mul_pinf (x : K) : Flt.fin x * Flt.pinf = Flt.signedInf x := rfl

theorem Flt.fin_mul_ninf (x : K) : Flt.fin x * Flt.ninf = Flt.signedInf (-x) := rfl

theorem Flt.one_div_zero : (1 : Flt K) / 0 = Flt.pinf := by
  show Flt.div (Flt.fin 1) (Flt.fin 0) = Flt.pinf
  simp [Flt.div, Flt.signedInf]

theorem Flt.one_div_one : (1 : Flt K) / 1 = Flt.fin 1 := by
  show Flt.div (Flt.fin 1) (Flt.fin 1) = Flt.fin 1
  simp [Flt.div]

theorem Flt.ninf_lt_fin (a : K) : Flt.ninf < Flt.fin a := rfl

theorem Flt.fin_lt_pinf (a : K) : Flt.fin a < Flt.pinf := rfl

theorem Flt.not_pinf_lt (a : Flt K) : ¬ (Flt.pinf < a) := by
  show ¬ (Flt.blt Flt.pinf a = true)
  cases a <;> simp [Flt.blt]

theorem Flt.not_lt_ninf (a : Flt K) : ¬ (a < Flt.ninf) := by
  show ¬ (Flt.blt a Flt.ninf = true)
  cases a <;> simp [Flt.blt]

theorem Flt.pinf_not_neg : ¬ ((Flt.pinf : Flt K) < 0) := Flt.not_pinf_lt 0

theorem Flt.ninf_neg : (Flt.ninf : Flt K) < 0 := rfl

/-- One iteration of the loop of `Intersect` over numbers with special values,
in terms of the entry and exit distances of the axis. -/
theorem Intersect_loop_cons_flt (bbox : BBox (Flt K)) (o invDir : Vec3 (Flt K)) (i : Fin 3)
    (rest : List (Fin 3)) (lo hi : Flt K) :
    Intersect.loop bbox o invDir (i :: rest) lo hi =
      if stdMin (slabExit bbox o invDir i) hi < stdMax (slabEntry bbox o invDir i) lo then false
      else Intersect.loop bbox o invDir rest (stdMax (slabEntry bbox o invDir i) lo)
        (stdMin (slabExit bbox o invDir i) hi) := by
  simp only [Intersect.loop, slabEntry, slabExit]

/-- An axis whose reciprocal direction is an infinity: with the origin strictly
inside the slab the entry is `-inf` and the exit `+inf`; with the origin
strictly outside both are the same infinity. -/
theorem slab_axis_inf (bbox : BBox (Flt K)) (o invDir : Vec3 (Flt K)) (i : Fin 3)
    (mn mx og : K) (hmn : bbox.minP.get i = Flt.fin mn) (hmx : bbox.maxP.get i = Flt.fin mx)
    (hog : o.get i = Flt.fin og) (hbox : mn ≤ mx)
    (hinv : invDir.get i = Flt.pinf ∨ invDir.get i = Flt.ninf) :
    (mn < og ∧ og < mx →
      slabEntry bbox o invDir i = Flt.ninf ∧ slabExit bbox o invDir i = Flt.pinf) ∧
    (og < mn →
      (slabEntry bbox o invDir i = Flt.pinf ∧ slabExit bbox o invDir i = Flt.pinf) ∨
      (slabEntry bbox o invDir i = Flt.ninf ∧ slabExit bbox o invDir i = Flt.ninf)) ∧
    (mx < og →
      (slabEntry bbox o invDir i = Flt.pinf ∧ slabExit bbox o invDir i = Flt.pinf) ∨
      (slabEntry bbox o invDir i = Flt.ninf ∧ slabExit bbox o invDir i = Flt.ninf)) := by
  unfold slabEntry slabExit
  rw [hmn, hmx, hog]
  rcases hinv with h | h
  · rw [h, if_neg Flt.pinf_not_neg, if_neg Flt.pinf_not_neg, Flt.fin_sub, Flt.fin_sub,
      Flt.fin_mul_pinf, Flt.fin_mul_pinf]
    refine ⟨fun hin => ?_, fun hout => ?_, fun hout => ?_⟩
    · rw [Flt.signedInf_neg _ (by linarith [hin.1]), Flt.signedInf_pos _ (by linarith [hin.2])]
      exact ⟨rfl, rfl⟩
    · rw [Flt.signedInf_pos _ (by linarith), Flt.signedInf_pos _ (by linarith)]
      exact Or.inl ⟨rfl, rfl⟩
    · rw [Flt.signedInf_neg _ (by linarith), Flt.signedInf_neg _ (by linarith)]
      exact Or.inr ⟨rfl, rfl⟩
  · rw [h, if_pos Flt.ninf_neg, if_pos Flt.ninf_neg, Flt.fin_sub, Flt.fin_sub,
      Flt.fin_mul_ninf, Flt.fin_mul_ninf]
    refine ⟨fun hin => ?_, fun hout => ?_, fun hout => ?_⟩
    · rw [Flt.signedInf_neg _ (by linarith [hin.2]), Flt.signedInf_pos _ (by linarith [hin.1])]
      exact ⟨rfl, rfl⟩
    · rw [Flt.signedInf_neg _ (by linarith), Flt.signedInf_neg _ (by linarith)]
      exact Or.inr ⟨rfl, rfl⟩
    · rw [Flt.signedInf_pos _ (by linarith), Flt.signedInf_pos _ (by linarith)]
      exact Or.inl ⟨rfl, rfl⟩

theorem stdMax_ninf (a : K) : stdMax (Flt.ninf : Flt K) (Flt.fin a) = Flt.fin a := by
  unfold stdMax; rw [if_pos (Flt.ninf_lt_fin a)]

theorem stdMin_pinf (b : K) : stdMin (Flt.pinf : Flt K) (Flt.fin b) = Flt.fin b := by
  unfold stdMin; rw [if_pos (Flt.fin_lt_pinf b)]

theorem stdMax_pinf (a : K) : stdMax (Flt.pinf : Flt K) (Flt.fin a) = Flt.pinf := by
  unfold stdMax; rw [if_neg (Flt.not_pinf_lt _)]

theorem stdMin_ninf (b : K) : stdMin (Flt.ninf : Flt K) (Flt.fin b) = Flt.ninf := by
  unfold stdMin; rw [if_neg (Flt.not_lt_ninf _)]

theorem stdMax_fin (x a : K) : stdMax (Flt.fin x) (Flt.fin a) = Flt.fin (max x a) := by
  unfold stdMax
  by_cases h : x < a
  · rw [if_pos ((Flt.fin_lt x a).mpr h), max_eq_right h.le]
  · rw [if_neg (fun hc => h ((Flt.fin_lt x a).mp hc)), max_eq_left (not_lt.mp h)]

theorem stdMin_fin (x b : K) : stdMin (Flt.fin x) (Flt.fin b) = Flt.fin (min x b) := by
  unfold stdMin
  by_cases h : b < x
  · rw [if_pos ((Flt.fin_lt b x).mpr h), min_eq_right h.le]
  · rw [if_neg (fun hc => h ((Flt.fin_lt b x).mp hc)), min_eq_left (not_lt.mp h)]

/-- The slab test of the ray from `(0,0,-5)` along `(0,0,1)` against the unit
box, with finite bounds `a`, `b`: the value of `Intersect`. -/
theorem Intersect_zAxis (r : ERay (Flt K)) (a b : K) (hmin : r.tMin = Flt.fin a)
    (hmax : r.tMax = Flt.fin b) (ho : r.o = ⟨0, 0, Flt.fin (-5)⟩) (hd : r.d = ⟨0, 0, 1⟩) :
    r.InvDir = ⟨Flt.pinf, Flt.pinf, Flt.fin 1⟩ ∧
    (∀ i : Fin 3, i ≠ 2 →
      slabEntry (unitBoxFlt K) r.o r.InvDir i = Flt.ninf ∧
      slabExit (unitBoxFlt K) r.o r.InvDir i = Flt.pinf) ∧
    slabEntry (unitBoxFlt K) r.o r.InvDir 2 = Flt.fin 4 ∧
    slabExit (unitBoxFlt K) r.o r.InvDir 2 = Flt.fin 6 ∧
    (Intersect r (unitBoxFlt K) r.InvDir = true ↔ a ≤ b ∧ max 4 a ≤ min 6 b) := by
  have hinv : r.InvDir = ⟨Flt.pinf, Flt.pinf, Flt.fin 1⟩ := by
    unfold ERay.InvDir
    rw [hd]
    simp only [Flt.one_div_zero, Flt.one_div_one]
  have hxy : ∀ i : Fin 3, i ≠ 2 →
      slabEntry (unitBoxFlt K) r.o r.InvDir i = Flt.ninf ∧
      slabExit (unitBoxFlt K) r.o r.InvDir i = Flt.pinf := by
    intro i hi
    have hget : r.InvDir.get i = Flt.pinf := by
      rw [hinv]
      fin_cases i
      · rfl
      · rfl
      · exact absurd rfl hi
    have hog : r.o.get i = Flt.fin 0 := by
      rw [ho]
      fin_cases i
      · rfl
      · rfl
      · exact absurd rfl hi
    have hmn : (unitBoxFlt K).minP.get i = Flt.fin (-1) := by
      fin_cases i <;> rfl
    have hmx : (unitBoxFlt K).maxP.get i = Flt.fin 1 := by
      fin_cases i <;> rfl
    exact (slab_axis_inf (unitBoxFlt K) r.o r.InvDir i (-1) 1 0 hmn hmx hog (by norm_num)
      (Or.inl hget)).1 ⟨by norm_num, by norm_num⟩
  have hnot : ¬ ((Flt.fin 1 : Flt K) < 0) := by
    rw [Flt.zero_def, Flt.fin_lt]; norm_num
  have hz1 : slabEntry (unitBoxFlt K) r.o r.InvDir 2 = Flt.fin 4 := by
    unfold slabEntry
    rw [hinv, ho]
    simp only [Vec3.get, unitBoxFlt]
    rw [if_neg hnot, Flt.fin_sub, Flt.fin_mul]
    norm_num
  have hz2 : slabExit (unitBoxFlt K) r.o r.InvDir 2 = Flt.fin 6 := by
    unfold slabExit
    rw [hinv, ho]
    simp only [Vec3.get, unitBoxFlt]
    rw [if_neg hnot, Flt.one_def, Flt.fin_sub, Flt.fin_mul]
    norm_num
  refine ⟨hinv, hxy, hz1, hz2, ?_⟩
  unfold Intersect
  rw [Intersect_loop_cons_flt, (hxy 0 (by decide)).1, (hxy 0 (by decide)).2, hmin, hmax,
    stdMax_ninf, stdMin_pinf, Intersect_loop_cons_flt, (hxy 1 (by decide)).1,
    (hxy 1 (by decide)).2, stdMax_ninf, stdMin_pinf, Intersect_loop_cons_flt, hz1, hz2,
    stdMax_fin, stdMin_fin]
  simp only [Flt.fin_lt, Intersect.loop]
  by_cases h1 : b < a
  · simp only [h1, if_true, Bool.false_eq_true, false_iff, not_and]
    intro h2
    exact absurd h2 (not_le.mpr h1)
  · by_cases h2 : min 6 b < max 4 a
    · simp only [h1, h2, if_true, if_false, Bool.false_eq_true, false_iff, not_and, not_le,
        implies_true]
    · simp only [h1, h2, if_false, true_iff]
      exact ⟨not_lt.mp h1, not_lt.mp h2⟩

/-- C12. The slab test with zero direction components, over numbers with the
IEEE special values and finite bounds `tMin`, `tMax`.  For the ray from
`(0,0,-5)` along `(0,0,1)` the reciprocal direction is `(+inf, +inf, 1)`;
against the box `[-1,1]^3` the x and y axes leave the running interval
unchanged, the z axis has entry 4 and exit 6, and `Intersect` is true exactly
when `[tMin, tMax]` meets `[4, 6]` (for `tMin <= tMax`: `tMin <= 6` and
`tMax >= 4`).  In general, on an axis whose direction component is zero (its
reciprocal is an infinity), the axis leaves the interval unchanged when the
origin lies strictly inside the slab and rejects when it lies strictly outside. -/
theorem slab_zero_direction (r : ERay (Flt K)) (a b : K) (hmin : r.tMin = Flt.fin a)
    (hmax : r.tMax = Flt.fin b) :
    (r.o = ⟨0, 0, Flt.fin (-5)⟩ → r.d = ⟨0, 0, 1⟩ →
      r.InvDir = ⟨Flt.pinf, Flt.pinf, Flt.fin 1⟩ ∧
      (∀ i : Fin 3, i ≠ 2 →
        stdMax (slabEntry (unitBoxFlt K) r.o r.InvDir i) r.tMin = r.tMin ∧
        stdMin (slabExit (unitBoxFlt K) r.o r.InvDir i) r.tMax = r.tMax) ∧
      slabEntry (unitBoxFlt K) r.o r.InvDir 2 = Flt.fin 4 ∧
      slabExit (unitBoxFlt K) r.o r.InvDir 2 = Flt.fin 6 ∧
      (Intersect r (unitBoxFlt K) r.InvDir = true ↔ ∃ t : K, a ≤ t ∧ t ≤ b ∧ 4 ≤ t ∧ t ≤ 6) ∧
      (a ≤ b → (Intersect r (unitBoxFlt K) r.InvDir = true ↔ a ≤ 6 ∧ 4 ≤ b))) ∧
    (∀ (bbox : BBox (Flt K)) (i : Fin 3) (mn mx og : K),
      bbox.minP.get i = Flt.fin mn → bbox.maxP.get i = Flt.fin mx → r.o.get i = Flt.fin og →
      mn ≤ mx →
      (r.d.get i = 0 → r.InvDir.get i = Flt.pinf) ∧
      ∀ invDir : Vec3 (Flt K), invDir.get i = Flt.pinf ∨ invDir.get i = Flt.ninf →
        (mn < og ∧ og < mx →
          stdMax (slabEntry bbox r.o invDir i) r.tMin = r.tMin ∧
          stdMin (slabExit bbox r.o invDir i) r.tMax = r.tMax) ∧
        (og < mn ∨ mx < og →
          ∀ rest, Intersect.loop bbox r.o invDir (i :: rest) r.tMin r.tMax = false)) := by
  constructor
  · intro ho hd
    obtain ⟨h1, h2, h3, h4, h5⟩ := Intersect_zAxis r a b hmin hmax ho hd
    refine ⟨h1, ?_, h3, h4, ?_, ?_⟩
    · intro i hi
      rw [(h2 i hi).1, (h2 i hi).2, hmin, hmax, stdMax_ninf, stdMin_pinf]
      exact ⟨rfl, rfl⟩
    · rw [h5]
      constructor
      · rintro ⟨_, h⟩
        exact ⟨max 4 a, le_max_right _ _, h.trans (min_le_right _ _), le_max_left _ _,
          h.trans (min_le_left _ _)⟩
      · rintro ⟨t, t1, t2, t3, t4⟩
        exact ⟨t1.trans t2, (max_le t3 t1).trans (le_min t4 t2)⟩
    · intro hab
      rw [h5]
      constructor
      · rintro ⟨_, h⟩
        exact ⟨(le_max_right _ _).trans (h.trans (min_le_left _ _)),
          (le_max_left _ _).trans (h.trans (min_le_right _ _))⟩
      · rintro ⟨t1, t2⟩
        exact ⟨hab, max_le (le_min (by norm_num) t2) (le_min t1 hab)⟩
  · intro bbox i mn mx og hmn hmx hog hbox
    constructor
    · intro hz
      have : r.InvDir.get i = 1 / r.d.get i := by
        fin_cases i <;> rfl
      rw [this, hz, Flt.one_div_zero]
    · intro invDir hinv
      obtain ⟨hin, hlow, hhigh⟩ := slab_axis_inf bbox r.o invDir i mn mx og hmn hmx hog hbox hinv
      constructor
      · intro h
        rw [(hin h).1, (hin h).2, hmin, hmax, stdMax_ninf, stdMin_pinf]
        exact ⟨rfl, rfl⟩
      · intro h rest
        have hcases : (slabEntry bbox r.o invDir i = Flt.pinf ∧
              slabExit bbox r.o invDir i = Flt.pinf) ∨
            (slabEntry bbox r.o invDir i = Flt.ninf ∧
              slabExit bbox r.o invDir i = Flt.ninf) := by
          rcases h with h | h
          · exact hlow h
          · exact hhigh h
        rw [Intersect_loop_cons_flt, hmin, hmax]
        rcases hcases with ⟨e1, e2⟩ | ⟨e1, e2⟩
        · rw [e1, e2, stdMax_pinf, stdMin_pinf, if_pos (Flt.fin_lt_pinf b)]
        · rw [e1, e2, stdMax_ninf, stdMin_ninf, if_pos (Flt.ninf_lt_fin a)]

/-- Instances of C12 over `Flt ℚ`: the ray from `(0,0,-5)` along `(0,0,1)` with
bounds `[0, 100]` passes the unit box, and the same ray moved to `x = 3` is
rejected on the x axis. -/
theorem slab_zero_direction_witness :
    (zAxisRay.tMin = Flt.fin 0 ∧ zAxisRay.tMax = Flt.fin 100) ∧
    Intersect zAxisRay (unitBoxFlt ℚ) zAxisRay.InvDir = true ∧
    (zAxisRayOff.tMin = Flt.fin 0 ∧ zAxisRayOff.tMax = Flt.fin 100) ∧
    Intersect zAxisRayOff (unitBoxFlt ℚ) zAxisRayOff.InvDir = false :=
  ⟨⟨rfl, rfl⟩,
    ((slab_zero_direction zAxisRay 0 100 rfl rfl).1 rfl rfl).2.2.2.2.2 (by norm_num)
      |>.mpr ⟨by norm_num, by norm_num⟩,
    ⟨rfl, rfl⟩,
    (((slab_zero_direction zAxisRayOff 0 100 rfl rfl).2 (unitBoxFlt ℚ) 0 (-1) 1 3 rfl rfl rfl
      (by norm_num)).2 zAxisRayOff.InvDir
        (Or.inl (((slab_zero_direction zAxisRayOff 0 100 rfl rfl).2 (unitBoxFlt ℚ) 0 (-1) 1 3
          rfl rfl rfl (by norm_num)).1 rfl))).2 (Or.inr (by norm_num)) [1, 2]⟩

/-! ### Components of scene nodes -/

/-- What `DetachComponent` does, by its two outcomes. -/
theorem DetachComponent_cases (h : SceneHeap) (this c : Nat) :
    (h.components this (h.typeOf c) = some c →
      SObj.DetachComponent h this c =
        (true,
          { h with
            wSObj := Function.update h.wSObj c none,
            components := Function.update h.components this
              (Function.update (h.components this) (h.typeOf c) none) })) ∧
    (h.components this (h.typeOf c) ≠ some c → SObj.DetachComponent h this c = (false, h)) := by
  unfold SObj.DetachComponent
  constructor
  · intro hs
    rw [hs]
    simp
  · intro hs
    cases hc : h.components this (h.typeOf c) with
    | none => rfl
    | some stored =>
      have hne : stored ≠ c := by
        intro e
        rw [hc, e] at hs
        exact hs rfl
      simp [hne]

/-- C19. `DetachComponent` succeeds only for the attached instance and is
atomic on failure: it returns true iff the map of the node holds exactly the
instance `c` under the type of `c`; then that entry is removed, the
back-reference of `c` is cleared, and every other entry and every other
back-reference is unchanged; when it returns false nothing has changed. -/
theorem detach_component_spec (h : SceneHeap) (this c : Nat) :
    ((SObj.DetachComponent h this c).1 = true ↔ h.components this (h.typeOf c) = some c) ∧
    ((SObj.DetachComponent h this c).1 = true →
      (SObj.DetachComponent h this c).2.components this (h.typeOf c) = none ∧
      (SObj.DetachComponent h this c).2.wSObj c = none ∧
      (∀ n t, (n ≠ this ∨ t ≠ h.typeOf c) →
        (SObj.DetachComponent h this c).2.components n t = h.components n t) ∧
      (∀ c1, c1 ≠ c → (SObj.DetachComponent h this c).2.wSObj c1 = h.wSObj c1) ∧
      (SObj.DetachComponent h this c).2.typeOf = h.typeOf) ∧
    ((SObj.DetachComponent h this c).1 = false → (SObj.DetachComponent h this c).2 = h) := by
  obtain ⟨h1, h2⟩ := DetachComponent_cases h this c
  by_cases hs : h.components this (h.typeOf c) = some c
  · rw [h1 hs]
    refine ⟨⟨fun _ => hs, fun _ => rfl⟩, fun _ => ⟨?_, ?_, ?_, ?_, rfl⟩, fun hf => ?_⟩
    · simp
    · simp
    · intro n t hnt
      by_cases hn : n = this
      · rcases hnt with hnt | hnt
        · exact absurd hn hnt
        · subst hn
          simp [Function.update_noteq hnt]
      · simp [Function.update_noteq hn]
    · intro c1 hc1
      simp [Function.update_noteq hc1]
    · exact absurd hf (by simp)
  · rw [h2 hs]
    refine ⟨⟨fun hf => absurd hf (by simp), fun hc => absurd hc hs⟩,
      fun hf => absurd hf (by simp), fun _ => rfl⟩

/-- The objects of the instance of C19: node 0 holds the component 7. -/
theorem detach_component_spec_witness :
    (SObj.DetachComponent (SObj.AttachComponent emptyHeap 0 7) 0 7).1 = true ∧
    (SObj.DetachComponent (SObj.AttachComponent emptyHeap 0 7) 0 7).2.components 0 0 = none ∧
    (SObj.DetachComponent (SObj.AttachComponent emptyHeap 0 7) 0 7).2.wSObj 7 = none ∧
    (SObj.DetachComponent (SObj.AttachComponent emptyHeap 0 7) 0 8).1 = false ∧
    (SObj.DetachComponent (SObj.AttachComponent emptyHeap 0 7) 0 8).2 =
      SObj.AttachComponent emptyHeap 0 7 :=
  have hs : (SObj.AttachComponent emptyHeap 0 7).components 0
      ((SObj.AttachComponent emptyHeap 0 7).typeOf 7) = some 7 := by
    simp [SObj.AttachComponent, emptyHeap]
  have hf : (SObj.DetachComponent (SObj.AttachComponent emptyHeap 0 7) 0 8).1 = false := by
    simp [SObj.DetachComponent, SObj.AttachComponent, emptyHeap]
  have ht := (detach_component_spec (SObj.AttachComponent emptyHeap 0 7) 0 7).1.mpr hs
  have h1 := (detach_component_spec (SObj.AttachComponent emptyHeap 0 7) 0 7).2.1 ht
  ⟨ht, h1.1, h1.2.1, hf, (detach_component_spec (SObj.AttachComponent emptyHeap 0 7) 0 8).2.2 hf⟩

/-- `DetachComponent` keeps the ownership invariant. -/
theorem DetachComponent_owned (h : SceneHeap) (this c : Nat) (hinv : h.Owned) :
    (SObj.DetachComponent h this c).2.Owned := by
  obtain ⟨h1, h2⟩ := DetachComponent_cases h this c
  by_cases hs : h.components this (h.typeOf c) = some c
  · rw [h1 hs]
    intro n t c1 hc1
    simp only [] at hc1 ⊢
    have hstored : h.components n t = some c1 ∧ ¬ (n = this ∧ t = h.typeOf c) := by
      by_cases hn : n = this
      · subst hn
        by_cases ht : t = h.typeOf c
        · subst ht; simp at hc1
        · simp [Function.update_noteq ht] at hc1
          exact ⟨hc1, fun hh => ht hh.2⟩
      · simp [Function.update_noteq hn] at hc1
        exact ⟨hc1, fun hh => hn hh.1⟩
    obtain ⟨hst, hne⟩ := hstored
    have hne1 : c1 ≠ c := by
      intro e
      subst e
      have hA := hinv n t c1 hst
      have hB := hinv this (h.typeOf c1) c1 hs
      rw [hA.1] at hB
      exact hne ⟨Option.some.inj hB.1, hA.2.symm⟩
    rw [Function.update_noteq hne1]
    exact hinv n t c1 hst
  · rw [h2 hs]; exact hinv

/-- `AttachComponent` keeps the ownership invariant when the component is not
stored in the map of another node. -/
theorem AttachComponent_owned (h : SceneHeap) (this c : Nat) (hinv : h.Owned)
    (hfree : ∀ n t, h.components n t = some c → n = this) :
    (SObj.AttachComponent h this c).Owned := by
  intro n t c1 hc1
  unfold SObj.AttachComponent at hc1 ⊢
  simp only [] at hc1 ⊢
  by_cases hn : n = this
  · subst hn
    by_cases ht : t = h.typeOf c
    · subst ht
      simp only [Function.update_same, Option.some.injEq] at hc1
      subst hc1
      simp
    · simp only [Function.update_same, Function.update_noteq ht] at hc1
      have hA := hinv n t c1 hc1
      have hne : c1 ≠ c := fun e => ht (by rw [← hA.2, e])
      rw [Function.update_noteq hne]
      refine ⟨?_, hA.2⟩
      cases htar : h.components n (h.typeOf c) with
      | none => simpa using hA.1
      | some old =>
        have hB := hinv n (h.typeOf c) old htar
        have hne2 : c1 ≠ old := fun e => ht (by rw [← hA.2, e, hB.2])
        simp only [Function.update_noteq hne2]
        exact hA.1
  · simp only [Function.update_noteq hn] at hc1
    have hA := hinv n t c1 hc1
    have hne : c1 ≠ c := fun e => hn (hfree n t (e ▸ hc1))
    rw [Function.update_noteq hne]
    refine ⟨?_, hA.2⟩
    cases htar : h.components this (h.typeOf c) with
    | none => simpa using hA.1
    | some old =>
      have hB := hinv this (h.typeOf c) old htar
      have hne2 : c1 ≠ old := by
        intro e
        rw [e, hB.1] at hA
        exact hn (Option.some.inj hA.1).symm
      simp only [Function.update_noteq hne2]
      exact hA.1

/-- C18, at the failing input.  The claim is that after any sequence of
`AttachComponent` and `DetachComponent` calls from empty component maps every
stored component has its back-reference on the node that stores it.  After
attaching the component 7 to node 0 and then to node 1, the map of node 0 still
holds the component 7, whose back-reference is node 1.  (Each node holds at most
one component per type by the shape of the map.) -/
theorem attach_to_second_node_breaks_ownership :
    emptyHeap.Owned ∧
    ((ComponentCall.attach 1 7).run ((ComponentCall.attach 0 7).run emptyHeap)).components 0 0
      = some 7 ∧
    ((ComponentCall.attach 1 7).run ((ComponentCall.attach 0 7).run emptyHeap)).wSObj 7
      = some 1 ∧
    ¬ ((ComponentCall.attach 1 7).run ((ComponentCall.attach 0 7).run emptyHeap)).Owned := by
  have h1 : ((ComponentCall.attach 1 7).run
      ((ComponentCall.attach 0 7).run emptyHeap)).components 0 0 = some 7 := by
    simp [ComponentCall.run, SObj.AttachComponent, emptyHeap, Function.update]
  have h2 : ((ComponentCall.attach 1 7).run
      ((ComponentCall.attach 0 7).run emptyHeap)).wSObj 7 = some 1 := by
    simp [ComponentCall.run, SObj.AttachComponent, emptyHeap, Function.update]
  refine ⟨?_, h1, h2, ?_⟩
  · intro n t c hc
    simp [emptyHeap] at hc
  · intro hown
    have := (hown 0 0 7 h1).1
    rw [h2] at this
    exact absurd this (by simp)

/-! ### The scene traversal on examples -/

theorem Visit_Sphere_example :
    Visit_Sphere ratEnv (Init sphereExample.ray rst0) =
      hit (Init sphereExample.ray rst0) 4 ⟨0, 0, -1⟩ (ratEnv.TexcoordOf ⟨0, 0, -1⟩)
        (ratEnv.TangentOf ⟨0, 0, -1⟩) := by
  have hD : sphereDiscriminant (Init sphereExample.ray rst0).ray = 1 := by
    norm_num [sphereDiscriminant, Init, sphereExample, Vec3.Dot]
  have hnear : sphereRootNear ratEnv (Init sphereExample.ray rst0).ray = 4 := by
    simp only [sphereRootNear, hD, ratEnv, ratSqrt_one]
    norm_num [Init, sphereExample, Vec3.Dot]
  have h := ((Visit_Sphere_cases ratEnv (Init sphereExample.ray rst0)).2
    (by rw [hD]; norm_num)).1 (by rw [hnear]; norm_num [Init, sphereExample])
  rw [h, hnear]
  norm_num [Init, sphereExample, ERay.At, hit]

theorem staleScene_run :
    Visit_SObj ratEnv staleScene (Init sphereExample.ray rst0, []) =
      ({ ray := { sphereExample.ray with tMax := 4 },
         rst := { closestSObj := some 1, isIntersect := true, n := ⟨0, 0, -1⟩,
                  texcoord := ratEnv.TexcoordOf ⟨0, 0, -1⟩,
                  tangent := ratEnv.TangentOf ⟨0, 0, -1⟩ } },
       [(0, ⟨0, 0, -1⟩, ratEnv.TangentOf ⟨0, 0, -1⟩),
        (1, ⟨0, 0, -1⟩, ratEnv.TangentOf ⟨0, 0, -1⟩)]) := by
  simp only [staleScene, Visit_SObj, Visit_SObj.children, Visit_SObj.enter, Visit_SObj.own,
    Visit_SObj.leave, Shape.Accept, Visit_Sphere_example, Visit_TriMesh, Visit_TriMesh.loop]
  simp [hit, Init, rst0]

/-- C16, at the failing input.  The claim is that the closest owner is a node
whose own primitive was intersected.  In the scene whose root (node 0) carries
the unit sphere and whose child (node 1) carries a mesh with no triangles, the
ray from `(0,0,-5)` along `(0,0,1)` hits the sphere at `t = 4`; the visit of the
mesh changes nothing, the hit flag of the sphere is still set, and node 1 is
recorded: after `Init` and `Visit(root)` the closest owner is node 1. -/
theorem stale_hit_flag_records_owner :
    (∀ s : St ℚ, Visit_TriMesh ratEnv { triangles := [] } s = s) ∧
    (Visit_Sphere ratEnv (Init sphereExample.ray rst0)).rst.isIntersect = true ∧
    (Visit_Sphere ratEnv (Init sphereExample.ray rst0)).ray.tMax = 4 ∧
    (Visit_SObj ratEnv staleScene (Init sphereExample.ray rst0, [])).1.rst.closestSObj
      = some 1 ∧
    (Visit_SObj ratEnv staleScene (Init sphereExample.ray rst0, [])).1.ray.tMax = 4 := by
  refine ⟨fun s => rfl, ?_, ?_, ?_, ?_⟩
  · rw [Visit_Sphere_example]; rfl
  · rw [Visit_Sphere_example]; rfl
  · rw [staleScene_run]
  · rw [staleScene_run]

theorem sceneExample_invertible : ∀ T ∈ sceneExample.transforms, T.Invertible := by
  intro T hT
  have h : T = downTransform := by
    simp only [sceneExample, SObj.transforms, SObj.transformsList, Option.toList,
      List.append_nil, List.nil_append, List.cons_append, List.mem_cons,
      List.mem_singleton, List.not_mem_nil, or_false, or_self] at hT
    exact hT
  rw [h]
  constructor
  · intro p; simp [downTransform]
  · intro v; simp [downTransform]

theorem traversals_restore_ray_witness :
    (∀ T ∈ sceneExample.transforms, T.Invertible) ∧
    RayKept (Init bvhExampleStart.ray rst0)
      (Visit_SObj ratEnv sceneExample (Init bvhExampleStart.ray rst0, [])).1 :=
  ⟨sceneExample_invertible,
    (traversals_restore_ray ratEnv sceneExample sceneExample_invertible).1 _⟩

theorem sceneExample_ids : sceneExample.ids = [0, 1, 2] := by
  simp [sceneExample, SObj.ids, SObj.idsList]

theorem hit_orientation_reprojected_witness :
    sceneExample.ids.Nodup ∧
    (∀ (t : SObj ℚ) (x : St ℚ × OwnerLog ℚ),
      SubVisit ratEnv sceneExample (Init bvhExampleStart.ray rst0, []) t x →
      (Visit_SObj ratEnv t x).1.rst.closestSObj = x.1.rst.closestSObj →
      (Visit_SObj ratEnv t x).2 = x.2 ∧ (Visit_SObj ratEnv t x).1.rst.n = x.1.rst.n ∧
      (Visit_SObj ratEnv t x).1.rst.tangent = x.1.rst.tangent) :=
  ⟨by rw [sceneExample_ids]; decide,
    (hit_orientation_reprojected ratEnv sceneExample (by rw [sceneExample_ids]; decide)
      bvhExampleStart.ray rst0).2⟩

/-! ### The BVH traversal and the direct scan on an example -/

theorem bvhExample_realizes : bvhExample.Realizes bvhExampleTree := by
  refine ⟨_, rfl, rfl, rfl, rfl, ⟨_, rfl, rfl, rfl, ?_⟩, ⟨_, rfl, rfl, rfl, ?_⟩⟩
  · intro k hk; simp at hk; subst hk; simp [bvhExample]
  · intro k hk; simp at hk; subst hk; simp [bvhExample]

theorem bvhExample_plane_test (s : St ℚ) (ho : s.ray.o = bvhExampleStart.ray.o)
    (hd : s.ray.d = bvhExampleStart.ray.d) (htm : s.ray.tMin = bvhExampleStart.ray.tMin) :
    (2 ≤ s.ray.tMax →
      (Visit_Plane { s with ray := idTransform.ApplyTo s.ray }).rst.isIntersect = true ∧
      (Visit_Plane { s with ray := idTransform.ApplyTo s.ray }).ray.tMax = 2) ∧
    (s.ray.tMax < 2 →
      (Visit_Plane { s with ray := idTransform.ApplyTo s.ray }).rst.isIntersect = false ∧
      (Visit_Plane { s with ray := idTransform.ApplyTo s.ray }).ray.tMax = s.ray.tMax) := by
  obtain ⟨⟨o, d, tMin, tMax⟩, rst⟩ := s
  simp only [bvhExampleStart] at ho hd htm
  subst ho hd htm
  constructor
  · intro h
    norm_num [Visit_Plane, Transform.ApplyTo, idTransform, ERay.At, hit, miss] at h ⊢
    rw [if_neg (not_lt.mpr h)]
    exact ⟨rfl, rfl⟩
  · intro h
    norm_num [Visit_Plane, Transform.ApplyTo, idTransform, ERay.At, hit, miss] at h ⊢
    rw [if_pos h]
    exact ⟨rfl, rfl⟩

theorem bvhExample_disk_test (s : St ℚ) (ho : s.ray.o = bvhExampleStart.ray.o)
    (hd : s.ray.d = bvhExampleStart.ray.d) (htm : s.ray.tMin = bvhExampleStart.ray.tMin) :
    (1 ≤ s.ray.tMax →
      (Visit_Disk { s with ray := downTransform.ApplyTo s.ray }).rst.isIntersect = true ∧
      (Visit_Disk { s with ray := downTransform.ApplyTo s.ray }).ray.tMax = 1) ∧
    (s.ray.tMax < 1 →
      (Visit_Disk { s with ray := downTransform.ApplyTo s.ray }).rst.isIntersect = false ∧
      (Visit_Disk { s with ray := downTransform.ApplyTo s.ray }).ray.tMax = s.ray.tMax) := by
  obtain ⟨⟨o, d, tMin, tMax⟩, rst⟩ := s
  simp only [bvhExampleStart] at ho hd htm
  subst ho hd htm
  constructor
  · intro h
    norm_num [Visit_Disk, Transform.ApplyTo, downTransform, ERay.At, hit, miss, Vec3.Norm2] at h ⊢
    rw [if_neg (not_lt.mpr h)]
    exact ⟨rfl, rfl⟩
  · intro h
    norm_num [Visit_Disk, Transform.ApplyTo, downTransform, ERay.At, hit, miss, Vec3.Norm2] at h ⊢
    rw [if_pos h]
    exact ⟨rfl, rfl⟩

theorem bvhExample_exact :
    ExactTests ratEnv bvhExample bvhExampleStart.ray bvhExampleDist := by
  constructor
  · intro k d hd
    simp only [bvhExampleDist] at hd
    split_ifs at hd
    · rw [← Option.some.inj hd]; norm_num [bvhExampleStart]
    · rw [← Option.some.inj hd]; norm_num [bvhExampleStart]
  · intro k shape hg s ho hd htm
    rcases k with _ | _ | k
    · have hshape : shape = Shape.plane := (Option.some.inj hg).symm
      subst hshape
      obtain ⟨h1, h2⟩ := bvhExample_plane_test s ho hd htm
      constructor
      · rintro ⟨d, hd1, hd2⟩
        have hd3 : d = 2 := (Option.some.inj hd1).symm
        rw [hd3] at hd2
        obtain ⟨a, b⟩ := h1 hd2
        exact ⟨a, by rw [show ((Shape.plane.Accept ratEnv
          { s with ray := (bvhExample.shapeW2L 0).ApplyTo s.ray }).ray.tMax) = 2 from b]; rfl⟩
      · intro hall
        exact h2 (hall 2 rfl)
    · have hshape : shape = Shape.disk := (Option.some.inj hg).symm
      subst hshape
      obtain ⟨h1, h2⟩ := bvhExample_disk_test s ho hd htm
      constructor
      · rintro ⟨d, hd1, hd2⟩
        have hd3 : d = 1 := (Option.some.inj hd1).symm
        rw [hd3] at hd2
        obtain ⟨a, b⟩ := h1 hd2
        exact ⟨a, by rw [show ((Shape.disk.Accept ratEnv
          { s with ray := (bvhExample.shapeW2L 1).ApplyTo s.ray }).ray.tMax) = 1 from b]; rfl⟩
      · intro hall
        exact h2 (hall 1 rfl)
    · exact absurd hg (by simp [bvhExample])

theorem bvhExample_box0 (r : ERay ℚ) (ho : r.o = bvhExampleStart.ray.o)
    (htm : r.tMin = bvhExampleStart.ray.tMin) (hT : 1 ≤ r.tMax) :
    Intersect r ⟨⟨-1, -1/10, -1⟩, ⟨1, 11/10, 1⟩⟩ bvhExampleStart.ray.InvDir = true := by
  obtain ⟨o, d, tMin, tMax⟩ := r
  simp only [bvhExampleStart] at ho htm
  subst ho htm
  simp only at hT
  norm_num [Intersect, Intersect.loop, stdMax, stdMin, Vec3.get, ERay.InvDir, bvhExampleStart]
  refine ⟨?_, ?_, ?_⟩ <;> split_ifs <;> linarith

theorem bvhExample_box1 (r : ERay ℚ) (ho : r.o = bvhExampleStart.ray.o)
    (htm : r.tMin = bvhExampleStart.ray.tMin) (hT : 2 ≤ r.tMax) :
    Intersect r ⟨⟨-1/2, -1/10, -1/2⟩, ⟨1/2, 1/10, 1/2⟩⟩ bvhExampleStart.ray.InvDir = true := by
  obtain ⟨o, d, tMin, tMax⟩ := r
  simp only [bvhExampleStart] at ho htm
  subst ho htm
  simp only at hT
  norm_num [Intersect, Intersect.loop, stdMax, stdMin, Vec3.get, ERay.InvDir, bvhExampleStart]
  refine ⟨?_, ?_, ?_⟩ <;> split_ifs <;> linarith

theorem bvhExample_box2 (r : ERay ℚ) (ho : r.o = bvhExampleStart.ray.o)
    (htm : r.tMin = bvhExampleStart.ray.tMin) (hT : 1 ≤ r.tMax) :
    Intersect r ⟨⟨-1, 9/10, -1⟩, ⟨1, 11/10, 1⟩⟩ bvhExampleStart.ray.InvDir = true := by
  obtain ⟨o, d, tMin, tMax⟩ := r
  simp only [bvhExampleStart] at ho htm
  subst ho htm
  simp only at hT
  norm_num [Intersect, Intersect.loop, stdMax, stdMin, Vec3.get, ERay.InvDir, bvhExampleStart]
  refine ⟨?_, ?_, ?_⟩ <;> split_ifs <;> linarith

theorem bvhExampleDist_ge_one (k : Nat) (d : ℚ) (h : bvhExampleDist k = some d) : 1 ≤ d := by
  simp only [bvhExampleDist] at h
  split_ifs at h
  · rw [← Option.some.inj h]; norm_num
  · rw [← Option.some.inj h]

theorem bvhExample_boxes :
    BoxesPass bvhExample bvhExampleStart.ray bvhExampleDist bvhExampleTree := by
  refine ⟨?_, ?_, ?_⟩
  · intro node hg r ho htm hex
    have hnode := (Option.some.inj hg).symm
    subst hnode
    obtain ⟨k, _, d, hd, _, hle⟩ := hex
    exact bvhExample_box0 r ho htm (le_trans (bvhExampleDist_ge_one k d hd) hle)
  · intro node hg r ho htm hex
    have hnode := (Option.some.inj hg).symm
    subst hnode
    obtain ⟨k, hk, d, hd, _, hle⟩ := hex
    have hk0 : k = 0 := by simpa [BVHTree.shapes] using hk
    subst hk0
    have hd2 : d = 2 := (Option.some.inj hd).symm
    rw [hd2] at hle
    exact bvhExample_box1 r ho htm hle
  · intro node hg r ho htm hex
    have hnode := (Option.some.inj hg).symm
    subst hnode
    obtain ⟨k, _, d, hd, _, hle⟩ := hex
    exact bvhExample_box2 r ho htm (le_trans (bvhExampleDist_ge_one k d hd) hle)

theorem bvhExample_order :
    ∀ k, k ∈ List.range bvhExample.shapes.length ↔ k ∈ bvhExampleTree.shapes := by
  intro k
  simp [bvhExample, bvhExampleTree, BVHTree.shapes]
  omega

theorem bvh_agrees_with_brute_force_witness :
    (bvhExampleTree.idx = 0 ∧ bvhExample.Realizes bvhExampleTree ∧
      (∀ k, k ∈ List.range bvhExample.shapes.length ↔ k ∈ bvhExampleTree.shapes) ∧
      ExactTests ratEnv bvhExample bvhExampleStart.ray bvhExampleDist ∧
      BoxesPass bvhExample bvhExampleStart.ray bvhExampleDist bvhExampleTree) ∧
    ∃ xb x1 : St ℚ × HitLog ℚ,
      bruteForce ratEnv bvhExample (List.range bvhExample.shapes.length) bvhExampleStart
        = some xb ∧
      (∀ fuel, bvhExampleTree.size ≤ fuel →
        Visit_BVHAccel ratEnv bvhExample fuel bvhExampleStart = some x1) ∧
      x1.1.ray.tMax = xb.1.ray.tMax ∧
      (x1.2 ≠ [] ↔ xb.2 ≠ []) ∧
      (xb.2 ≠ [] ↔ ∃ k d, k ∈ List.range bvhExample.shapes.length ∧
        bvhExampleDist k = some d ∧ d ≤ bvhExampleStart.ray.tMax) ∧
      xb.1.ray.tMax ≤ bvhExampleStart.ray.tMax ∧
      (∀ k d, k ∈ List.range bvhExample.shapes.length → bvhExampleDist k = some d →
        xb.1.ray.tMax ≤ d) ∧
      (xb.1.ray.tMax = bvhExampleStart.ray.tMax ∨
        ∃ k, k ∈ List.range bvhExample.shapes.length ∧
          bvhExampleDist k = some xb.1.ray.tMax) :=
  ⟨⟨rfl, bvhExample_realizes, bvhExample_order, bvhExample_exact, bvhExample_boxes⟩,
    bvh_agrees_with_brute_force ratEnv bvhExample bvhExampleTree bvhExampleDist
      (List.range bvhExample.shapes.length) bvhExampleStart rfl bvhExample_realizes
      bvhExample_order bvhExample_exact bvhExample_boxes⟩

/-! ### Rounded arithmetic: the primitives on `float` -/

/-- Known binary32 values: `0.1` is `13421773 * 2^-27`, `1/3` is
`11184811 * 2^-25`, the root of 2 is `11863283 * 2^-23`; `2^24 + 1` is a tie and
goes to the even `2^24`, `2^24 + 3` to `2^24 + 4`; the largest number doubled
is an infinity, and the smallest halved is zero. -/
theorem F32_examples :
    (0.1 : F32) = F32.fin 13421773 (-27) ∧
    (1 : F32) / 3 = F32.fin 11184811 (-25) ∧
    (16777216 : F32) + 1 = F32.fin 8388608 1 ∧
    (16777216 : F32) + 3 = F32.fin 8388610 1 ∧
    F32.fin 16777215 104 + F32.fin 16777215 104 = F32.pinf ∧
    F32.fin 1 (-149) / 2 = F32.fin 0 0 ∧
    (1 : F32) / 0 = F32.pinf ∧ (0 : F32) / 0 = F32.nan := by
  refine ⟨by decide, by decide, by decide, by decide, by decide, by decide, by decide,
    by decide⟩

theorem roundingSphereRay_exact :
    roundingSphereRay.ray.exact =
      { o := ⟨1, 1 / 8192, -5⟩, d := ⟨0, 0, 1⟩, tMin := 0, tMax := 100 } := by
  have h : roundingSphereRay.ray =
      { o := ⟨F32.fin 8388608 (-23), F32.fin 8388608 (-36), F32.fin (-10485760) (-21)⟩,
        d := ⟨F32.fin 0 0, F32.fin 0 0, F32.fin 8388608 (-23)⟩,
        tMin := F32.fin 0 0, tMax := F32.fin 13107200 (-17) } := by decide
  rw [h]
  norm_num [ERay.exact, Vec3.exact, F32.toRat]

/-- C2, as stated, fails for the `float` program.  On the ray from
`(1, 2^-13, -5)` along `(0,0,1)` the sum `1 + 2^-26 + 25` rounds to `26`, the
discriminant is computed as `0`, and `Visit(Sphere)` reports a hit at `t = 5`;
yet no point of the line is on the unit sphere, its distance from the centre
being `sqrt (1 + 2^-26)`. -/
theorem sphere_rounding_reports_hit :
    (Visit_Sphere f32Env roundingSphereRay).rst.isIntersect = true ∧
    (Visit_Sphere f32Env roundingSphereRay).ray.tMax = 5 ∧
    roundingSphereRay.ray.exact =
      { o := ⟨1, 1 / 8192, -5⟩, d := ⟨0, 0, 1⟩, tMin := 0, tMax := 100 } ∧
    ∀ t : ℚ, (roundingSphereRay.ray.exact.At t).Norm2 ≠ 1 := by
  refine ⟨by decide, by decide, roundingSphereRay_exact, ?_⟩
  intro t
  rw [roundingSphereRay_exact]
  norm_num [ERay.At, Vec3.Norm2]
  nlinarith [sq_nonneg (-5 + t)]


theorem roundingSlab_exact :
    roundingSlabRay.exact = { o := ⟨-1, -1, 0⟩, d := ⟨44, 30, 1⟩, tMin := 0, tMax := 100 } ∧
    roundingBox.exact = ⟨⟨25 / 4, 37 / 8, -100⟩, ⟨29 / 4, 45 / 8, 100⟩⟩ := by
  have h1 : roundingSlabRay =
      { o := ⟨F32.fin (-8388608) (-23), F32.fin (-8388608) (-23), F32.fin 0 0⟩,
        d := ⟨F32.fin 11534336 (-18), F32.fin 15728640 (-19), F32.fin 8388608 (-23)⟩,
        tMin := F32.fin 0 0, tMax := F32.fin 13107200 (-17) } := by decide
  have h2 : roundingBox.minP =
      ⟨F32.fin 13107200 (-21), F32.fin 9699328 (-21), F32.fin (-13107200) (-17)⟩ := by decide
  have h3 : roundingBox.maxP =
      ⟨F32.fin 15204352 (-21), F32.fin 11796480 (-21), F32.fin 13107200 (-17)⟩ := by decide
  constructor
  · rw [h1]; norm_num [ERay.exact, Vec3.exact, F32.toRat]
  · simp only [BBox.exact, h2, h3]; norm_num [Vec3.exact, F32.toRat]

/-- C4, as stated, fails for the `float` program.  The direction `(44,30,1)`
has no zero component; with the rounded reciprocals `1/44` and `1/30` the exit
on the x axis is computed as `3/16` and the entry on the y axis as a number
above it, and `Intersect` returns false; yet at `t = 3/16` the ray from
`(-1,-1,0)` is in the point `(7.25, 4.625, 0.1875)` of the box. -/
theorem slab_rounding_rejects_overlap :
    (roundingSlabRay.d.x ≠ 0 ∧ roundingSlabRay.d.y ≠ 0 ∧ roundingSlabRay.d.z ≠ 0) ∧
    Intersect roundingSlabRay roundingBox roundingSlabRay.InvDir = false ∧
    (roundingSlabRay.exact = { o := ⟨-1, -1, 0⟩, d := ⟨44, 30, 1⟩, tMin := 0, tMax := 100 } ∧
      roundingBox.exact = ⟨⟨25 / 4, 37 / 8, -100⟩, ⟨29 / 4, 45 / 8, 100⟩⟩) ∧
    ∃ t : ℚ, roundingSlabRay.exact.tMin ≤ t ∧ t ≤ roundingSlabRay.exact.tMax ∧
      ∀ i : Fin 3, roundingBox.exact.minP.get i ≤ (roundingSlabRay.exact.At t).get i ∧
        (roundingSlabRay.exact.At t).get i ≤ roundingBox.exact.maxP.get i := by
  refine ⟨⟨by decide, by decide, by decide⟩, by decide, roundingSlab_exact, 3 / 16, ?_⟩
  rw [roundingSlab_exact.1, roundingSlab_exact.2]
  refine ⟨by norm_num, by norm_num, ?_⟩
  intro i
  fin_cases i <;> norm_num [ERay.At, Vec3.get]

end Field

end RenderLab

